import Mathlib

/-!
Verification development for the obsidian focus plugin
(task store, document codec, auto sort, rollover, recurrence dates,
and the remote sync delete-safety machinery).

Each definition is a shallow embedding of the corresponding TypeScript
function from the repository sources (src/types.ts, src/taskParser.ts,
src/main.ts, src/supabaseSync.ts and the FocusView file).  JavaScript
strings are modelled as lists of characters, JavaScript objects as
structures, and the nondeterministic id generator (Date.now plus
Math.random) as an explicit id-supply parameter.  Dates are modelled at
UTC offset zero, so the local-midnight construction in the source and
the UTC rendering of toISOString refer to the same calendar day.
-/

namespace Focus

/-! ### Data model (src/types.ts) -/

/-- Task sections, from the TaskSection union type. -/
inductive TaskSection where
  | immediate
  | thisWeek
  | unscheduled
deriving DecidableEq, Repr

/-- Recurrence type union, from the RecurrenceType type. -/
inductive RecurrenceType where
  | days
  | weeks
  | months
deriving DecidableEq, Repr

/-- Recurrence record, from the Recurrence interface. -/
structure Recurrence where
  type : RecurrenceType
  interval : Nat
  dayOfWeek : Option Nat := none
  dayOfMonth : Option Nat := none
deriving DecidableEq, Repr

/-- Task record, from the Task interface.  The source field named
section is called sect here because section is a Lean keyword.  The
goalId, sourceFile and sourceLine fields are omitted: none of the
verified operations reads or writes them. -/
structure Task where
  id : String
  title : String
  completed : Bool
  completedAt : Option String := none
  sect : TaskSection
  url : Option String := none
  doDate : Option String := none
  doTime : Option String := none
  recurrence : Option Recurrence := none
deriving DecidableEq, Repr

/-- Weekly goal record, from the WeeklyGoal interface. -/
structure WeeklyGoal where
  id : String
  title : String
deriving DecidableEq, Repr

/-- Daily habit record, from the DailyHabit interface. -/
structure DailyHabit where
  id : String
  title : String
  completedToday : Bool
deriving DecidableEq, Repr

/-- The three active task lists, from the tasks field of FocusData. -/
structure SectionLists where
  immediate : List Task
  thisWeek : List Task
  unscheduled : List Task
deriving DecidableEq, Repr

/-- Root aggregate, from the FocusData interface.  The JavaScript
Record of archived months is modelled as an association list in key
insertion order, which is how a JavaScript object enumerates
non-numeric string keys. -/
structure FocusData where
  weekOf : String
  goals : List WeeklyGoal
  habits : List DailyHabit
  habitResetDate : String
  tasks : SectionLists
  completedTasks : List (String × List Task)
deriving DecidableEq, Repr

/-- Reads one of the three section lists, as tasks[sect] does. -/
def SectionLists.get (t : SectionLists) : TaskSection → List Task
  | .immediate => t.immediate
  | .thisWeek => t.thisWeek
  | .unscheduled => t.unscheduled

/-- Replaces one of the three section lists, as an assignment to
tasks[sect] does. -/
def SectionLists.set (t : SectionLists) : TaskSection → List Task → SectionLists
  | .immediate, l => { t with immediate := l }
  | .thisWeek, l => { t with thisWeek := l }
  | .unscheduled, l => { t with unscheduled := l }

/-- Count of incomplete tasks in a list; this is the length of
filter t not t.completed, the quantity the capacity checks compute. -/
def countIncomplete (l : List Task) : Nat :=
  (l.filter fun t => !t.completed).length

/-! ### Calendar arithmetic (src/taskParser.ts, computeNextRecurrenceDate)

JavaScript Date values are modelled by a civil calendar date.  The
source builds the date at local midnight and prints it with
toISOString; the model works at UTC offset zero so both denote the
same calendar day. -/

/-- Civil calendar date: month is 1 to 12, day is 1 to the month
length for valid dates. -/
structure CalDate where
  year : Int
  month : Nat
  day : Nat
deriving DecidableEq, Repr

/-- Gregorian leap-year rule, as the JavaScript Date object implements it. -/
def isLeapYear (y : Int) : Bool :=
  (y % 4 == 0 && y % 100 != 0) || y % 400 == 0

/-- Length of a month of a given year. -/
def daysInMonth (y : Int) (m : Nat) : Nat :=
  if m = 2 then (if isLeapYear y then 29 else 28)
  else if m = 4 ∨ m = 6 ∨ m = 9 ∨ m = 11 then 30
  else 31

/-- The day after a given date, matching how the Date object
normalises a day-of-month overflow of one. -/
def nextDay (dt : CalDate) : CalDate :=
  if dt.day < daysInMonth dt.year dt.month then
    { dt with day := dt.day + 1 }
  else if dt.month < 12 then
    ⟨dt.year, dt.month + 1, 1⟩
  else
    ⟨dt.year + 1, 1, 1⟩

/-- Adds a nonnegative number of days, the effect of
base.setDate(base.getDate() + n) for a valid base date. -/
def addDays (dt : CalDate) : Nat → CalDate
  | 0 => dt
  | n + 1 => nextDay (addDays dt n)

/-- The effect of base.setMonth(base.getMonth() + delta): the month
index is shifted keeping the day of month, and a day that exceeds the
new month rolls over into the following month (for a valid base date
the overflow is at most three days, so a single rollover step is
exact). -/
def jsSetMonth (dt : CalDate) (delta : Nat) : CalDate :=
  let total : Int := dt.year * 12 + ((dt.month : Int) - 1) + (delta : Int)
  let y : Int := total / 12 - (if total % 12 < 0 then 1 else 0)
  let m : Nat := (total - y * 12).toNat + 1
  if dt.day > daysInMonth y m then
    (if m < 12 then (⟨y, m + 1, dt.day - daysInMonth y m⟩ : CalDate)
     else ⟨y + 1, 1, dt.day - daysInMonth y m⟩)
  else
    ⟨y, m, dt.day⟩

/-- Embedding of computeNextRecurrenceDate from src/taskParser.ts on an
already-constructed base date. -/
def computeNextRecurrenceDate (r : Recurrence) (base : CalDate) : CalDate :=
  match r.type with
  | .days => addDays base r.interval
  | .weeks => addDays base (r.interval * 7)
  | .months =>
    let b := jsSetMonth base r.interval
    match r.dayOfMonth with
    | some dom => { b with day := min dom (daysInMonth b.year b.month) }
    | none => b

/-- Digits of a natural number, for ISO formatting. -/
def natToStr (n : Nat) : String := toString n

/-- Zero-pads a natural number to two digits, as toISOString prints
month and day fields. -/
def pad2 (n : Nat) : String :=
  if n < 10 then "0" ++ natToStr n else natToStr n

/-- Renders a date the way toISOString().split("T")[0] does for years
1000 to 9999. -/
def CalDate.toIso (dt : CalDate) : String :=
  natToStr dt.year.toNat ++ "-" ++ pad2 dt.month ++ "-" ++ pad2 dt.day

/-- Parses a string of shape YYYY-MM-DD into a date, requiring the
fields to denote a real calendar day; the Date constructor of the
source yields an invalid date (and toISOString then throws) on
anything else, modelled by none. -/
def parseIsoDate (s : String) : Option CalDate :=
  match s.data with
  | [y1, y2, y3, y4, '-', m1, m2, '-', d1, d2] =>
    if (y1.isDigit && y2.isDigit && y3.isDigit && y4.isDigit &&
        m1.isDigit && m2.isDigit && d1.isDigit && d2.isDigit) then
      let y : Nat := ((y1.toNat - 48) * 1000 + (y2.toNat - 48) * 100 +
        (y3.toNat - 48) * 10 + (y4.toNat - 48))
      let m : Nat := (m1.toNat - 48) * 10 + (m2.toNat - 48)
      let d : Nat := (d1.toNat - 48) * 10 + (d2.toNat - 48)
      if 1 ≤ m ∧ m ≤ 12 ∧ 1 ≤ d ∧ d ≤ daysInMonth (y : Int) m then
        some ⟨(y : Int), m, d⟩
      else none
    else none
  | _ => none

/-- String-level wrapper of computeNextRecurrenceDate: parse the
fromDate argument, run the date arithmetic, print the result. -/
def computeNextRecurrenceDateStr (r : Recurrence) (fromDate : String) : Option String :=
  (parseIsoDate fromDate).map fun base => (computeNextRecurrenceDate r base).toIso

/-! ### Store operations (src/main.ts addTask, FocusView.moveTaskById)

Each operation is a read-modify-write against the loaded FocusData.
The capacityNotice flag records that the operation aborted with the
maximum-immediate Notice (reported, never thrown). -/

/-- Result of a store mutation: the saved data and whether the call
was rejected by the capacity check with a user-visible notice. -/
structure OpResult where
  data : FocusData
  capacityNotice : Bool
deriving DecidableEq, Repr

/-- Embedding of FocusPlugin.addTask.  The new id is passed in
explicitly because the source generates it from the clock and the
random generator. -/
def addTask (maxImmediateTasks : Nat) (ident title : String) (sect : TaskSection)
    (url doDate doTime : Option String) (recurrence : Option Recurrence)
    (d : FocusData) : OpResult :=
  if sect = TaskSection.immediate ∧ maxImmediateTasks ≤ countIncomplete d.tasks.immediate then
    ⟨d, true⟩
  else
    let newTask : Task :=
      { id := ident, title := title, completed := false, sect := sect,
        url := url, doDate := doDate, doTime := doTime, recurrence := recurrence }
    ⟨{ d with tasks := d.tasks.set sect (d.tasks.get sect ++ [newTask]) }, false⟩

/-- Removes the first task with the given id, the findIndex plus
splice step of moveTaskById. -/
def removeFirstById (taskId : String) : List Task → List Task
  | [] => []
  | t :: ts => if t.id = taskId then ts else t :: removeFirstById taskId ts

/-- Embedding of FocusView.moveTaskById: capacity check first (only
when the target is immediate), then a silent no-op on a lookup miss,
otherwise remove from the source list and append to the target list
with the sect field reassigned. -/
def moveTaskById (maxImmediateTasks : Nat) (taskId : String)
    (fromSect toSect : TaskSection) (d : FocusData) : OpResult :=
  if toSect = TaskSection.immediate ∧ maxImmediateTasks ≤ countIncomplete d.tasks.immediate then
    ⟨d, true⟩
  else
    match (d.tasks.get fromSect).find? (fun t => t.id == taskId) with
    | none => ⟨d, false⟩
    | some task =>
      let d1 := { d with tasks := d.tasks.set fromSect (removeFirstById taskId (d.tasks.get fromSect)) }
      let moved := { task with sect := toSect }
      ⟨{ d1 with tasks := d1.tasks.set toSect (d1.tasks.get toSect ++ [moved]) }, false⟩

/-- One user-level store call: an addTask or a moveTaskById. -/
inductive StoreOp where
  | add (ident title : String) (sect : TaskSection)
      (url doDate doTime : Option String) (recurrence : Option Recurrence)
  | move (taskId : String) (fromSect toSect : TaskSection)

/-- Applies one store call. -/
def applyOp (maxImmediateTasks : Nat) (d : FocusData) : StoreOp → OpResult
  | .add ident title sect url doDate doTime recurrence =>
    addTask maxImmediateTasks ident title sect url doDate doTime recurrence d
  | .move taskId fromSect toSect =>
    moveTaskById maxImmediateTasks taskId fromSect toSect d

/-- Applies a sequence of store calls, threading the saved document. -/
def runOps (maxImmediateTasks : Nat) (d : FocusData) (ops : List StoreOp) : FocusData :=
  ops.foldl (fun e op => (applyOp maxImmediateTasks e op).data) d

/-! ### Auto sort (src/main.ts runAutoSort) -/

/-- Signed three-way comparison on characters (code point order,
which is what localeCompare computes on the ASCII date strings the
plugin writes). -/
def charCmp (a b : Char) : Int :=
  if a.toNat < b.toNat then -1 else if b.toNat < a.toNat then 1 else 0

/-- Lexicographic three-way comparison on character lists. -/
def listCmp : List Char → List Char → Int
  | [], [] => 0
  | [], _ :: _ => -1
  | _ :: _, [] => 1
  | a :: as, b :: bs => if a = b then listCmp as bs else charCmp a b

/-- Lexicographic three-way comparison on strings. -/
def strCmp (a b : String) : Int := listCmp a.data b.data

/-- The comparator passed to sort inside runAutoSort: completed tasks
last, then tasks with a doDate before tasks without, then doDate
ascending; everything else compares equal (in particular the
comparator never consults doTime). -/
def cmpAutoSort (a b : Task) : Int :=
  if a.completed ≠ b.completed then (if a.completed then 1 else -1)
  else match a.doDate, b.doDate with
  | some _, none => -1
  | none, some _ => 1
  | some x, some y => strCmp x y
  | none, none => 0

/-- Stable insertion into a sorted list: the new element goes before
the first element strictly greater than it, so elements comparing
equal keep their existing relative order. -/
def sortInsert (cmp : α → α → Int) (x : α) : List α → List α
  | [] => [x]
  | y :: ys => if cmp x y ≤ 0 then x :: y :: ys else y :: sortInsert cmp x ys

/-- Stable sort by a signed comparator.  Array.prototype.sort is
required to be stable, and for a consistent comparator every stable
sort produces the same output, so this models the source sort call. -/
def stableSortBy (cmp : α → α → Int) : List α → List α
  | [] => []
  | x :: xs => sortInsert cmp x (stableSortBy cmp xs)

/-- Result of runAutoSort: the saved data and the overflow list handed
to the AutoSortOverflowModal that surfaces it to the user. -/
structure AutoSortResult where
  data : FocusData
  overflowTasks : List Task
deriving DecidableEq, Repr

/-- One iteration of the promotion loop of runAutoSort: re-count the
incomplete immediate tasks; with room, remove the task from thisWeek
by id, mark it immediate and unshift it; otherwise push it onto the
overflow list. -/
def promoteStep (maxImmediateTasks : Nat) (st : SectionLists × List Task) (t : Task) :
    SectionLists × List Task :=
  if countIncomplete st.1.immediate < maxImmediateTasks then
    ({ st.1 with
        thisWeek := st.1.thisWeek.filter (fun x => !(x.id == t.id)),
        immediate := { t with sect := TaskSection.immediate } :: st.1.immediate }, st.2)
  else (st.1, st.2 ++ [t])

/-- Embedding of FocusPlugin.runAutoSort: promote the incomplete
thisWeek tasks dated today while capacity lasts, then stable-sort each
section with cmpAutoSort; overflowing tasks are collected and returned
(the source opens the overflow modal on them when nonempty). -/
def runAutoSort (today : String) (maxImmediateTasks : Nat) (d : FocusData) : AutoSortResult :=
  let todayTasks := d.tasks.thisWeek.filter (fun t => t.doDate == some today && !t.completed)
  let folded := todayTasks.foldl (promoteStep maxImmediateTasks) (d.tasks, [])
  let sorted : SectionLists :=
    ⟨stableSortBy cmpAutoSort folded.1.immediate,
     stableSortBy cmpAutoSort folded.1.thisWeek,
     stableSortBy cmpAutoSort folded.1.unscheduled⟩
  ⟨{ d with tasks := sorted }, folded.2⟩

/-! ### Weekly rollover (src/main.ts performWeeklyRollover) -/

/-- Result of performWeeklyRollover: the in-memory data after the two
moves, and the changed flag that gates the save. -/
structure RolloverResult where
  data : FocusData
  changed : Bool
deriving DecidableEq, Repr

/-- Embedding of FocusPlugin.performWeeklyRollover.  The two moves are
sequential: the second move reads the thisWeek list produced by the
first.  The changed flag becomes true exactly when a move loop ran at
least one iteration.  weekOf is set to today on the in-memory data
unconditionally. -/
def performWeeklyRollover (rolloverImmediateToThisWeek rolloverThisWeekToUnscheduled : Bool)
    (today : String) (d : FocusData) : RolloverResult :=
  let st1 :=
    if rolloverImmediateToThisWeek then
      let incompleteTasks := d.tasks.immediate.filter (fun t => !t.completed)
      ((⟨d.tasks.immediate.filter (fun t => t.completed),
         d.tasks.thisWeek ++ incompleteTasks.map (fun t => { t with sect := TaskSection.thisWeek }),
         d.tasks.unscheduled⟩ : SectionLists), !incompleteTasks.isEmpty)
    else (d.tasks, false)
  let st2 :=
    if rolloverThisWeekToUnscheduled then
      let incompleteTasks := st1.1.thisWeek.filter (fun t => !t.completed)
      ((⟨st1.1.immediate,
         st1.1.thisWeek.filter (fun t => t.completed),
         st1.1.unscheduled ++ incompleteTasks.map (fun t => { t with sect := TaskSection.unscheduled })⟩ : SectionLists),
       !incompleteTasks.isEmpty)
    else (st1.1, false)
  ⟨{ d with weekOf := today, tasks := st2.1 }, st1.2 || st2.2⟩

/-- The document that is durably persisted by a rollover call: the
source saves only when the changed flag is set, so with no move the
previously persisted document stays as it was. -/
def rolloverPersisted (rolloverImmediateToThisWeek rolloverThisWeekToUnscheduled : Bool)
    (today : String) (d : FocusData) : FocusData :=
  let r := performWeeklyRollover rolloverImmediateToThisWeek rolloverThisWeekToUnscheduled today d
  if r.changed then r.data else d

/-! ### Remote sync delete tracking (src/supabaseSync.ts)

Only the id-level bookkeeping is modelled: the three module-level
lastKnownRemote sets, how pullFromRemote and pushToRemote update them,
and which remote ids a push deletes.  A pull event carries the ids the
client read from the remote store; a push event carries the ids of the
full local payload (active plus archived for tasks). -/

/-- The three module-level id sets of src/supabaseSync.ts, initially
empty. -/
structure SyncSeen where
  taskIds : List String
  goalIds : List String
  habitIds : List String
deriving DecidableEq, Repr

/-- Remote ids deleted by one push, per entity type. -/
structure PushDeletes where
  taskIds : List String
  goalIds : List String
  habitIds : List String
deriving DecidableEq, Repr

/-- The delete set a push computes for one entity type: ids in the
tracked set that are absent from the local payload. -/
def diffIds (seen locIds : List String) : List String :=
  seen.filter (fun i => !(locIds.contains i))

/-- One sync round trip observed by the id tracker. -/
inductive SyncEvent where
  | pull (taskIds goalIds habitIds : List String)
  | push (taskIds goalIds habitIds : List String)

/-- Effect of one sync event on the tracked sets: a pull replaces them
by the pulled ids, a push issues the deletes and then replaces them by
the pushed payload ids. -/
def syncStep (s : SyncSeen) : SyncEvent → SyncSeen × Option PushDeletes
  | .pull t g h => (⟨t, g, h⟩, none)
  | .push t g h =>
    (⟨t, g, h⟩, some ⟨diffIds s.taskIds t, diffIds s.goalIds g, diffIds s.habitIds h⟩)

/-- The initial tracked state: the three sets start out empty. -/
def initialSeen : SyncSeen := ⟨[], [], []⟩

/-- Runs a sequence of sync events, collecting every delete set issued
by the pushes in order. -/
def runSync (s : SyncSeen) : List SyncEvent → SyncSeen × List PushDeletes
  | [] => (s, [])
  | e :: es =>
    let step := syncStep s e
    let rest := runSync step.1 es
    (rest.1, step.2.toList ++ rest.2)

/-- All task ids this client has itself seen go by in a trace, on
pulls or in its own push payloads. -/
def observedTaskIds : List SyncEvent → List String
  | [] => []
  | .pull t _ _ :: es => t ++ observedTaskIds es
  | .push t _ _ :: es => t ++ observedTaskIds es

/-- All goal ids this client has itself seen go by in a trace. -/
def observedGoalIds : List SyncEvent → List String
  | [] => []
  | .pull _ g _ :: es => g ++ observedGoalIds es
  | .push _ g _ :: es => g ++ observedGoalIds es

/-- All habit ids this client has itself seen go by in a trace. -/
def observedHabitIds : List SyncEvent → List String
  | [] => []
  | .pull _ _ h :: es => h ++ observedHabitIds es
  | .push _ _ h :: es => h ++ observedHabitIds es

/-- Task ids seen on pulls only. -/
def pulledTaskIds : List SyncEvent → List String
  | [] => []
  | .pull t _ _ :: es => t ++ pulledTaskIds es
  | .push _ _ _ :: es => pulledTaskIds es

/-! ### Character-level string model (src/taskParser.ts)

JavaScript strings are modelled as lists of characters.  The regular
expressions of the parser are hand-compiled to recursive functions;
each one is anchored at the end of the subject (a trailing whitespace
star plus the end anchor), and the leftmost-match rule of JavaScript
is modelled by trying the pattern at every start position from the
left.  The whitespace class is the subset of the JavaScript class that
the document format can contain. -/

/-- Characters the JavaScript whitespace class matches among those the
document format can contain (ASCII whitespace plus no-break space). -/
def jsWsChars : List Char := [' ', '\t', '\n', '\r', Char.ofNat 11, Char.ofNat 12, Char.ofNat 160]

/-- Membership in the modelled whitespace class. -/
def isJsWs (c : Char) : Bool := jsWsChars.contains c

/-- JavaScript line terminators, which the dot of a regular expression
refuses to match. -/
def isLineTerm (c : Char) : Bool :=
  c == '\n' || c == '\r' || c == Char.ofNat 8232 || c == Char.ofNat 8233

/-- Characters the regular-expression dot matches. -/
def isDotChar (c : Char) : Bool := !isLineTerm c

/-- Embedding of String.prototype.trim (on the modelled whitespace
class). -/
def jsTrim (s : List Char) : List Char :=
  ((s.dropWhile isJsWs).reverse.dropWhile isJsWs).reverse

/-- Splits a string at the first occurrence of a pattern, the
primitive behind both the lazy frontmatter match and the
first-occurrence behaviour of String.prototype.replace. -/
def splitFirst (pat : List Char) : List Char → Option (List Char × List Char)
  | [] => if pat.isEmpty then some ([], []) else none
  | c :: cs =>
    if pat.isPrefixOf (c :: cs) then some ([], (c :: cs).drop pat.length)
    else (splitFirst pat cs).map (fun p => (c :: p.1, p.2))

/-- Embedding of s.replace(m, "") where m is the text of a regular
expression match: the first occurrence of m is removed. -/
def replaceFirst (s pat : List Char) : List Char :=
  match splitFirst pat s with
  | some (a, b) => a ++ b
  | none => s

/-- Splits on a separator character, the embedding of
String.prototype.split with a one-character separator. -/
def splitChar (sep : Char) : List Char → List (List Char)
  | [] => [[]]
  | c :: cs =>
    if c == sep then [] :: splitChar sep cs
    else
      match splitChar sep cs with
      | [] => [[c]]
      | l :: ls => (c :: l) :: ls

/-- Joins lines with newline separators, the embedding of
Array.prototype.join with a newline. -/
def joinLines : List (List Char) → List Char
  | [] => []
  | [l] => l
  | l :: ls => l ++ '\n' :: joinLines (ls)

/-- Tries a pattern at every start position from the left and returns
the first success: this is the leftmost-match rule for an
end-anchored pattern. -/
def scanFirst (attempt : List Char → Option α) : List Char → Option α
  | [] => attempt []
  | c :: cs =>
    match attempt (c :: cs) with
    | some r => some r
    | none => scanFirst attempt cs

/-- ASCII lowercase conversion, the fragment of toLowerCase the
document headers exercise. -/
def asciiLower (c : Char) : Char :=
  if 'A' ≤ c ∧ c ≤ 'Z' then Char.ofNat (c.toNat + 32) else c

/-- Word characters of the regular-expression class. -/
def isWordChar (c : Char) : Bool := c.isAlpha || c.isDigit || c == '_'

/-- Numeric value of a digit string, the embedding of parseInt on an
all-digit subject. -/
def digitsToNat (s : List Char) : Nat :=
  s.foldl (fun n c => n * 10 + (c.toNat - 48)) 0

/-- Builds the decimal digits of a number in front of an accumulator;
the fuel argument bounds the recursion depth and any fuel at least the
number itself is enough. -/
def natDigitsAux (fuel : Nat) (n : Nat) (acc : List Char) : List Char :=
  match fuel with
  | 0 => acc
  | fuel + 1 =>
    if n = 0 then acc
    else natDigitsAux fuel (n / 10) (Nat.digitChar (n % 10) :: acc)

/-- Decimal digits of a natural number, the embedding of the JavaScript
number-to-string conversion on a nonnegative integer. -/
def natDigits (n : Nat) : List Char :=
  if n = 0 then ['0'] else natDigitsAux n n []

/-! ### Task line parsing (src/taskParser.ts parseTaskLine) -/

/-- The capture of the trailing dot-group of the checkbox pattern:
maximal leading whitespace is dropped; the remainder must be nonempty
and free of line terminators; when the remainder is empty the
backtracking of the whitespace star leaves exactly the last character
for the dot-group, provided it is not a line terminator. -/
def dotChunk (r : List Char) : Option (List Char) :=
  let core := r.dropWhile isJsWs
  if core.isEmpty then
    match r.reverse with
    | [] => none
    | c :: _ => if isDotChar c then some [c] else none
  else if core.all isDotChar then some core else none

/-- The leading checkbox pattern of task and habit lines: a dash,
optional whitespace, a bracketed mark that is a space or the letter x
in either case, then the title capture.  Returns the mark and the raw
capture. -/
def checkboxSplit (line : List Char) : Option (Char × List Char) :=
  match line with
  | '-' :: rest =>
    match rest.dropWhile isJsWs with
    | '[' :: m :: ']' :: rest2 =>
      if m == ' ' || m == 'x' || m == 'X' then
        (dotChunk rest2).map (fun chunk => (m, chunk))
      else none
    | _ => none
  | _ => none

/-- Recognition of the https-or-http scheme alternative of the URL
pattern: the possessive s-optional branch prefers the longer scheme,
and the two branches differ at their fifth character so the split is a
plain case analysis. -/
def schemeSplit : List Char → Option (List Char × List Char)
  | 'h' :: 't' :: 't' :: 'p' :: 's' :: ':' :: '/' :: '/' :: r => some ("https://".data, r)
  | 'h' :: 't' :: 't' :: 'p' :: ':' :: '/' :: '/' :: r => some ("http://".data, r)
  | _ => none

/-- One attempt of the URL pattern at a fixed start position:
whitespace, the link marker, whitespace, an http or https scheme,
then at least one further character and no whitespace up to the end
(trailing whitespace excepted).  Returns the matched text and the
captured URL. -/
def urlAttempt (s : List Char) : Option (List Char × List Char) :=
  let w1 := s.takeWhile isJsWs
  match s.dropWhile isJsWs with
  | c :: r2 =>
    if c = '🔗' then
    let w2 := r2.takeWhile isJsWs
    let r3 := r2.dropWhile isJsWs
    match schemeSplit r3 with
    | none => none
    | some (sch, r4) =>
      let body := r4.takeWhile (fun c => !isJsWs c)
      let r5 := r4.drop body.length
      if body.isEmpty then none
      else if r5.all isJsWs then
        some (w1 ++ '🔗' :: (w2 ++ sch ++ body ++ r5), sch ++ body)
      else none
    else none
  | _ => none

/-- One attempt of a marker-plus-ISO-date pattern (used for the
completion marker and the scheduled-date marker). -/
def dateAttempt (marker : Char) (s : List Char) : Option (List Char × List Char) :=
  let w1 := s.takeWhile isJsWs
  match s.dropWhile isJsWs with
  | m :: r2 =>
    if m == marker then
      let w2 := r2.takeWhile isJsWs
      match r2.dropWhile isJsWs with
      | a :: b :: c :: d :: '-' :: e :: f :: '-' :: g :: h :: r5 =>
        if a.isDigit && b.isDigit && c.isDigit && d.isDigit && e.isDigit &&
           f.isDigit && g.isDigit && h.isDigit && r5.all isJsWs then
          some (w1 ++ m :: (w2 ++ [a, b, c, d, '-', e, f, '-', g, h] ++ r5),
                [a, b, c, d, '-', e, f, '-', g, h])
        else none
      | _ => none
    else none
  | _ => none

/-- The two-hour-digit reading of the time pattern. -/
def timeTwo : List Char → Option (List Char × List Char)
  | a :: b :: ':' :: c :: d :: r5 =>
    if a.isDigit && b.isDigit && c.isDigit && d.isDigit && r5.all isJsWs then
      some ([a, b, ':', c, d], r5)
    else none
  | _ => none

/-- The one-hour-digit reading of the time pattern. -/
def timeOne : List Char → Option (List Char × List Char)
  | a :: ':' :: c :: d :: r5 =>
    if a.isDigit && c.isDigit && d.isDigit && r5.all isJsWs then
      some ([a, ':', c, d], r5)
    else none
  | _ => none

/-- One attempt of the scheduled-time pattern: the clock marker then
one or two hour digits, a colon and two minute digits; the two-digit
reading is preferred, matching the greedy quantifier. -/
def timeAttempt (s : List Char) : Option (List Char × List Char) :=
  let w1 := s.takeWhile isJsWs
  match s.dropWhile isJsWs with
  | c0 :: r2 =>
    if c0 = '⏰' then
    let w2 := r2.takeWhile isJsWs
    let r3 := r2.dropWhile isJsWs
    match (timeTwo r3).orElse (fun _ => timeOne r3) with
    | some (v, r5) => some (w1 ++ '⏰' :: (w2 ++ v ++ r5), v)
    | none => none
    else none
  | _ => none

/-- Recognises the recurrence type word at the head of a string and
returns it with its length; the three words differ at their first
character, so the alternative is a plain case analysis. -/
def recTypeHead : List Char → Option (RecurrenceType × Nat)
  | 'd' :: 'a' :: 'y' :: 's' :: _ => some (.days, 4)
  | 'w' :: 'e' :: 'e' :: 'k' :: 's' :: _ => some (.weeks, 5)
  | 'm' :: 'o' :: 'n' :: 't' :: 'h' :: 's' :: _ => some (.months, 6)
  | _ => none

/-- One attempt of the recurrence pattern: the repeat marker, a type
word, a colon, an interval digit run, and an optional colon plus
auxiliary digit run; a colon not followed by digits fails the whole
attempt, as it does for the regular expression. -/
def recAttempt (s : List Char) :
    Option (List Char × RecurrenceType × List Char × Option (List Char)) :=
  let w1 := s.takeWhile isJsWs
  match s.dropWhile isJsWs with
  | c0 :: r2 =>
    if c0 = '🔁' then
    let w2 := r2.takeWhile isJsWs
    let r3 := r2.dropWhile isJsWs
    match recTypeHead r3 with
    | none => none
    | some (ty, n) =>
      match r3.drop n with
      | ':' :: r4 =>
        let ds1 := r4.takeWhile Char.isDigit
        if ds1.isEmpty then none
        else
          let word := r3.take n
          let r5 := r4.drop ds1.length
          match r5 with
          | ':' :: r6 =>
            let ds2 := r6.takeWhile Char.isDigit
            if ds2.isEmpty then none
            else
              let r7 := r6.drop ds2.length
              if r7.all isJsWs then
                some (w1 ++ '🔁' :: (w2 ++ word ++ ':' :: ds1 ++ ':' :: ds2 ++ r7),
                      ty, ds1, some ds2)
              else none
          | _ =>
            if r5.all isJsWs then
              some (w1 ++ '🔁' :: (w2 ++ word ++ ':' :: ds1 ++ r5), ty, ds1, none)
            else none
      | _ => none
    else none
  | _ => none

/-- Embedding of parseTaskLine: match the checkbox pattern, then peel
the URL, completion date, time, date and recurrence annotations off
the title in that order, re-trimming after each removal.  The id is
supplied by the caller because generateId draws on the clock and the
random generator. -/
def parseTaskLine (ident : String) (line : List Char) (sect : TaskSection) : Option Task :=
  match checkboxSplit line with
  | none => none
  | some (mark, chunk) =>
    let completed := mark == 'x' || mark == 'X'
    let t0 := jsTrim chunk
    let s1 :=
      match scanFirst urlAttempt t0 with
      | some (m0, u) => (jsTrim (replaceFirst t0 m0), some (String.mk u))
      | none => (t0, (none : Option String))
    let s2 :=
      match scanFirst (dateAttempt '✅') s1.1 with
      | some (m0, v) => (jsTrim (replaceFirst s1.1 m0), some (String.mk v))
      | none => (s1.1, (none : Option String))
    let s3 :=
      match scanFirst timeAttempt s2.1 with
      | some (m0, v) => (jsTrim (replaceFirst s2.1 m0), some (String.mk v))
      | none => (s2.1, (none : Option String))
    let s4 :=
      match scanFirst (dateAttempt '📅') s3.1 with
      | some (m0, v) => (jsTrim (replaceFirst s3.1 m0), some (String.mk v))
      | none => (s3.1, (none : Option String))
    let s5 : List Char × Option Recurrence :=
      match scanFirst recAttempt s4.1 with
      | some (m0, ty, ds1, ds2) =>
        (jsTrim (replaceFirst s4.1 m0),
         some { type := ty, interval := digitsToNat ds1,
                dayOfWeek := if ty = RecurrenceType.weeks then ds2.map digitsToNat else none,
                dayOfMonth := if ty = RecurrenceType.months then ds2.map digitsToNat else none })
      | none => (s4.1, (none : Option Recurrence))
    some { id := ident, title := String.mk s5.1, completed := completed,
           completedAt := s2.2, sect := sect, url := s1.2,
           doDate := s4.2, doTime := s3.2, recurrence := s5.2 }

/-- Embedding of parseHabitLine. -/
def parseHabitLine (ident : String) (line : List Char) : Option DailyHabit :=
  (checkboxSplit line).map fun p =>
    ⟨ident, String.mk (jsTrim p.2), p.1 == 'x' || p.1 == 'X'⟩

/-! ### Month headers and the frontmatter (src/taskParser.ts) -/

/-- The zero-padded month number of a lowercase month name. -/
def monthNumOf (w : List Char) : Option (List Char) :=
  if w = "january".data then some ['0', '1']
  else if w = "february".data then some ['0', '2']
  else if w = "march".data then some ['0', '3']
  else if w = "april".data then some ['0', '4']
  else if w = "may".data then some ['0', '5']
  else if w = "june".data then some ['0', '6']
  else if w = "july".data then some ['0', '7']
  else if w = "august".data then some ['0', '8']
  else if w = "september".data then some ['0', '9']
  else if w = "october".data then some ['1', '0']
  else if w = "november".data then some ['1', '1']
  else if w = "december".data then some ['1', '2']
  else none

/-- Embedding of parseMonthHeader: three hashes, whitespace, a word,
whitespace, exactly four digits at the end; the word is looked up
case-insensitively among the twelve month names. -/
def parseMonthHeader (line : List Char) : Option String :=
  match line with
  | '#' :: '#' :: '#' :: r1 =>
    let w1 := r1.takeWhile isJsWs
    if w1.isEmpty then none
    else
      let r2 := r1.dropWhile isJsWs
      let word := r2.takeWhile isWordChar
      if word.isEmpty then none
      else
        let r3 := r2.drop word.length
        let w2 := r3.takeWhile isJsWs
        if w2.isEmpty then none
        else
          match r3.dropWhile isJsWs with
          | [a, b, c, d] =>
            if a.isDigit && b.isDigit && c.isDigit && d.isDigit then
              (monthNumOf (word.map asciiLower)).map
                (fun mm => String.mk ([a, b, c, d] ++ '-' :: mm))
            else none
          | _ => none
  | _ => none

/-- One attempt of the key-plus-date frontmatter patterns: the literal
key, optional whitespace, then an ISO-shaped date capture (the
patterns are not end-anchored, so anything may follow). -/
def keyDateAttempt (key : List Char) (s : List Char) : Option (List Char) :=
  if key.isPrefixOf s then
    match (s.drop key.length).dropWhile isJsWs with
    | a :: b :: c :: d :: '-' :: e :: f :: '-' :: g :: h :: _ =>
      if a.isDigit && b.isDigit && c.isDigit && d.isDigit && e.isDigit &&
         f.isDigit && g.isDigit && h.isDigit then
        some [a, b, c, d, '-', e, f, '-', g, h]
      else none
    | _ => none
  else none

/-- Length bound used for the termination of the goal-line
repetition: dropping a nonempty whitespace run shortens the list. -/
theorem length_dropWhile_lt_of_take {α : Type} {p : α → Bool} {s : List α}
    (h : ¬((s.takeWhile p).isEmpty = true)) : (s.dropWhile p).length < s.length := by
  have hs : s.takeWhile p ++ s.dropWhile p = s :=
    List.takeWhile_append_dropWhile (p := p) (l := s)
  have hlen : (s.takeWhile p).length + (s.dropWhile p).length = s.length := by
    have h2 := congrArg List.length hs
    rwa [List.length_append] at h2
  have hpos : 0 < (s.takeWhile p).length := by
    cases hT : s.takeWhile p with
    | nil => simp [hT] at h
    | cons a as => simp [hT]
  omega

/-- The capture of the starred goal-line group: a greedy repetition of
whitespace, a dash, whitespace, a nonempty dot-run and an optional
newline. -/
def goalRep (s : List Char) : List Char :=
  if hw : (s.takeWhile isJsWs).isEmpty then []
  else
    match hm : s.dropWhile isJsWs with
    | '-' :: r2 =>
      if hw2 : (r2.takeWhile isJsWs).isEmpty then []
      else
        if hc : ((r2.dropWhile isJsWs).takeWhile isDotChar).isEmpty then []
        else
          let w := s.takeWhile isJsWs
          let w2 := r2.takeWhile isJsWs
          let r3 := r2.dropWhile isJsWs
          let content := r3.takeWhile isDotChar
          match hr : r3.drop content.length with
          | '\n' :: r5 => w ++ '-' :: w2 ++ content ++ '\n' :: goalRep r5
          | r4 => w ++ '-' :: w2 ++ content ++ goalRep r4
    | _ => []
termination_by s.length
decreasing_by
  · have h1 : (s.dropWhile isJsWs).length < s.length := length_dropWhile_lt_of_take hw
    have h2 : r2.length + 1 = (s.dropWhile isJsWs).length := by
      have h2a := congrArg List.length hm
      simpa using h2a.symm
    have h3 : (r2.dropWhile isJsWs).length ≤ r2.length :=
      List.Sublist.length_le (List.dropWhile_sublist _)
    have hcpos : 0 < ((r2.dropWhile isJsWs).takeWhile isDotChar).length := by
      cases hT : (r2.dropWhile isJsWs).takeWhile isDotChar with
      | nil => simp [hT] at hc
      | cons a as => simp [hT]
    have hcle : ((r2.dropWhile isJsWs).takeWhile isDotChar).length ≤ (r2.dropWhile isJsWs).length :=
      List.Sublist.length_le (List.takeWhile_sublist _)
    have h4 : r5.length + 1 =
        ((r2.dropWhile isJsWs).drop ((r2.dropWhile isJsWs).takeWhile isDotChar).length).length := by
      have h4a := congrArg List.length hr
      simpa using h4a.symm
    have h5 : ((r2.dropWhile isJsWs).drop ((r2.dropWhile isJsWs).takeWhile isDotChar).length).length
        = (r2.dropWhile isJsWs).length - ((r2.dropWhile isJsWs).takeWhile isDotChar).length := by
      simp [List.length_drop]
    omega
  · have h1 : (s.dropWhile isJsWs).length < s.length := length_dropWhile_lt_of_take hw
    have h2 : r2.length + 1 = (s.dropWhile isJsWs).length := by
      have h2a := congrArg List.length hm
      simpa using h2a.symm
    have h3 : (r2.dropWhile isJsWs).length ≤ r2.length :=
      List.Sublist.length_le (List.dropWhile_sublist _)
    have hcpos : 0 < ((r2.dropWhile isJsWs).takeWhile isDotChar).length := by
      cases hT : (r2.dropWhile isJsWs).takeWhile isDotChar with
      | nil => simp [hT] at hc
      | cons a as => simp [hT]
    have hcle : ((r2.dropWhile isJsWs).takeWhile isDotChar).length ≤ (r2.dropWhile isJsWs).length :=
      List.Sublist.length_le (List.takeWhile_sublist _)
    have h6 : r4.length =
        (r2.dropWhile isJsWs).length - ((r2.dropWhile isJsWs).takeWhile isDotChar).length := by
      have h6a := congrArg List.length hr
      simpa [List.length_drop] using h6a.symm
    omega

/-- The goal-line strip applied to each split goal line: one leading
whitespace-dash-whitespace group is removed when present. -/
def stripDash (l : List Char) : List Char :=
  match l.dropWhile isJsWs with
  | '-' :: r => r.dropWhile isJsWs
  | _ => l

/-- Output of the frontmatter pass: the two dates (defaulted to today
when absent), the goal list, the body after the closing delimiter,
and the number of ids consumed for goals. -/
structure Frontmatter where
  weekOf : String
  habitResetDate : String
  goals : List WeeklyGoal
  body : List Char
  nextId : Nat

/-- Embedding of parseFrontmatter: the document must open with the
dashed delimiter line; the block then extends to the first
newline-plus-dashes occurrence (the lazy quantifier).  Inside it the
weekOf, habitResetDate and goal patterns are searched leftmost.  With
no frontmatter match the body is the whole content and the dates
default to today. -/
def parseFrontmatter (ids : Nat → String) (today : String) (content : List Char) : Frontmatter :=
  let missing : Frontmatter := ⟨today, today, [], content, 0⟩
  if "---\n".data.isPrefixOf content then
    match splitFirst "\n---".data (content.drop 4) with
    | some (fm, rest) =>
      let weekOf := match scanFirst (keyDateAttempt "weekOf:".data) fm with
        | some v => String.mk v
        | none => today
      let habitResetDate := match scanFirst (keyDateAttempt "habitResetDate:".data) fm with
        | some v => String.mk v
        | none => today
      let goalsCap : Option (List Char) :=
        scanFirst (fun s => if "goals:\n".data.isPrefixOf s then some (goalRep (s.drop 7)) else none) fm
      let goals := match goalsCap with
        | some cap =>
          let goalLines := (splitChar '\n' cap).filter (fun l => !(jsTrim l).isEmpty)
          goalLines.enum.map (fun p => (⟨ids p.1, String.mk (jsTrim (stripDash p.2))⟩ : WeeklyGoal))
        | none => []
      ⟨weekOf, habitResetDate, goals, rest, goals.length⟩
    | none => missing
  else missing

/-! ### Whole-document decoding (src/taskParser.ts parseTaskFile) -/

/-- Looks up an archive bucket, the embedding of reading
completedTasks at a month key. -/
def bucketLookup (m : List (String × List Task)) (k : String) : Option (List Task) :=
  (m.find? (fun p => p.1 == k)).map (fun p => p.2)

/-- Creates an empty bucket when the key is absent; a fresh key is
appended at the end, which is where a JavaScript object keeps a newly
inserted string key. -/
def ensureBucket (m : List (String × List Task)) (k : String) : List (String × List Task) :=
  if (m.find? (fun p => p.1 == k)).isSome then m else m ++ [(k, [])]

/-- Appends a task to the bucket at a key, leaving other buckets
alone. -/
def pushBucket (m : List (String × List Task)) (k : String) (t : Task) :
    List (String × List Task) :=
  m.map (fun p => if p.1 == k then (p.1, p.2 ++ [t]) else p)

/-- The mutable state of the line loop of parseTaskFile. -/
structure ParseSt where
  currentSection : Option TaskSection
  inHabitsSection : Bool
  inCompletedSection : Bool
  currentMonth : Option String
  habits : List DailyHabit
  tasks : SectionLists
  completedTasks : List (String × List Task)
  nextId : Nat

/-- One iteration of the line loop of parseTaskFile: section headers
first, then month headers inside the completed section, then checkbox
lines dispatched to habits, the archive, or the current section. -/
def procLine (ids : Nat → String) (st : ParseSt) (line : List Char) : ParseSt :=
  let trimmedLine := jsTrim line
  let lower := trimmedLine.map asciiLower
  if lower = "## daily habits".data then
    { st with currentSection := none, inHabitsSection := true,
              inCompletedSection := false, currentMonth := none }
  else if lower = "## immediate".data then
    { st with currentSection := some TaskSection.immediate, inHabitsSection := false,
              inCompletedSection := false, currentMonth := none }
  else if lower = "## this week".data then
    { st with currentSection := some TaskSection.thisWeek, inHabitsSection := false,
              inCompletedSection := false, currentMonth := none }
  else if lower = "## unscheduled".data then
    { st with currentSection := some TaskSection.unscheduled, inHabitsSection := false,
              inCompletedSection := false, currentMonth := none }
  else if lower = "## completed".data then
    { st with currentSection := none, inHabitsSection := false,
              inCompletedSection := true, currentMonth := none }
  else if st.inCompletedSection ∧ "###".data.isPrefixOf trimmedLine then
    match parseMonthHeader trimmedLine with
    | some monthKey =>
      { st with currentMonth := some monthKey,
                completedTasks := ensureBucket st.completedTasks monthKey }
    | none => st
  else if "-".data.isPrefixOf trimmedLine then
    if st.inHabitsSection then
      if st.habits.length < 3 then
        match parseHabitLine (ids st.nextId) trimmedLine with
        | some habit => { st with habits := st.habits ++ [habit], nextId := st.nextId + 1 }
        | none => st
      else st
    else if st.inCompletedSection then
      match st.currentMonth with
      | some monthKey =>
        match parseTaskLine (ids st.nextId) trimmedLine TaskSection.unscheduled with
        | some task =>
          let forced : Task := { task with completed := true }
          { st with completedTasks := pushBucket st.completedTasks monthKey forced,
                    nextId := st.nextId + 1 }
        | none => st
      | none => st
    else
      match st.currentSection with
      | some sect =>
        match parseTaskLine (ids st.nextId) trimmedLine sect with
        | some task =>
          { st with tasks := st.tasks.set sect (st.tasks.get sect ++ [task]),
                    nextId := st.nextId + 1 }
        | none => st
      | none => st
  else st

/-- Embedding of parseTaskFile on a character list. -/
def parseTaskFileCh (ids : Nat → String) (today : String) (content : List Char) : FocusData :=
  let fmOut := parseFrontmatter ids today content
  let st0 : ParseSt := ⟨none, false, false, none, [], ⟨[], [], []⟩, [], fmOut.nextId⟩
  let stF := (splitChar '\n' fmOut.body).foldl (procLine ids) st0
  { weekOf := fmOut.weekOf, goals := fmOut.goals, habits := stF.habits,
    habitResetDate := fmOut.habitResetDate, tasks := stF.tasks,
    completedTasks := stF.completedTasks }

/-- Embedding of parseTaskFile.  The id supply stands for generateId
and today for the current date the source reads from the clock. -/
def parseTaskFile (ids : Nat → String) (today : String) (content : String) : FocusData :=
  parseTaskFileCh ids today content.data

/-! ### Encoding (src/taskParser.ts serializeTask, serializeTaskFile) -/

/-- The characters of the recurrence type word. -/
def recTypeStr : RecurrenceType → List Char
  | .days => "days".data
  | .weeks => "weeks".data
  | .months => "months".data

/-- One optional marker annotation of the encoder: a space, the
marker, a space and the value. -/
def annOf (marker : Char) : Option String → List Char
  | some v => ' ' :: marker :: ' ' :: v.data
  | none => []

/-- The optional recurrence annotation of the encoder: marker, type
word, colon, interval, and the auxiliary day field of the matching
type. -/
def recAnnOf : Option Recurrence → List Char
  | some r =>
    ' ' :: '🔁' :: ' ' :: (recTypeStr r.type ++ ':' :: natDigits r.interval)
    ++ (if r.type = RecurrenceType.weeks then
          (match r.dayOfWeek with
           | some k => ':' :: natDigits k
           | none => [])
        else [])
    ++ (if r.type = RecurrenceType.months then
          (match r.dayOfMonth with
           | some k => ':' :: natDigits k
           | none => [])
        else [])
  | none => []

/-- Embedding of serializeTask: checkbox, title, then the scheduled
date, time, recurrence, completion date (only when requested) and URL
annotations, in that order. -/
def serializeTask (t : Task) (includeCompletedAt : Bool) : List Char :=
  "- ".data
  ++ (if t.completed then "[x]".data else "[ ]".data)
  ++ ' ' :: t.title.data
  ++ annOf '📅' t.doDate
  ++ annOf '⏰' t.doTime
  ++ recAnnOf t.recurrence
  ++ (if includeCompletedAt then annOf '✅' t.completedAt else [])
  ++ annOf '🔗' t.url

/-- Embedding of serializeHabit. -/
def serializeHabit (h : DailyHabit) : List Char :=
  "- ".data ++ (if h.completedToday then "[x]".data else "[ ]".data) ++ ' ' :: h.title.data

/-- The month name of a one-based month number, with the JavaScript
out-of-range rendering of an undefined array element. -/
def monthNameStr : Nat → List Char
  | 1 => "January".data
  | 2 => "February".data
  | 3 => "March".data
  | 4 => "April".data
  | 5 => "May".data
  | 6 => "June".data
  | 7 => "July".data
  | 8 => "August".data
  | 9 => "September".data
  | 10 => "October".data
  | 11 => "November".data
  | 12 => "December".data
  | _ => "undefined".data

/-- Embedding of formatMonthHeader: split the key on the dash, render
the month name and the year. -/
def formatMonthHeader (monthKey : String) : List Char :=
  let segs := splitChar '-' monthKey.data
  let year := segs.headD []
  let month := (segs.drop 1).headD []
  monthNameStr (digitsToNat month) ++ ' ' :: year

/-- One archive month block of the encoder: header line, the tasks
with their completion dates, and a blank line; empty or missing
buckets produce nothing. -/
def monthBlock (m : List (String × List Task)) (monthKey : String) : List (List Char) :=
  match bucketLookup m monthKey with
  | some ts =>
    if ts.isEmpty then []
    else ("### ".data ++ formatMonthHeader monthKey) :: ts.map (serializeTask · true) ++ [[]]
  | none => []

/-- The lines of the serialized document, in encoder order. -/
def serializeFileLines (d : FocusData) : List (List Char) :=
  let monthKeys := (stableSortBy strCmp (d.completedTasks.map (fun p => p.1))).reverse
  ["---".data,
   "weekOf: ".data ++ d.weekOf.data,
   "habitResetDate: ".data ++ d.habitResetDate.data]
  ++ (if d.goals.isEmpty then ["goals: []".data]
      else "goals:".data :: d.goals.map (fun g => "  - ".data ++ g.title.data))
  ++ ["---".data, []]
  ++ (if d.habits.isEmpty then []
      else ("## Daily Habits".data :: d.habits.map serializeHabit) ++ [[]])
  ++ "## Immediate".data :: d.tasks.immediate.map (serializeTask · false) ++ [[]]
  ++ "## This week".data :: d.tasks.thisWeek.map (serializeTask · false) ++ [[]]
  ++ "## Unscheduled".data :: d.tasks.unscheduled.map (serializeTask · false) ++ [[]]
  ++ (if monthKeys.isEmpty then []
      else "## Completed".data :: [] :: (monthKeys.map (monthBlock d.completedTasks)).flatten)

/-- Embedding of serializeTaskFile: the lines joined by newlines. -/
def serializeTaskFile (d : FocusData) : String :=
  String.mk (joinLines (serializeFileLines d))

/-! ### Archive and restore (FocusView.archiveOrRestoreTask and
FocusView.restoreTaskFromArchive) -/

/-- The completion path of archiveOrRestoreTask for an active task
that was not yet completed: flip completed on, stamp completedAt with
today, bucket it under the month prefix of today, remove it from its
section list and append it to the bucket.  The sect field of the task
is left as it was. -/
def completeTask (today : String) (taskId : String) (sect : TaskSection) (d : FocusData) :
    FocusData :=
  match (d.tasks.get sect).find? (fun t => t.id == taskId) with
  | none => d
  | some task0 =>
    let task := { task0 with completed := true, completedAt := some today }
    let monthKey := String.mk (today.data.take 7)
    let buckets := ensureBucket d.completedTasks monthKey
    { d with tasks := d.tasks.set sect (removeFirstById taskId (d.tasks.get sect)),
             completedTasks := pushBucket buckets monthKey task }

/-- Removes the first task with an id from a bucket and deletes the
bucket key when it became empty, the archive half of
restoreTaskFromArchive. -/
def removeFromBucket (m : List (String × List Task)) (k : String) (taskId : String) :
    List (String × List Task) :=
  (m.map (fun p => if p.1 == k then (p.1, removeFirstById taskId p.2) else p)).filter
    (fun p => !(p.1 == k) || !p.2.isEmpty)

/-- Embedding of restoreTaskFromArchive: take the task out of its
month bucket (dropping the bucket when empty), clear completed and
completedAt, and append it to the section list its sect field still
names. -/
def restoreTaskFromArchive (monthKey : String) (taskId : String) (d : FocusData) : FocusData :=
  match (bucketLookup d.completedTasks monthKey).bind
      (fun ts => ts.find? (fun t => t.id == taskId)) with
  | none => d
  | some task0 =>
    let task := { task0 with completed := false, completedAt := none }
    { d with completedTasks := removeFromBucket d.completedTasks monthKey taskId,
             tasks := d.tasks.set task.sect (d.tasks.get task.sect ++ [task]) }

/-! ## Theorems -/

/-- Claim C9: nextOccurrence adds interval days for type days,
interval times seven days for type weeks, and for type months adds
interval months and clamps the day to the last day of the resulting
month; the claim names the values months interval 1 dayOfMonth 31 from
2026-01-31 as 2026-02-28.  The claim describes the intent correctly
(the clamp exists precisely to keep a monthly recurrence inside the
next month, as the clamp comment in the source says), but the code
first lets setMonth roll the out-of-range February 31 over into March
and only then clamps, so it answers 2026-03-31: the code, not the
claim, is at fault on the months branch.  The weeks and days branches
behave as claimed. -/
theorem C9_recurrence_eval :
    computeNextRecurrenceDateStr ⟨RecurrenceType.months, 1, none, some 31⟩ "2026-01-31"
        = some "2026-03-31"
    ∧ computeNextRecurrenceDateStr ⟨RecurrenceType.months, 1, none, some 31⟩ "2026-01-31"
        ≠ some "2026-02-28"
    ∧ computeNextRecurrenceDateStr ⟨RecurrenceType.weeks, 2, none, none⟩ "2026-01-01"
        = some "2026-01-15"
    ∧ computeNextRecurrenceDateStr ⟨RecurrenceType.days, 3, none, none⟩ "2025-12-30"
        = some "2026-01-02" :=
  ⟨by decide, by decide, by decide, by decide⟩

/-- A filtered list is empty exactly when no element satisfies the
predicate. -/
theorem filter_isEmpty_eq_not_any {α : Type} (p : α → Bool) (l : List α) :
    (l.filter p).isEmpty = !(l.any p) := by
  induction l with
  | nil => rfl
  | cons t ts ih =>
    cases h : p t <;> simp [List.filter_cons, List.any_cons, h, ih]

/-- Filtering twice with the same predicate is the same as filtering
once. -/
theorem filter_self_again {α : Type} (p : α → Bool) (l : List α) :
    (l.filter p).filter p = l.filter p := by
  induction l with
  | nil => rfl
  | cons t ts ih =>
    cases h : p t <;> simp [List.filter_cons, h, ih]

/-- Mapping a completion-preserving function commutes with the
completion filters on an all-incomplete list: filtering for completed
gives nothing and filtering for incomplete gives everything. -/
theorem filter_completed_of_incomplete (l : List Task)
    (f : Task → Task) (hf : ∀ t, (f t).completed = t.completed) :
    ((l.filter fun t => !t.completed).map f).filter (fun t => t.completed) = []
    ∧ ((l.filter fun t => !t.completed).map f).filter (fun t => !t.completed)
        = (l.filter fun t => !t.completed).map f := by
  induction l with
  | nil => exact ⟨rfl, rfl⟩
  | cons t ts ih =>
    cases h : t.completed
    · constructor
      · simpa [List.filter_cons, h, hf] using ih.1
      · simpa [List.filter_cons, h, hf] using ih.2
    · constructor
      · simpa [List.filter_cons, h, hf] using ih.1
      · simpa [List.filter_cons, h, hf] using ih.2

/-- Claim C7: with both rollover flags enabled the two moves are
sequential, so each task incomplete in immediate cascades through
thisWeek into unscheduled within the single call; completed tasks stay
in their buckets and the archive is untouched. -/
theorem C7_rollover_cascade (today : String) (d : FocusData) :
    (performWeeklyRollover true true today d).data =
      { weekOf := today, goals := d.goals, habits := d.habits,
        habitResetDate := d.habitResetDate,
        tasks := ⟨d.tasks.immediate.filter (fun t => t.completed),
                  d.tasks.thisWeek.filter (fun t => t.completed),
                  d.tasks.unscheduled
                    ++ ((d.tasks.thisWeek.filter (fun t => !t.completed)).map
                          (fun t => { t with sect := TaskSection.unscheduled }))
                    ++ ((d.tasks.immediate.filter (fun t => !t.completed)).map
                          (fun t => { t with sect := TaskSection.unscheduled }))⟩,
        completedTasks := d.completedTasks } := by
  have hpres : ∀ t : Task, (({ t with sect := TaskSection.thisWeek } : Task)).completed
      = t.completed := fun t => rfl
  have hcomp := filter_completed_of_incomplete d.tasks.immediate
    (fun t => { t with sect := TaskSection.thisWeek }) hpres
  simp only [performWeeklyRollover, List.filter_append, hcomp.1, hcomp.2, ite_true,
    List.append_nil, List.map_append, List.map_map]
  simp only [FocusData.mk.injEq, SectionLists.mk.injEq, true_and, and_true]
  rw [List.append_assoc]
  rfl

/-- Emptiness distributes over append. -/
theorem isEmpty_append_eq {α : Type} (a b : List α) :
    (a ++ b).isEmpty = (a.isEmpty && b.isEmpty) := by
  cases a <;> simp

/-- Emptiness is not changed by a map. -/
theorem isEmpty_map_eq {α β : Type} (f : α → β) (a : List α) :
    (a.map f).isEmpty = a.isEmpty := by
  cases a <;> simp

/-- The changed flag of a rollover call: true exactly when an enabled
move found an incomplete task to move. -/
theorem rollover_changed_eq (f1 f2 : Bool) (today : String) (d : FocusData) :
    (performWeeklyRollover f1 f2 today d).changed =
      ((f1 && (d.tasks.immediate.any fun t => !t.completed))
       || (f2 && (d.tasks.thisWeek.any fun t => !t.completed))) := by
  cases f1 <;> cases f2
  case false.false => simp [performWeeklyRollover]
  case false.true => simp [performWeeklyRollover, filter_isEmpty_eq_not_any]
  case true.false => simp [performWeeklyRollover, filter_isEmpty_eq_not_any]
  case true.true =>
    simp only [performWeeklyRollover, List.filter_append, ite_true, if_pos rfl]
    simp only [isEmpty_append_eq, isEmpty_map_eq, filter_isEmpty_eq_not_any,
      Bool.not_and, Bool.not_not, Bool.true_and]
    cases h1 : (d.tasks.immediate.any fun t => !t.completed) <;>
      cases h2 : (d.tasks.thisWeek.any fun t => !t.completed) <;>
      simp [h1, h2]

/-- Claim C8 (corrected): the in-memory weekOf is set to today by
every rollover call, but the source saves the document only when the
changed flag is set, so the persisted weekOf moves to today exactly
when some incomplete task was moved under an enabled flag, and stays
put otherwise. -/
theorem C8_weekOf_persisted (f1 f2 : Bool) (today : String) (d : FocusData) :
    (rolloverPersisted f1 f2 today d).weekOf =
      if (f1 && (d.tasks.immediate.any fun t => !t.completed))
         || (f2 && (d.tasks.thisWeek.any fun t => !t.completed)) then today else d.weekOf := by
  have hch := rollover_changed_eq f1 f2 today d
  simp only [rolloverPersisted, hch]
  cases hb : ((f1 && (d.tasks.immediate.any fun t => !t.completed))
      || (f2 && (d.tasks.thisWeek.any fun t => !t.completed)))
  · simp
  · simp only [ite_true]
    rfl

/-- Concrete document whose rollover moves nothing: both lists hold
only completed tasks. -/
def rolloverStillData : FocusData :=
  { weekOf := "2026-01-05", goals := [], habits := [], habitResetDate := "2026-01-05",
    tasks := ⟨[{ id := "a", title := "done", completed := true, sect := TaskSection.immediate }],
              [], []⟩,
    completedTasks := [] }

/-- Claim C8 counterexample: with both flags enabled but no incomplete
task, the call changes nothing and the persisted weekOf is not set to
today, contradicting the claim that every invocation persists today as
weekOf. -/
theorem C8_weekOf_counterexample :
    (rolloverPersisted true true "2026-02-03" rolloverStillData).weekOf ≠ "2026-02-03"
    ∧ rolloverPersisted true true "2026-02-03" rolloverStillData = rolloverStillData :=
  ⟨by decide, by decide⟩

/-! ### Capacity invariant (claim C2) -/

/-- The incomplete count of an appended list. -/
theorem countIncomplete_append (a b : List Task) :
    countIncomplete (a ++ b) = countIncomplete a + countIncomplete b := by
  simp [countIncomplete, List.filter_append]

/-- The incomplete count of a singleton list is at most one. -/
theorem countIncomplete_singleton_le (t : Task) : countIncomplete [t] ≤ 1 := by
  cases h : t.completed <;> simp [countIncomplete, List.filter_cons, h]

/-- Removing a task by id never increases the incomplete count. -/
theorem countIncomplete_removeFirst_le (taskId : String) (l : List Task) :
    countIncomplete (removeFirstById taskId l) ≤ countIncomplete l := by
  induction l with
  | nil => simp [removeFirstById]
  | cons t ts ih =>
    simp only [removeFirstById]
    have h2 : countIncomplete (t :: ts) = countIncomplete [t] + countIncomplete ts := by
      simpa using countIncomplete_append [t] ts
    by_cases h : t.id = taskId
    · simp only [if_pos h]
      omega
    · simp only [if_neg h]
      have h1 : countIncomplete (t :: removeFirstById taskId ts)
          = countIncomplete [t] + countIncomplete (removeFirstById taskId ts) := by
        simpa using countIncomplete_append [t] (removeFirstById taskId ts)
      omega

/-- The immediate field after a set on any section. -/
theorem set_immediate_eq (t : SectionLists) (s : TaskSection) (l : List Task) :
    (t.set s l).immediate = if s = TaskSection.immediate then l else t.immediate := by
  cases s <;> simp [SectionLists.set]

/-- Reading the immediate list after a set on any section. -/
theorem set_get_immediate_eq (t : SectionLists) (s : TaskSection) (l : List Task) :
    (t.set s l).get TaskSection.immediate
      = if s = TaskSection.immediate then l else t.immediate := by
  cases s <;> simp [SectionLists.set, SectionLists.get]

/-- A single store call keeps the incomplete immediate count within
the configured maximum. -/
theorem applyOp_capacity (maxI : Nat) (d : FocusData) (op : StoreOp)
    (h : countIncomplete d.tasks.immediate ≤ maxI) :
    countIncomplete (applyOp maxI d op).data.tasks.immediate ≤ maxI := by
  cases op with
  | add ident title sect url doDate doTime recurrence =>
    simp only [applyOp, addTask]
    by_cases hc : sect = TaskSection.immediate ∧ maxI ≤ countIncomplete d.tasks.immediate
    · simp only [if_pos hc]
      exact h
    · simp only [if_neg hc]
      by_cases hs : sect = TaskSection.immediate
      · have hlt : countIncomplete d.tasks.immediate < maxI := by
          rcases Nat.lt_or_ge (countIncomplete d.tasks.immediate) maxI with h1 | h1
          · exact h1
          · exact absurd ⟨hs, h1⟩ hc
        subst hs
        have hred : countIncomplete ((d.tasks.set TaskSection.immediate
            (d.tasks.get TaskSection.immediate
              ++ [({ id := ident, title := title, completed := false,
                     sect := TaskSection.immediate, url := url, doDate := doDate,
                     doTime := doTime, recurrence := recurrence } : Task)])).immediate)
            = countIncomplete d.tasks.immediate
              + countIncomplete
                  [({ id := ident, title := title, completed := false,
                      sect := TaskSection.immediate, url := url, doDate := doDate,
                      doTime := doTime, recurrence := recurrence } : Task)] :=
          countIncomplete_append d.tasks.immediate _
        rw [hred]
        have hone := countIncomplete_singleton_le
          ({ id := ident, title := title, completed := false,
             sect := TaskSection.immediate, url := url, doDate := doDate,
             doTime := doTime, recurrence := recurrence } : Task)
        omega
      · rw [set_immediate_eq]
        simp only [if_neg hs]
        exact h
  | move taskId fromSect toSect =>
    simp only [applyOp, moveTaskById]
    by_cases hc : toSect = TaskSection.immediate ∧ maxI ≤ countIncomplete d.tasks.immediate
    · simp only [if_pos hc]
      exact h
    · simp only [if_neg hc]
      cases hfind : (d.tasks.get fromSect).find? (fun t => t.id == taskId) with
      | none => exact h
      | some task =>
        simp only
        have hif : countIncomplete (if fromSect = TaskSection.immediate
            then removeFirstById taskId (d.tasks.get fromSect) else d.tasks.immediate)
            ≤ countIncomplete d.tasks.immediate := by
          by_cases hf : fromSect = TaskSection.immediate
          · subst hf
            simp only [if_pos rfl]
            exact countIncomplete_removeFirst_le taskId (d.tasks.get TaskSection.immediate)
          · simp only [if_neg hf]
            exact Nat.le_refl _
        by_cases ht : toSect = TaskSection.immediate
        · have hlt : countIncomplete d.tasks.immediate < maxI := by
            rcases Nat.lt_or_ge (countIncomplete d.tasks.immediate) maxI with h1 | h1
            · exact h1
            · exact absurd ⟨ht, h1⟩ hc
          subst ht
          have hred : countIncomplete
              (((d.tasks.set fromSect (removeFirstById taskId (d.tasks.get fromSect))).set
                  TaskSection.immediate
                  ((d.tasks.set fromSect
                      (removeFirstById taskId (d.tasks.get fromSect))).get
                      TaskSection.immediate
                    ++ [({ task with sect := TaskSection.immediate } : Task)])).immediate)
              = countIncomplete
                  ((d.tasks.set fromSect
                      (removeFirstById taskId (d.tasks.get fromSect))).get
                      TaskSection.immediate)
                + countIncomplete [({ task with sect := TaskSection.immediate } : Task)] :=
            countIncomplete_append _ _
          rw [hred, set_get_immediate_eq]
          have hone := countIncomplete_singleton_le
            ({ task with sect := TaskSection.immediate } : Task)
          omega
        · rw [set_immediate_eq]
          simp only [if_neg ht]
          rw [set_immediate_eq]
          exact Nat.le_trans hif h

/-- Any sequence of store calls keeps the incomplete immediate count
within the configured maximum. -/
theorem runOps_capacity (maxI : Nat) (ops : List StoreOp) :
    ∀ d : FocusData, countIncomplete d.tasks.immediate ≤ maxI →
      countIncomplete (runOps maxI d ops).tasks.immediate ≤ maxI := by
  induction ops with
  | nil => intro d h; exact h
  | cons op ops ih =>
    intro d h
    exact ih (applyOp maxI d op).data (applyOp_capacity maxI d op h)

/-- Claim C2: starting from a document whose incomplete immediate
count is within the configured maximum, no sequence of addTask and
moveTask calls ever pushes it past the maximum, and any call the
capacity check rejects (reporting a notice, not throwing) leaves the
whole document unchanged. -/
theorem C2_capacity_invariant (maxI : Nat) (d : FocusData)
    (h : countIncomplete d.tasks.immediate ≤ maxI) :
    (∀ ops : List StoreOp, countIncomplete (runOps maxI d ops).tasks.immediate ≤ maxI)
    ∧ (∀ (e : FocusData) (op : StoreOp), (applyOp maxI e op).capacityNotice = true →
        (applyOp maxI e op).data = e) := by
  constructor
  · intro ops
    exact runOps_capacity maxI ops d h
  · intro e op hop
    cases op with
    | add ident title sect url doDate doTime recurrence =>
      simp only [applyOp, addTask] at hop ⊢
      by_cases hc : sect = TaskSection.immediate ∧ maxI ≤ countIncomplete e.tasks.immediate
      · simp [hc]
      · simp [hc] at hop
    | move taskId fromSect toSect =>
      simp only [applyOp, moveTaskById] at hop ⊢
      by_cases hc : toSect = TaskSection.immediate ∧ maxI ≤ countIncomplete e.tasks.immediate
      · simp [hc]
      · simp only [if_neg hc] at hop
        cases hfind : (e.tasks.get fromSect).find? (fun t => t.id == taskId) <;>
          simp [hfind] at hop

/-- An empty document for the capacity witness. -/
def emptyFocusData : FocusData :=
  ⟨"2026-01-05", [], [], "2026-01-05", ⟨[], [], []⟩, []⟩

/-- Witness for claim C2 at a concrete input: two immediate adds
against a maximum of one stay within the bound. -/
theorem C2_capacity_invariant_witness :
    countIncomplete (runOps 1 emptyFocusData
      [StoreOp.add "a" "one" TaskSection.immediate none none none none,
       StoreOp.add "b" "two" TaskSection.immediate none none none none]).tasks.immediate ≤ 1 :=
  (C2_capacity_invariant 1 emptyFocusData (by decide)).1 _

/-! ### Auto-sort promotion and overflow (claim C5) -/

/-- The incomplete count grows by one when an incomplete task is
prepended. -/
theorem countIncomplete_cons_incomplete (t : Task) (l : List Task)
    (h : t.completed = false) :
    countIncomplete (t :: l) = countIncomplete l + 1 := by
  simp [countIncomplete, List.filter_cons, h]

/-- Closed form of the promotion loop of runAutoSort: with remaining
capacity r, the first r eligible tasks are promoted (newest first, by
unshift) and the rest land in the overflow list in order. -/
theorem promote_fold (maxI : Nat) (E : List Task) :
    ∀ (tasks : SectionLists) (ov : List Task),
      (∀ t ∈ E, t.completed = false) →
      (E.foldl (promoteStep maxI) (tasks, ov)).2
          = ov ++ E.drop (maxI - countIncomplete tasks.immediate)
      ∧ (E.foldl (promoteStep maxI) (tasks, ov)).1.immediate
          = ((E.take (maxI - countIncomplete tasks.immediate)).map
              (fun t => { t with sect := TaskSection.immediate })).reverse ++ tasks.immediate := by
  induction E with
  | nil => intro tasks ov _; simp
  | cons e es ih =>
    intro tasks ov hE
    have he : e.completed = false := hE e (List.mem_cons_self e es)
    have hes : ∀ t ∈ es, t.completed = false := fun t ht => hE t (List.mem_cons_of_mem e ht)
    by_cases hcap : countIncomplete tasks.immediate < maxI
    · have hstep : promoteStep maxI (tasks, ov) e =
          ({ tasks with
              thisWeek := tasks.thisWeek.filter (fun x => !(x.id == e.id)),
              immediate := { e with sect := TaskSection.immediate } :: tasks.immediate }, ov) := by
        simp [promoteStep, hcap]
      have hcnt : countIncomplete
          ({ e with sect := TaskSection.immediate } :: tasks.immediate)
          = countIncomplete tasks.immediate + 1 := by
        apply countIncomplete_cons_incomplete
        exact he
      have hr : maxI - (countIncomplete tasks.immediate + 1)
          = (maxI - countIncomplete tasks.immediate) - 1 := by omega
      have hrpos : 1 ≤ maxI - countIncomplete tasks.immediate := by omega
      have ihx := ih ({ tasks with
          thisWeek := tasks.thisWeek.filter (fun x => !(x.id == e.id)),
          immediate := { e with sect := TaskSection.immediate } :: tasks.immediate }) ov hes
      rw [List.foldl_cons, hstep]
      constructor
      · rw [ihx.1]
        simp only [hcnt, hr]
        have hdrop : (e :: es).drop (maxI - countIncomplete tasks.immediate)
            = es.drop ((maxI - countIncomplete tasks.immediate) - 1) := by
          cases hn : maxI - countIncomplete tasks.immediate with
          | zero => omega
          | succ n => simp [hn]
        rw [hdrop]
      · rw [ihx.2]
        simp only [hcnt, hr]
        have htake : (e :: es).take (maxI - countIncomplete tasks.immediate)
            = e :: es.take ((maxI - countIncomplete tasks.immediate) - 1) := by
          cases hn : maxI - countIncomplete tasks.immediate with
          | zero => omega
          | succ n => simp [hn]
        rw [htake]
        simp [List.append_assoc]
    · have hstep : promoteStep maxI (tasks, ov) e = (tasks, ov ++ [e]) := by
        simp [promoteStep, hcap]
      have hzero : maxI - countIncomplete tasks.immediate = 0 := by omega
      have ihx := ih tasks (ov ++ [e]) hes
      rw [List.foldl_cons, hstep]
      constructor
      · rw [ihx.1, hzero]
        simp
      · rw [ihx.2, hzero]
        simp

/-- Permutation invariance of the stable insertion. -/
theorem sortInsert_perm {α : Type} (cmp : α → α → Int) (x : α) (l : List α) :
    (sortInsert cmp x l).Perm (x :: l) := by
  induction l with
  | nil => simp [sortInsert]
  | cons y ys ih =>
    by_cases h : cmp x y ≤ 0
    · simp [sortInsert, h]
    · simp only [sortInsert, if_neg h]
      exact (ih.cons y).trans (List.Perm.swap x y ys)

/-- Permutation invariance of the stable sort. -/
theorem stableSortBy_perm {α : Type} (cmp : α → α → Int) (l : List α) :
    (stableSortBy cmp l).Perm l := by
  induction l with
  | nil => simp [stableSortBy]
  | cons x xs ih =>
    exact (sortInsert_perm cmp x (stableSortBy cmp xs)).trans (ih.cons x)

/-- Claim C5: for every run of autoSort the promotion loop promotes
exactly as many of the eligible incomplete today-dated thisWeek tasks
as immediate capacity allows, and every remaining eligible task is
returned in the overflow list (surfaced through the overflow modal by
the caller), so no eligible task is dropped. -/
theorem C5_autoSort_overflow (today : String) (maxI : Nat) (d : FocusData) :
    (runAutoSort today maxI d).overflowTasks
        = (d.tasks.thisWeek.filter fun t => t.doDate == some today && !t.completed).drop
            (maxI - countIncomplete d.tasks.immediate)
    ∧ (runAutoSort today maxI d).data.tasks.immediate.Perm
        (((d.tasks.thisWeek.filter fun t => t.doDate == some today && !t.completed).take
            (maxI - countIncomplete d.tasks.immediate)).map
            (fun t => { t with sect := TaskSection.immediate }) ++ d.tasks.immediate)
    ∧ ((d.tasks.thisWeek.filter fun t => t.doDate == some today && !t.completed).take
          (maxI - countIncomplete d.tasks.immediate)).length
        + (runAutoSort today maxI d).overflowTasks.length
        = (d.tasks.thisWeek.filter fun t => t.doDate == some today && !t.completed).length := by
  have hE : ∀ t ∈ (d.tasks.thisWeek.filter fun t => t.doDate == some today && !t.completed),
      t.completed = false := by
    intro t ht
    have := (List.mem_filter.mp ht).2
    have h2 := (Bool.and_eq_true _ _).mp this
    simpa using h2.2
  have hfold := promote_fold maxI
    (d.tasks.thisWeek.filter fun t => t.doDate == some today && !t.completed)
    d.tasks [] hE
  refine ⟨?_, ?_, ?_⟩
  · simpa [runAutoSort] using hfold.1
  · have hperm : (runAutoSort today maxI d).data.tasks.immediate.Perm
        (((d.tasks.thisWeek.filter fun t => t.doDate == some today && !t.completed).foldl
          (promoteStep maxI) (d.tasks, [])).1.immediate) := by
      simpa [runAutoSort] using
        stableSortBy_perm cmpAutoSort
          (((d.tasks.thisWeek.filter
              fun t => t.doDate == some today && !t.completed).foldl
            (promoteStep maxI) (d.tasks, [])).1.immediate)
    refine hperm.trans ?_
    rw [hfold.2]
    exact ((List.reverse_perm _).append_right _)
  · have h1 := hfold.1
    have hlen : ((d.tasks.thisWeek.filter fun t => t.doDate == some today && !t.completed).take
          (maxI - countIncomplete d.tasks.immediate)).length
        + ((d.tasks.thisWeek.filter fun t => t.doDate == some today && !t.completed).drop
          (maxI - countIncomplete d.tasks.immediate)).length
        = (d.tasks.thisWeek.filter fun t => t.doDate == some today && !t.completed).length := by
      have hx := congrArg List.length
        (List.take_append_drop (maxI - countIncomplete d.tasks.immediate)
          (d.tasks.thisWeek.filter fun t => t.doDate == some today && !t.completed))
      rwa [List.length_append] at hx
    have h2 : (runAutoSort today maxI d).overflowTasks.length
        = ((d.tasks.thisWeek.filter fun t => t.doDate == some today && !t.completed).drop
            (maxI - countIncomplete d.tasks.immediate)).length := by
      have h3 : (runAutoSort today maxI d).overflowTasks
          = (d.tasks.thisWeek.filter fun t => t.doDate == some today && !t.completed).drop
              (maxI - countIncomplete d.tasks.immediate) := by
        simpa [runAutoSort] using hfold.1
      rw [h3]
    omega

/-! ### Section sorting (claim C6) -/

/-- The character comparison flips sign when the arguments swap. -/
theorem charCmp_antisym (a b : Char) : charCmp a b = -charCmp b a := by
  by_cases h1 : a.toNat < b.toNat <;> by_cases h2 : b.toNat < a.toNat <;>
    simp [charCmp, h1, h2] <;> omega

/-- The list comparison flips sign when the arguments swap. -/
theorem listCmp_antisym (a b : List Char) : listCmp a b = -listCmp b a := by
  induction a generalizing b with
  | nil => cases b <;> simp [listCmp]
  | cons x xs ih =>
    cases b with
    | nil => simp [listCmp]
    | cons y ys =>
      by_cases h : x = y
      · subst h
        simp [listCmp, ih ys]
      · have h2 : ¬(y = x) := fun hyx => h hyx.symm
        simp only [listCmp, if_neg h, if_neg h2]
        exact charCmp_antisym x y

/-- The string comparison flips sign when the arguments swap. -/
theorem strCmp_antisym (a b : String) : strCmp a b = -strCmp b a :=
  listCmp_antisym a.data b.data

/-- The auto-sort comparator flips sign when the arguments swap, which
makes it a consistent comparator in the sense the sort contract
requires. -/
theorem cmpAutoSort_antisym (a b : Task) : cmpAutoSort a b = -cmpAutoSort b a := by
  by_cases h : a.completed = b.completed
  · have h2 : ¬(a.completed ≠ b.completed) := fun hne => hne h
    have h3 : ¬(b.completed ≠ a.completed) := fun hne => hne h.symm
    simp only [cmpAutoSort, if_neg h2, if_neg h3]
    rcases hda : a.doDate with _ | x <;> rcases hdb : b.doDate with _ | y <;> simp
    exact strCmp_antisym x y
  · have h3 : b.completed ≠ a.completed := fun hba => h hba.symm
    simp only [cmpAutoSort, if_pos h, if_pos h3]
    cases ha : a.completed <;> cases hb : b.completed <;> simp_all

/-- The head of a stable insertion is the new element or the previous
head. -/
theorem sortInsert_head {α : Type} (cmp : α → α → Int) (x : α) (ys : List α) :
    (sortInsert cmp x ys).head? = some x ∨ (sortInsert cmp x ys).head? = ys.head? := by
  cases ys with
  | nil => left; rfl
  | cons y ys =>
    by_cases h : cmp x y ≤ 0
    · left; simp [sortInsert, h]
    · right; simp [sortInsert, h]

/-- Stable insertion preserves adjacent sortedness for an
antisymmetric comparator. -/
theorem sortInsert_chain {α : Type} (cmp : α → α → Int)
    (hA : ∀ a b, cmp a b = -cmp b a) (x : α) (l : List α)
    (hl : List.Chain' (fun a b => cmp a b ≤ 0) l) :
    List.Chain' (fun a b => cmp a b ≤ 0) (sortInsert cmp x l) := by
  induction l with
  | nil => simp [sortInsert]
  | cons y ys ih =>
    by_cases h : cmp x y ≤ 0
    · simp only [sortInsert, if_pos h]
      exact List.Chain'.cons h hl
    · simp only [sortInsert, if_neg h]
      have hparts := List.chain'_cons'.mp hl
      have hyx : cmp y x ≤ 0 := by
        have := hA x y
        omega
      apply List.chain'_cons'.mpr
      constructor
      · intro z hz
        rcases sortInsert_head cmp x ys with hh | hh
        · rw [hh] at hz
          simp at hz
          subst hz
          exact hyx
        · rw [hh] at hz
          exact hparts.1 z hz
      · exact ih hparts.2

/-- The stable sort produces an adjacently sorted list for an
antisymmetric comparator. -/
theorem stableSortBy_chain {α : Type} (cmp : α → α → Int)
    (hA : ∀ a b, cmp a b = -cmp b a) (l : List α) :
    List.Chain' (fun a b => cmp a b ≤ 0) (stableSortBy cmp l) := by
  induction l with
  | nil => simp [stableSortBy]
  | cons x xs ih => exact sortInsert_chain cmp hA x (stableSortBy cmp xs) ih

/-- The four tasks of the sort example stated in the claim. -/
def exTaskNone : Task :=
  { id := "n", title := "no date", completed := false, sect := TaskSection.immediate }

/-- Example task dated the first of February. -/
def exTaskFeb : Task :=
  { id := "f", title := "feb", completed := false, sect := TaskSection.immediate,
    doDate := some "2026-02-01" }

/-- Example completed task dated the first of January. -/
def exTaskDoneJan : Task :=
  { id := "c", title := "done jan", completed := true, sect := TaskSection.immediate,
    doDate := some "2026-01-01" }

/-- Example task dated the fifteenth of January. -/
def exTaskJan15 : Task :=
  { id := "j", title := "jan fifteen", completed := false, sect := TaskSection.immediate,
    doDate := some "2026-01-15" }

/-- A document holding the four example tasks in the claim order. -/
def exSortData : FocusData :=
  { weekOf := "2026-01-05", goals := [], habits := [], habitResetDate := "2026-01-05",
    tasks := ⟨[exTaskNone, exTaskFeb, exTaskDoneJan, exTaskJan15], [], []⟩,
    completedTasks := [] }

/-- Claim C6 (amended): after every autoSort run each of the three
section lists is stable-sorted by the comparator the code actually
uses - completed tasks last, then dated before undated, then doDate
ascending - with ties (which include every doTime difference) keeping
their pre-sort relative order; the concrete four-task example of the
claim sorts exactly as the claim says. -/
theorem C6_autoSort_sorted (today : String) (maxI : Nat) (d : FocusData) :
    (List.Chain' (fun a b => cmpAutoSort a b ≤ 0)
        (runAutoSort today maxI d).data.tasks.immediate
      ∧ List.Chain' (fun a b => cmpAutoSort a b ≤ 0)
          (runAutoSort today maxI d).data.tasks.thisWeek
      ∧ List.Chain' (fun a b => cmpAutoSort a b ≤ 0)
          (runAutoSort today maxI d).data.tasks.unscheduled)
    ∧ (runAutoSort "2026-03-05" 5 exSortData).data.tasks.immediate
        = [exTaskJan15, exTaskFeb, exTaskNone, exTaskDoneJan] := by
  refine ⟨⟨?_, ?_, ?_⟩, by decide⟩
  · exact stableSortBy_chain cmpAutoSort cmpAutoSort_antisym _
  · exact stableSortBy_chain cmpAutoSort cmpAutoSort_antisym _
  · exact stableSortBy_chain cmpAutoSort cmpAutoSort_antisym _

/-- Modelled from the spec: the sort key claim C6 states, namely
completed tasks last, then tasks with a doDate before tasks without,
then doDate ascending, then - among incomplete tasks with equal
doDate - doTime ascending with time-less tasks after timed ones.
True when the key orders the first task strictly before the second,
so a list sorted by the claimed key never places b after a when this
holds for b and a. -/
def claimSortBefore (a b : Task) : Bool :=
  if a.completed ≠ b.completed then !a.completed
  else match a.doDate, b.doDate with
  | some _, none => true
  | none, some _ => false
  | none, none => false
  | some x, some y =>
    if x ≠ y then decide (strCmp x y < 0)
    else if !a.completed && !b.completed then
      match a.doTime, b.doTime with
      | some u, some v => decide (strCmp u v < 0)
      | some _, none => true
      | none, some _ => false
      | none, none => false
    else false

/-- Tie pair for the counterexample: same doDate, no time on the
first, a time on the second. -/
def tieNoTime : Task :=
  { id := "p", title := "no time", completed := false, sect := TaskSection.immediate,
    doDate := some "2026-03-01" }

/-- Timed partner of the tie pair. -/
def tieTimed : Task :=
  { id := "q", title := "timed", completed := false, sect := TaskSection.immediate,
    doDate := some "2026-03-01", doTime := some "08:00" }

/-- Document holding the tie pair with the time-less task first. -/
def tieData : FocusData :=
  { weekOf := "2026-03-01", goals := [], habits := [], habitResetDate := "2026-03-01",
    tasks := ⟨[tieNoTime, tieTimed], [], []⟩, completedTasks := [] }

/-- Claim C6 counterexample: the claimed key orders the timed task
strictly before the time-less one on the same date, but the comparator
in runAutoSort never consults doTime, so the stable sort leaves the
time-less task first and the output violates the claimed ordering. -/
theorem C6_doTime_counterexample :
    (runAutoSort "2026-03-05" 5 tieData).data.tasks.immediate = [tieNoTime, tieTimed]
    ∧ claimSortBefore tieTimed tieNoTime = true :=
  ⟨by decide, by decide⟩

/-! ### Remote delete safety (claim C3) -/

/-- The filtered delete set only holds previously tracked ids. -/
theorem diffIds_subset (seen locIds : List String) :
    ∀ i ∈ diffIds seen locIds, i ∈ seen := by
  intro i hi
  exact (List.mem_filter.mp hi).1

/-- Every id a push deletes was already tracked at the start of the
trace or observed during the trace, whichever entity type it belongs
to. -/
theorem runSync_deletes_observed (events : List SyncEvent) :
    ∀ (s : SyncSeen) (dl : PushDeletes), dl ∈ (runSync s events).2 →
      (∀ i ∈ dl.taskIds, i ∈ s.taskIds ∨ i ∈ observedTaskIds events)
      ∧ (∀ i ∈ dl.goalIds, i ∈ s.goalIds ∨ i ∈ observedGoalIds events)
      ∧ (∀ i ∈ dl.habitIds, i ∈ s.habitIds ∨ i ∈ observedHabitIds events) := by
  induction events with
  | nil =>
    intro s dl hdl
    simp [runSync] at hdl
  | cons e es ih =>
    intro s dl hdl
    cases e with
    | pull t g h =>
      have hdl2 : dl ∈ (runSync (⟨t, g, h⟩ : SyncSeen) es).2 := by
        simpa [runSync, syncStep] using hdl
      have hx := ih ⟨t, g, h⟩ dl hdl2
      refine ⟨?_, ?_, ?_⟩
      · intro i hi
        rcases hx.1 i hi with hmem | hmem
        · right
          simp [observedTaskIds, List.mem_append]
          exact Or.inl hmem
        · right
          simp [observedTaskIds, List.mem_append]
          exact Or.inr hmem
      · intro i hi
        rcases hx.2.1 i hi with hmem | hmem
        · right
          simp [observedGoalIds, List.mem_append]
          exact Or.inl hmem
        · right
          simp [observedGoalIds, List.mem_append]
          exact Or.inr hmem
      · intro i hi
        rcases hx.2.2 i hi with hmem | hmem
        · right
          simp [observedHabitIds, List.mem_append]
          exact Or.inl hmem
        · right
          simp [observedHabitIds, List.mem_append]
          exact Or.inr hmem
    | push t g h =>
      have hdl2 : dl = (⟨diffIds s.taskIds t, diffIds s.goalIds g, diffIds s.habitIds h⟩ :
            PushDeletes)
          ∨ dl ∈ (runSync (⟨t, g, h⟩ : SyncSeen) es).2 := by
        have : dl ∈ (⟨diffIds s.taskIds t, diffIds s.goalIds g, diffIds s.habitIds h⟩ :
              PushDeletes) :: (runSync (⟨t, g, h⟩ : SyncSeen) es).2 := by
          simpa [runSync, syncStep, Option.toList] using hdl
        simpa using this
      rcases hdl2 with rfl | hdl3
      · refine ⟨?_, ?_, ?_⟩
        · intro i hi
          exact Or.inl (diffIds_subset _ _ i hi)
        · intro i hi
          exact Or.inl (diffIds_subset _ _ i hi)
        · intro i hi
          exact Or.inl (diffIds_subset _ _ i hi)
      · have hx := ih ⟨t, g, h⟩ dl hdl3
        refine ⟨?_, ?_, ?_⟩
        · intro i hi
          rcases hx.1 i hi with hmem | hmem
          · right
            simp [observedTaskIds, List.mem_append]
            exact Or.inl hmem
          · right
            simp [observedTaskIds, List.mem_append]
            exact Or.inr hmem
        · intro i hi
          rcases hx.2.1 i hi with hmem | hmem
          · right
            simp [observedGoalIds, List.mem_append]
            exact Or.inl hmem
          · right
            simp [observedGoalIds, List.mem_append]
            exact Or.inr hmem
        · intro i hi
          rcases hx.2.2 i hi with hmem | hmem
          · right
            simp [observedHabitIds, List.mem_append]
            exact Or.inl hmem
          · right
            simp [observedHabitIds, List.mem_append]
            exact Or.inr hmem

/-- Claim C3 (amended): a push deletes exactly the tracked ids absent
from its payload, where the tracked set is replaced on every pull and
on every push; consequently an id this client has never seen go by -
neither pulled nor contained in one of its own push payloads - is
never deleted.  In particular a record another client adds remotely
between this client's last pull and its next push is not deleted by
that push. -/
theorem C3_delete_safety (events : List SyncEvent) :
    (∀ i : String, i ∉ observedTaskIds events →
      ∀ dl ∈ (runSync initialSeen events).2, i ∉ dl.taskIds)
    ∧ (∀ i : String, i ∉ observedGoalIds events →
      ∀ dl ∈ (runSync initialSeen events).2, i ∉ dl.goalIds)
    ∧ (∀ i : String, i ∉ observedHabitIds events →
      ∀ dl ∈ (runSync initialSeen events).2, i ∉ dl.habitIds) := by
  refine ⟨?_, ?_, ?_⟩
  · intro i hobs dl hdl hi
    rcases (runSync_deletes_observed events initialSeen dl hdl).1 i hi with hmem | hmem
    · simp [initialSeen] at hmem
    · exact hobs hmem
  · intro i hobs dl hdl hi
    rcases (runSync_deletes_observed events initialSeen dl hdl).2.1 i hi with hmem | hmem
    · simp [initialSeen] at hmem
    · exact hobs hmem
  · intro i hobs dl hdl hi
    rcases (runSync_deletes_observed events initialSeen dl hdl).2.2 i hi with hmem | hmem
    · simp [initialSeen] at hmem
    · exact hobs hmem

/-- Witness for claim C3 at a concrete trace: the client pulls X and
Z, pushes only X (so Z is deleted), and the never-observed id Y is not
in the delete set. -/
theorem C3_delete_safety_witness :
    "Y" ∉ (PushDeletes.mk ["Z"] [] []).taskIds :=
  (C3_delete_safety [SyncEvent.pull ["X", "Z"] [] [], SyncEvent.push ["X"] [] []]).1
    "Y" (by decide) ⟨["Z"], [], []⟩ (by decide)

/-- The trace refuting the literal claim: pull X, push X and A, then
push nothing. -/
def cexSyncEvents : List SyncEvent :=
  [SyncEvent.pull ["X"] [] [], SyncEvent.push ["X", "A"] [] [], SyncEvent.push [] [] []]

/-- Claim C3 counterexample: the second push deletes A as well as X,
although the last pull only saw X and A was never observed on any
pull - the tracked set is replaced by the payload on every push, not
only on pulls, so the delete set is not the last-pull seen-set minus
the payload the claim describes. -/
theorem C3_push_seen_counterexample :
    ((runSync initialSeen cexSyncEvents).2.map fun dl => dl.taskIds) = [[], ["X", "A"]]
    ∧ "A" ∉ pulledTaskIds cexSyncEvents :=
  ⟨by decide, by decide⟩

/-! ### Complete and restore (claim C4) -/

/-- Removing by id on a list whose prefix misses the id removes the
first occurrence. -/
theorem removeFirstById_split (taskId : String) (t : Task) (pre post : List Task)
    (hpre : ∀ u ∈ pre, (u.id == taskId) = false) (ht : t.id = taskId) :
    removeFirstById taskId (pre ++ t :: post) = pre ++ post := by
  induction pre with
  | nil => simp [removeFirstById, ht]
  | cons u us ih =>
    have hu : (u.id == taskId) = false := hpre u (List.mem_cons_self u us)
    have hu2 : ¬(u.id = taskId) := by
      intro he
      rw [he] at hu
      simp at hu
    simp only [List.cons_append, removeFirstById, if_neg hu2]
    exact congrArg (fun l => u :: l) (ih (fun v hv => hpre v (List.mem_cons_of_mem u hv)))

/-- The first find on a list whose prefix fails the predicate is the
first hit after the prefix. -/
theorem find?_split {α : Type} (p : α → Bool) (x : α) (pre post : List α)
    (hpre : ∀ u ∈ pre, p u = false) (hx : p x = true) :
    (pre ++ x :: post).find? p = some x := by
  induction pre with
  | nil => simp [List.find?_cons, hx]
  | cons u us ih =>
    have hu : p u = false := hpre u (List.mem_cons_self u us)
    simp only [List.cons_append, List.find?_cons, hu]
    exact ih (fun v hv => hpre v (List.mem_cons_of_mem u hv))

/-- Reading back the section just written. -/
theorem set_get_same (t : SectionLists) (s : TaskSection) (l : List Task) :
    (t.set s l).get s = l := by
  cases s <;> rfl

/-- Writing a section twice keeps the last write. -/
theorem set_set_same (t : SectionLists) (s : TaskSection) (l1 l2 : List Task) :
    (t.set s l1).set s l2 = t.set s l2 := by
  cases s <;> rfl

/-- A conditional map is the identity on a list whose elements all
fail the condition. -/
theorem map_keep_of_pred_false {α : Type} (f : α → α) (p : α → Bool) (m : List α)
    (h : ∀ x ∈ m, p x = false) : m.map (fun x => if p x then f x else x) = m := by
  induction m with
  | nil => rfl
  | cons x xs ih =>
    have hx : p x = false := h x (List.mem_cons_self x xs)
    have hx2 : ¬(p x = true) := by simp [hx]
    simp only [List.map_cons, if_neg hx2]
    rw [ih (fun y hy => h y (List.mem_cons_of_mem x hy))]

/-- A filter keeps a list whose elements all satisfy the predicate. -/
theorem filter_keep_of_pred_true {α : Type} (p : α → Bool) (m : List α)
    (h : ∀ x ∈ m, p x = true) : m.filter p = m := by
  induction m with
  | nil => rfl
  | cons x xs ih =>
    have hx : p x = true := h x (List.mem_cons_self x xs)
    simp only [List.filter_cons, hx, ite_true]
    rw [ih (fun y hy => h y (List.mem_cons_of_mem x hy))]

/-- Claim C4 (amended, in-memory part): completing an active task -
archiving it into the month bucket of today with completedAt set - and
then restoring it puts the task back into its original section
(appended at the end) with completed false and completedAt cleared,
and the archive is exactly as before, the bucket having been deleted
when it became empty.  The claim also asserts this survives an
encode plus decode between the two steps; that part fails and is
refuted separately, because the encoder does not record the section of
archived tasks and the decoder assigns them unscheduled. -/
theorem C4_complete_restore (today : String) (s : TaskSection) (t : Task)
    (d : FocusData) (pre post : List Task)
    (hsect : d.tasks.get s = pre ++ t :: post)
    (hts : t.sect = s)
    (hinc : t.completed = false)
    (hat : t.completedAt = none)
    (hpre : ∀ u ∈ pre, (u.id == t.id) = false)
    (hbucket :
      (d.completedTasks.find? (fun p => p.1 == String.mk (today.data.take 7))) = none
      ∨ ∃ bpre bs bpost,
          d.completedTasks = bpre ++ (String.mk (today.data.take 7), bs) :: bpost
          ∧ (∀ p ∈ bpre, (p.1 == String.mk (today.data.take 7)) = false)
          ∧ (∀ p ∈ bpost, (p.1 == String.mk (today.data.take 7)) = false)
          ∧ (∀ u ∈ bs, (u.id == t.id) = false)
          ∧ bs ≠ []) :
    restoreTaskFromArchive (String.mk (today.data.take 7)) t.id
        (completeTask today t.id s d)
      = { d with tasks := d.tasks.set s (pre ++ post ++ [t]) } := by
  have hfind : (d.tasks.get s).find? (fun u => u.id == t.id) = some t := by
    rw [hsect]
    exact find?_split _ t pre post hpre (by simp)
  have hrm : removeFirstById t.id (d.tasks.get s) = pre ++ post := by
    rw [hsect]
    exact removeFirstById_split t.id t pre post hpre rfl
  set mkey := String.mk (today.data.take 7) with hmkey
  set archived : Task := { t with completed := true, completedAt := some today }
    with harchived
  have hcomplete : completeTask today t.id s d
      = { d with tasks := d.tasks.set s (pre ++ post),
                 completedTasks :=
                    pushBucket (ensureBucket d.completedTasks mkey) mkey archived } := by
    simp only [completeTask, hfind, hrm, hmkey, harchived]
  rw [hcomplete]
  have haid : (archived.id == t.id) = true := by
    rw [harchived]
    simp
  have hasect : archived.sect = s := by
    rw [harchived]
    simpa using hts
  have hback3 : Task.mk archived.id archived.title false none s archived.url
      archived.doDate archived.doTime archived.recurrence = t := by
    rw [show archived.id = t.id from rfl, show archived.title = t.title from rfl,
      show archived.url = t.url from rfl, show archived.doDate = t.doDate from rfl,
      show archived.doTime = t.doTime from rfl,
      show archived.recurrence = t.recurrence from rfl]
    rw [← hinc, ← hat, ← hts]
  have htasks : ∀ m2 : List (String × List Task),
      ({ d with tasks := d.tasks.set s (pre ++ post), completedTasks := m2 } :
        FocusData).tasks.set archived.sect
        ((({ d with tasks := d.tasks.set s (pre ++ post), completedTasks := m2 } :
          FocusData)).tasks.get archived.sect
          ++ [({ archived with completed := false, completedAt := none } : Task)])
      = d.tasks.set s (pre ++ post ++ [t]) := by
    intro m2
    rw [hasect, hback3]
    show (d.tasks.set s (pre ++ post)).set s
        ((d.tasks.set s (pre ++ post)).get s ++ [t]) = d.tasks.set s (pre ++ post ++ [t])
    rw [set_get_same, set_set_same, List.append_assoc]
  rcases hbucket with hnone | ⟨bpre, bs, bpost, hsplit, hbpre, hbpost, hbs, hbne⟩
  · have hens : ensureBucket d.completedTasks mkey = d.completedTasks ++ [(mkey, [])] := by
      simp [ensureBucket, hnone]
    have hkeys : ∀ p ∈ d.completedTasks, ((p.1 == mkey) = false) := by
      intro p hp
      cases hpk : (p.1 == mkey)
      · rfl
      · exfalso
        have h2 := List.find?_eq_none.mp hnone p hp
        rw [hmkey] at hpk
        exact h2 hpk
    have hpush : pushBucket (d.completedTasks ++ [(mkey, [])]) mkey archived
        = d.completedTasks ++ [(mkey, [archived])] := by
      simp only [pushBucket, List.map_append]
      rw [map_keep_of_pred_false (fun p => (p.1, p.2 ++ [archived]))
        (fun p => p.1 == mkey) d.completedTasks hkeys]
      simp
    rw [hens, hpush]
    have hlook : bucketLookup (d.completedTasks ++ [(mkey, [archived])]) mkey
        = some [archived] := by
      unfold bucketLookup
      rw [find?_split (fun p => p.1 == mkey) (mkey, [archived]) d.completedTasks []
        hkeys (by simp)]
      rfl
    have hfind2 : (List.find? (fun u => u.id == t.id) [archived]) = some archived := by
      simp [List.find?_cons, haid]
    have hremove : removeFromBucket (d.completedTasks ++ [(mkey, [archived])]) mkey t.id
        = d.completedTasks := by
      unfold removeFromBucket
      rw [List.map_append]
      rw [map_keep_of_pred_false (fun p => (p.1, removeFirstById t.id p.2))
        (fun p => p.1 == mkey) d.completedTasks hkeys]
      have hrm2 : removeFirstById t.id [archived] = [] := by
        simp [removeFirstById, harchived]
      simp only [List.map_cons, List.map_nil, beq_self_eq_true, ite_true, hrm2]
      rw [List.filter_append]
      rw [filter_keep_of_pred_true _ d.completedTasks
        (by
          intro p hp
          rw [hkeys p hp]
          rfl)]
      simp
    have hscrut : (bucketLookup (d.completedTasks ++ [(mkey, [archived])]) mkey).bind
        (fun ts => ts.find? (fun u => u.id == t.id)) = some archived := by
      rw [hlook]
      simpa using hfind2
    simp only [restoreTaskFromArchive, hscrut, hremove]
    rw [htasks (d.completedTasks ++ [(mkey, [archived])])]
  · have hfindk : d.completedTasks.find? (fun p => p.1 == mkey) = some (mkey, bs) := by
      rw [hsplit]
      exact find?_split _ (mkey, bs) bpre bpost hbpre (by simp)
    have hens : ensureBucket d.completedTasks mkey = d.completedTasks := by
      simp [ensureBucket, hfindk]
    have hpush : pushBucket d.completedTasks mkey archived
        = bpre ++ (mkey, bs ++ [archived]) :: bpost := by
      rw [hsplit]
      unfold pushBucket
      rw [List.map_append, List.map_cons]
      rw [map_keep_of_pred_false (fun p => (p.1, p.2 ++ [archived]))
        (fun p => p.1 == mkey) bpre hbpre]
      rw [map_keep_of_pred_false (fun p => (p.1, p.2 ++ [archived]))
        (fun p => p.1 == mkey) bpost hbpost]
      simp
    rw [hens, hpush]
    have hlook : bucketLookup (bpre ++ (mkey, bs ++ [archived]) :: bpost) mkey
        = some (bs ++ [archived]) := by
      unfold bucketLookup
      rw [find?_split (fun p => p.1 == mkey) (mkey, bs ++ [archived]) bpre bpost
        hbpre (by simp)]
      rfl
    have hfind2 : (List.find? (fun u => u.id == t.id) (bs ++ [archived])) = some archived :=
      find?_split (fun u => u.id == t.id) archived bs [] hbs haid
    have hremove : removeFromBucket (bpre ++ (mkey, bs ++ [archived]) :: bpost) mkey t.id
        = d.completedTasks := by
      unfold removeFromBucket
      rw [List.map_append, List.map_cons]
      rw [map_keep_of_pred_false (fun p => (p.1, removeFirstById t.id p.2))
        (fun p => p.1 == mkey) bpre hbpre]
      rw [map_keep_of_pred_false (fun p => (p.1, removeFirstById t.id p.2))
        (fun p => p.1 == mkey) bpost hbpost]
      have hrm2 : removeFirstById t.id (bs ++ [archived]) = bs ++ [] :=
        removeFirstById_split t.id archived bs [] hbs (by simpa using haid)
      simp only [beq_self_eq_true, ite_true, hrm2, List.append_nil]
      rw [List.filter_append, List.filter_cons]
      have hmid : ((!((mkey, bs).1 == mkey)) || !(mkey, bs).2.isEmpty) = true := by
        simp only [beq_self_eq_true, Bool.not_true, Bool.false_or]
        cases hb : bs with
        | nil => exact absurd hb hbne
        | cons b btl => simp
      rw [if_pos hmid]
      rw [filter_keep_of_pred_true _ bpre
        (by
          intro p hp
          rw [hbpre p hp]
          rfl)]
      rw [filter_keep_of_pred_true _ bpost
        (by
          intro p hp
          rw [hbpost p hp]
          rfl)]
      rw [hsplit]
    have hscrut : (bucketLookup (bpre ++ (mkey, bs ++ [archived]) :: bpost) mkey).bind
        (fun ts => ts.find? (fun u => u.id == t.id)) = some archived := by
      rw [hlook]
      simpa using hfind2
    simp only [restoreTaskFromArchive, hscrut, hremove]
    rw [htasks (bpre ++ (mkey, bs ++ [archived]) :: bpost)]

/-- A concrete active immediate task for the archive round trip. -/
def c4Task : Task :=
  { id := "a", title := "Call mom", completed := false, sect := TaskSection.immediate }

/-- A document holding only that task. -/
def c4Data : FocusData :=
  { weekOf := "2026-02-01", goals := [], habits := [], habitResetDate := "2026-02-01",
    tasks := ⟨[c4Task], [], []⟩, completedTasks := [] }

/-- Witness for claim C4 at a concrete input: completing the task on
2026-02-14 and restoring it from the 2026-02 bucket puts it back into
immediate and removes the bucket. -/
theorem C4_complete_restore_witness :
    restoreTaskFromArchive (String.mk ("2026-02-14".data.take 7)) "a"
        (completeTask "2026-02-14" "a" TaskSection.immediate c4Data)
      = { c4Data with
          tasks := c4Data.tasks.set TaskSection.immediate ([] ++ [] ++ [c4Task]) } :=
  C4_complete_restore "2026-02-14" TaskSection.immediate c4Task c4Data [] []
    (by decide) (by decide) (by decide) (by decide)
    (by intro u hu; cases hu) (Or.inl (by decide))

/-- The id supply used for the decoding step of the counterexample. -/
def c4Ids : Nat → String := fun n => String.mk ('f' :: natDigits n)

/-! ### Parse leniency (claim C10) -/

/-- The five annotation marker characters. -/
def markerChars : List Char := ['🔗', '✅', '⏰', '📅', '🔁']

/-- True when a string holds none of the annotation markers. -/
def markerFree (s : List Char) : Bool := s.all (fun c => !(markerChars.contains c))

/-- Characters of a trimmed string come from the original string. -/
theorem jsTrim_subset (s : List Char) : ∀ c ∈ jsTrim s, c ∈ s := by
  intro c hc
  unfold jsTrim at hc
  rw [List.mem_reverse] at hc
  have h1 := (List.dropWhile_sublist (l := (s.dropWhile isJsWs).reverse) isJsWs).subset hc
  rw [List.mem_reverse] at h1
  exact (List.dropWhile_sublist (l := s) isJsWs).subset h1

/-- The head after dropped whitespace comes from the string. -/
theorem head_dropWhile_mem (s : List Char) (c : Char)
    (h : (s.dropWhile isJsWs).head? = some c) : c ∈ s := by
  cases hd : s.dropWhile isJsWs with
  | nil => rw [hd] at h; cases h
  | cons x xs =>
    rw [hd] at h
    have hx : x = c := by simpa using h
    subst hx
    exact (List.dropWhile_sublist (l := s) isJsWs).subset (hd ▸ List.mem_cons_self x xs)

/-- The URL attempt fails when the link marker is not the first
non-whitespace character. -/
theorem urlAttempt_gate (t : List Char)
    (h : ¬ (t.dropWhile isJsWs).head? = some '🔗') : urlAttempt t = none := by
  unfold urlAttempt
  cases hd : t.dropWhile isJsWs with
  | nil => rfl
  | cons c cs =>
    have hc : ¬(c = '🔗') := by
      intro he
      exact h (by rw [hd, he]; rfl)
    simp [hd, hc]

/-- The time attempt fails when the clock marker is not the first
non-whitespace character. -/
theorem timeAttempt_gate (t : List Char)
    (h : ¬ (t.dropWhile isJsWs).head? = some '⏰') : timeAttempt t = none := by
  unfold timeAttempt
  cases hd : t.dropWhile isJsWs with
  | nil => rfl
  | cons c cs =>
    have hc : ¬(c = '⏰') := by
      intro he
      exact h (by rw [hd, he]; rfl)
    simp [hd, hc]

/-- The recurrence attempt fails when the repeat marker is not the
first non-whitespace character. -/
theorem recAttempt_gate (t : List Char)
    (h : ¬ (t.dropWhile isJsWs).head? = some '🔁') : recAttempt t = none := by
  unfold recAttempt
  cases hd : t.dropWhile isJsWs with
  | nil => rfl
  | cons c cs =>
    have hc : ¬(c = '🔁') := by
      intro he
      exact h (by rw [hd, he]; rfl)
    simp [hd, hc]

/-- The date attempt fails when its marker is not the first
non-whitespace character. -/
theorem dateAttempt_gate (marker : Char) (t : List Char)
    (h : ¬ (t.dropWhile isJsWs).head? = some marker) : dateAttempt marker t = none := by
  unfold dateAttempt
  cases hd : t.dropWhile isJsWs with
  | nil => rfl
  | cons c cs =>
    have hc : (c == marker) = false := by
      cases hb : (c == marker)
      · rfl
      · exfalso
        have : c = marker := by simpa using hb
        exact h (by rw [hd, this]; rfl)
    simp [hd, hc]

/-- The leftmost scan of a marker-gated pattern fails on a string
without the marker. -/
theorem scanFirst_none_of_marker {α : Type} (attempt : List Char → Option α) (marker : Char)
    (hgate : ∀ t, ¬ (t.dropWhile isJsWs).head? = some marker → attempt t = none) :
    ∀ s : List Char, marker ∉ s → scanFirst attempt s = none := by
  intro s
  induction s with
  | nil =>
    intro _
    exact hgate [] (by simp)
  | cons c cs ih =>
    intro h
    have hc : attempt (c :: cs) = none := by
      apply hgate
      intro hh
      exact h (head_dropWhile_mem (c :: cs) marker hh)
    rw [scanFirst, hc]
    exact ih (fun hm => h (List.mem_cons_of_mem c hm))

/-- A marker-free string contains none of the five markers. -/
theorem markerFree_not_mem (s : List Char) (h : markerFree s = true) :
    '🔗' ∉ s ∧ '✅' ∉ s ∧ '⏰' ∉ s ∧ '📅' ∉ s ∧ '🔁' ∉ s := by
  have hall := List.all_eq_true.mp h
  refine ⟨?_, ?_, ?_, ?_, ?_⟩ <;>
    · intro hm
      have := hall _ hm
      simp [markerChars] at this

/-- Claim C10: the decoder is total - parseTaskLine succeeds exactly
when the leading checkbox pattern matches, never failing because of
what follows the checkbox; on a checkbox line whose remainder holds no
annotation marker at all (unrecognized trailing text) the whole
remainder stays in the title and every annotation field is empty; and
on the concrete line with malformed annotation values the markers and
values also stay in the title.  Whole-document decoding is a total
function of this development by construction, so no input can make it
fail. -/
theorem C10_parse_leniency :
    (∀ (ident : String) (line : List Char) (sect : TaskSection),
        (parseTaskLine ident line sect).isSome = (checkboxSplit line).isSome)
    ∧ (∀ (ident : String) (line : List Char) (sect : TaskSection) (mark : Char)
        (chunk : List Char),
        checkboxSplit line = some (mark, chunk) →
        markerFree chunk = true →
        parseTaskLine ident line sect
          = some { id := ident, title := String.mk (jsTrim chunk),
                   completed := (mark == 'x' || mark == 'X'), completedAt := none,
                   sect := sect, url := none, doDate := none, doTime := none,
                   recurrence := none })
    ∧ parseTaskLine "t1" "- [ ] Call mom 📅 tomorrow ⏰ 9am".data TaskSection.thisWeek
        = some { id := "t1", title := "Call mom 📅 tomorrow ⏰ 9am", completed := false,
                 completedAt := none, sect := TaskSection.thisWeek, url := none,
                 doDate := none, doTime := none, recurrence := none } := by
  refine ⟨?_, ?_, by decide⟩
  · intro ident line sect
    cases h : checkboxSplit line <;> simp [parseTaskLine, h]
  · intro ident line sect mark chunk hsplit hfree
    have hfree2 : markerFree (jsTrim chunk) = true := by
      have hall := List.all_eq_true.mp hfree
      exact List.all_eq_true.mpr (fun c hc => hall c (jsTrim_subset chunk c hc))
    obtain ⟨h1, h2, h3, h4, h5⟩ := markerFree_not_mem _ hfree2
    have hurl := scanFirst_none_of_marker urlAttempt '🔗' urlAttempt_gate _ h1
    have hcomp := scanFirst_none_of_marker (dateAttempt '✅') '✅'
      (dateAttempt_gate '✅') _ h2
    have htime := scanFirst_none_of_marker timeAttempt '⏰' timeAttempt_gate _ h3
    have hdate := scanFirst_none_of_marker (dateAttempt '📅') '📅'
      (dateAttempt_gate '📅') _ h4
    have hrec := scanFirst_none_of_marker recAttempt '🔁' recAttempt_gate _ h5
    simp only [parseTaskLine, hsplit, hurl, hcomp, htime, hdate, hrec]

/-- Witness for claim C10 at a concrete input: a checkbox line with no
marker parses with its whole remainder as the title. -/
theorem C10_parse_leniency_witness :
    parseTaskLine "t2" "- [x] fix the roof at 9pm".data TaskSection.unscheduled
      = some { id := "t2", title := String.mk (jsTrim "fix the roof at 9pm".data),
               completed := (('x' : Char) == 'x' || ('x' : Char) == 'X'),
               completedAt := none, sect := TaskSection.unscheduled, url := none,
               doDate := none, doTime := none, recurrence := none } :=
  C10_parse_leniency.2.1 "t2" "- [x] fix the roof at 9pm".data TaskSection.unscheduled
    'x' "fix the roof at 9pm".data (by decide) (by decide)

/-- Claim C4 counterexample: when the document is encoded and decoded
between the complete and the restore, the restored task lands in
unscheduled rather than its original immediate section - the encoder
writes archived tasks without their section and the decoder assigns
them unscheduled. -/
theorem C4_reencode_counterexample :
    ((restoreTaskFromArchive "2026-02" (c4Ids 0)
        (parseTaskFile c4Ids "2026-02-14"
          (serializeTaskFile
            (completeTask "2026-02-14" "a" TaskSection.immediate c4Data)))).tasks.unscheduled.map
        (fun t => t.title) = ["Call mom"])
    ∧ (restoreTaskFromArchive "2026-02" (c4Ids 0)
        (parseTaskFile c4Ids "2026-02-14"
          (serializeTaskFile
            (completeTask "2026-02-14" "a" TaskSection.immediate c4Data)))).tasks.immediate
        = [] :=
  ⟨by decide, by decide⟩

/-! ### Round trip (claim C1) -/

/-- Id supply for the round-trip counterexample. -/
def c1Ids (n : Nat) : String := "c" ++ toString n

/-- A store document holding nothing yet. -/
def c1Base : FocusData :=
  ⟨"2026-02-02", [], [], "2026-02-02", ⟨[], [], []⟩, []⟩

/-- The document after one addTask call: a monthly recurring task with
a scheduled date. -/
def c1Data : FocusData :=
  ⟨"2026-02-02", [], [], "2026-02-02",
   ⟨[], [{ id := "t0", title := "Pay rent", completed := false, completedAt := none,
           sect := TaskSection.thisWeek, url := none, doDate := some "2026-02-01",
           doTime := none,
           recurrence := some ⟨RecurrenceType.months, 1, none, some 31⟩ }], []⟩,
   []⟩

/-- Claim C1 counterexample: the document c1Data is constructed by a
single addTask call (a task may carry both a scheduled date and a
recurrence, as the add-task modal allows), yet decoding its encoding
does not return it: the scheduled-date annotation is serialized before
the recurrence annotation while the decoder peels the end-anchored
date pattern before the recurrence pattern, so the date annotation is
no longer at the end of the line and stays inside the title, and the
doDate field comes back empty (the id is regenerated as well). -/
theorem C1_roundtrip_counterexample :
    (addTask 3 "t0" "Pay rent" TaskSection.thisWeek none (some "2026-02-01") none
        (some ⟨RecurrenceType.months, 1, none, some 31⟩) c1Base) = ⟨c1Data, false⟩
    ∧ (parseTaskFile c1Ids "2026-02-02" (serializeTaskFile c1Data)).tasks.thisWeek
        = [{ id := "c0", title := "Pay rent 📅 2026-02-01", completed := false,
             completedAt := none, sect := TaskSection.thisWeek, url := none,
             doDate := none, doTime := none,
             recurrence := some ⟨RecurrenceType.months, 1, none, some 31⟩ }]
    ∧ c1Data.tasks.thisWeek.map (fun t => (t.title, t.doDate))
        = [("Pay rent", some "2026-02-01")] :=
  ⟨by decide, by decide, by decide⟩

/-- A digit character has the digit property. -/
theorem digitChar_isDigit {k : Nat} (h : k < 10) : (Nat.digitChar k).isDigit = true := by
  interval_cases k <;> decide

/-- Code-point value of a digit character. -/
theorem digitChar_val {k : Nat} (h : k < 10) : (Nat.digitChar k).toNat - 48 = k := by
  interval_cases k <;> decide

/-- The digit builder only prepends to its accumulator. -/
theorem natDigitsAux_extract (fuel : Nat) :
    ∀ n acc, natDigitsAux fuel n acc = natDigitsAux fuel n [] ++ acc := by
  induction fuel with
  | zero => intro n acc; rfl
  | succ fuel ih =>
    intro n acc
    by_cases hn : n = 0
    · simp [natDigitsAux, hn]
    · rw [natDigitsAux, natDigitsAux, if_neg hn, if_neg hn,
        ih (n / 10) (Nat.digitChar (n % 10) :: acc),
        ih (n / 10) [Nat.digitChar (n % 10)], List.append_assoc]
      rfl

/-- Reading back the built digits returns the number. -/
theorem digitsToNat_natDigitsAux (fuel : Nat) :
    ∀ n, n ≤ fuel → digitsToNat (natDigitsAux fuel n []) = n := by
  induction fuel with
  | zero =>
    intro n hn
    have h0 : n = 0 := Nat.le_zero.mp hn
    subst h0
    rfl
  | succ fuel ih =>
    intro n hn
    by_cases hn0 : n = 0
    · simp [natDigitsAux, hn0, digitsToNat]
    · rw [natDigitsAux, if_neg hn0, natDigitsAux_extract]
      have hlt : n / 10 ≤ fuel := by
        have hd : n / 10 < n := Nat.div_lt_self (Nat.pos_of_ne_zero hn0) (by norm_num)
        omega
      have hm : n % 10 < 10 := Nat.mod_lt _ (by decide)
      unfold digitsToNat
      rw [List.foldl_append]
      have hbase := ih (n / 10) hlt
      unfold digitsToNat at hbase
      rw [hbase]
      simp only [List.foldl_cons, List.foldl_nil]
      rw [digitChar_val hm]
      omega

/-- Reading back the rendered digits of a number returns the number. -/
theorem digitsToNat_natDigits (n : Nat) : digitsToNat (natDigits n) = n := by
  by_cases hn : n = 0
  · simp [natDigits, hn, digitsToNat]
  · rw [natDigits, if_neg hn]
    exact digitsToNat_natDigitsAux n n (le_refl n)

/-- The digit builder produces digit characters onto a digit
accumulator. -/
theorem natDigitsAux_all_digit (fuel : Nat) :
    ∀ n acc, acc.all Char.isDigit = true → (natDigitsAux fuel n acc).all Char.isDigit = true := by
  induction fuel with
  | zero => intro n acc h; exact h
  | succ fuel ih =>
    intro n acc h
    by_cases hn : n = 0
    · simpa [natDigitsAux, hn] using h
    · rw [natDigitsAux, if_neg hn]
      refine ih (n / 10) _ ?_
      rw [List.all_cons, h, digitChar_isDigit (Nat.mod_lt _ (by decide))]
      rfl

/-- Every character of a rendered number is a digit. -/
theorem natDigits_all_digit (n : Nat) : (natDigits n).all Char.isDigit = true := by
  by_cases hn : n = 0
  · simp [natDigits, hn]
  · rw [natDigits, if_neg hn]
    exact natDigitsAux_all_digit n n [] rfl

/-- The rendered digits of a number are nonempty. -/
theorem natDigits_ne_nil (n : Nat) : natDigits n ≠ [] := by
  by_cases hn : n = 0
  · simp [natDigits, hn]
  · rw [natDigits, if_neg hn]
    cases n with
    | zero => exact absurd rfl hn
    | succ m =>
      rw [natDigitsAux, if_neg hn, natDigitsAux_extract]
      intro h
      exact absurd (List.append_eq_nil.mp h).2 (by simp)

/-- A string that is nonempty and neither starts nor ends in
whitespace. -/
def trimShaped (s : List Char) : Bool :=
  !s.isEmpty && !(isJsWs (s.headD ' ')) && !(isJsWs (s.getLastD ' '))

/-- ISO date shape: four digits, a dash, two digits, a dash, two
digits. -/
def dateShaped (v : String) : Bool :=
  match v.data with
  | [a, b, c, d, '-', e, f, '-', g, h] =>
    a.isDigit && b.isDigit && c.isDigit && d.isDigit && e.isDigit && f.isDigit &&
    g.isDigit && h.isDigit
  | _ => false

/-- Clock-time shape: one or two hour digits, a colon, two minute
digits. -/
def timeShaped (v : String) : Bool :=
  match v.data with
  | [a, b, ':', c, d] => a.isDigit && b.isDigit && c.isDigit && d.isDigit
  | [a, ':', c, d] => a.isDigit && c.isDigit && d.isDigit
  | _ => false

/-- URL shape: an http or https scheme, a nonempty remainder, and only
characters that are not whitespace, not line terminators and not
annotation markers. -/
def urlShaped (v : String) : Bool :=
  (if "https://".data.isPrefixOf v.data then !(v.data.drop 8).isEmpty
   else if "http://".data.isPrefixOf v.data then !(v.data.drop 7).isEmpty
   else false)
  && v.data.all (fun c => !isJsWs c && isDotChar c && !markerChars.contains c)

/-- Auxiliary recurrence day fields are set only for the matching
recurrence type. -/
def recShaped (r : Recurrence) : Bool :=
  match r.type with
  | RecurrenceType.days => r.dayOfWeek.isNone && r.dayOfMonth.isNone
  | RecurrenceType.weeks => r.dayOfMonth.isNone
  | RecurrenceType.months => r.dayOfWeek.isNone

/-- A line payload the codec keeps intact: trimmed, nonempty and free
of line terminators. -/
def lineShaped (s : List Char) : Bool := trimShaped s && s.all isDotChar

/-- A task title the codec keeps intact: a shaped line free of the
five annotation markers. -/
def titleShaped (s : List Char) : Bool := lineShaped s && markerFree s

/-- A task whose fields the codec can round-trip. -/
def taskOk (t : Task) : Bool :=
  titleShaped t.title.data
  && (match t.url with | some v => urlShaped v | none => true)
  && (match t.doDate with | some v => dateShaped v | none => true)
  && (match t.doTime with | some v => timeShaped v | none => true)
  && (match t.completedAt with | some v => dateShaped v | none => true)
  && (match t.recurrence with
      | some r => recShaped r && t.doDate.isNone && t.doTime.isNone
      | none => true)

/-- A month key of the archive: four year digits, a dash and a month
01 to 12. -/
def monthKeyShaped (k : String) : Bool :=
  match k.data with
  | [a, b, c, d, '-', m1, m2] =>
    a.isDigit && b.isDigit && c.isDigit && d.isDigit &&
    ([['0','1'], ['0','2'], ['0','3'], ['0','4'], ['0','5'], ['0','6'], ['0','7'],
      ['0','8'], ['0','9'], ['1','0'], ['1','1'], ['1','2']].contains [m1, m2])
  | _ => false

/-- A goal the codec round-trips. -/
def goalOk (g : WeeklyGoal) : Bool := lineShaped g.title.data

/-- A habit the codec round-trips. -/
def habitOk (h : DailyHabit) : Bool := lineShaped h.title.data

/-- The well-formedness envelope of the amended round-trip claim: the
dates are ISO shaped, goal and habit titles are shaped lines, there
are at most three habits, every task is round-trippable, and the
archive holds nonempty buckets under distinct shaped month keys of
completed tasks. -/
def wellFormed (d : FocusData) : Bool :=
  dateShaped d.weekOf && dateShaped d.habitResetDate
  && d.goals.all goalOk
  && d.habits.all habitOk && decide (d.habits.length ≤ 3)
  && d.tasks.immediate.all taskOk && d.tasks.thisWeek.all taskOk
  && d.tasks.unscheduled.all taskOk
  && d.completedTasks.all (fun p =>
       monthKeyShaped p.1 && !p.2.isEmpty && p.2.all (fun t => taskOk t && t.completed))
  && decide ((d.completedTasks.map Prod.fst).Nodup)

/-- Renumbering of an active task list as the decoder rebuilds it:
fresh ids in document order, the section of the containing list, no
completion date. -/
def renumActive (ids : Nat → String) (n : Nat) (sect : TaskSection) (ts : List Task) :
    List Task :=
  ts.enum.map (fun p => { p.2 with id := ids (n + p.1), sect := sect, completedAt := none })

/-- Renumbering of an archived bucket as the decoder rebuilds it:
fresh ids, the unscheduled section, the completed flag forced on. -/
def renumArchived (ids : Nat → String) (n : Nat) (ts : List Task) : List Task :=
  ts.enum.map (fun p =>
    { p.2 with id := ids (n + p.1), sect := TaskSection.unscheduled, completed := true })

/-- The archive as the decoder rebuilds it: the buckets of the given
keys in order, renumbered sequentially. -/
def renumBuckets (ids : Nat → String) (m : List (String × List Task)) :
    Nat → List String → List (String × List Task)
  | _, [] => []
  | n, k :: ks =>
    (k, renumArchived ids n ((bucketLookup m k).getD [])) ::
      renumBuckets ids m (n + ((bucketLookup m k).getD []).length) ks

/-- Modelled from the amended claim: decoding an encoded well-formed
document returns the same document with ids regenerated in document
order (goals, habits, immediate, this week, unscheduled, then the
archive in most-recent-first key order), each active task stamped
with the section of the list holding it and an empty completion date,
and the archive reordered most-recent-first with every archived task
marked completed and assigned the unscheduled section. -/
def roundTripModel (ids : Nat → String) (d : FocusData) : FocusData :=
  let n1 := d.goals.length
  let n2 := n1 + d.habits.length
  let n3 := n2 + d.tasks.immediate.length
  let n4 := n3 + d.tasks.thisWeek.length
  let n5 := n4 + d.tasks.unscheduled.length
  let keys := (stableSortBy strCmp (d.completedTasks.map Prod.fst)).reverse
  { weekOf := d.weekOf,
    goals := d.goals.enum.map (fun p => ⟨ids p.1, p.2.title⟩),
    habits := d.habits.enum.map (fun p => ⟨ids (n1 + p.1), p.2.title, p.2.completedToday⟩),
    habitResetDate := d.habitResetDate,
    tasks := ⟨renumActive ids n2 TaskSection.immediate d.tasks.immediate,
              renumActive ids n3 TaskSection.thisWeek d.tasks.thisWeek,
              renumActive ids n4 TaskSection.unscheduled d.tasks.unscheduled⟩,
    completedTasks := renumBuckets ids d.completedTasks n5 keys }

/-- Taking while a predicate holds walks through a satisfying
prefix. -/
theorem takeWhile_append_all {p : Char → Bool} (a b : List Char) (h : a.all p = true) :
    (a ++ b).takeWhile p = a ++ b.takeWhile p := by
  induction a with
  | nil => rfl
  | cons c cs ih =>
    rw [List.all_cons, Bool.and_eq_true] at h
    simp [List.takeWhile_cons, h.1, ih h.2]

/-- Dropping while a predicate holds consumes a satisfying prefix. -/
theorem dropWhile_append_all {p : Char → Bool} (a b : List Char) (h : a.all p = true) :
    (a ++ b).dropWhile p = b.dropWhile p := by
  induction a with
  | nil => rfl
  | cons c cs ih =>
    rw [List.all_cons, Bool.and_eq_true] at h
    simp [List.dropWhile_cons, h.1, ih h.2]

/-- The take stops at a failing head. -/
theorem takeWhile_cons_neg {p : Char → Bool} {c : Char} (cs : List Char)
    (h : p c = false) : (c :: cs).takeWhile p = [] := by
  simp [List.takeWhile_cons, h]

/-- The drop stops at a failing head. -/
theorem dropWhile_cons_neg {p : Char → Bool} {c : Char} (cs : List Char)
    (h : p c = false) : (c :: cs).dropWhile p = c :: cs := by
  simp [List.dropWhile_cons, h]

/-- A last element is a member. -/
theorem getLast?_mem {α : Type} : ∀ {l : List α} {c : α}, l.getLast? = some c → c ∈ l
  | [], _, h => by cases h
  | [a], c, h => by
    have : a = c := by simpa [List.getLast?] using h
    simp [this]
  | a :: b :: t, c, h => by
    rw [List.getLast?_cons_cons] at h
    exact List.mem_cons_of_mem a (getLast?_mem h)

/-- A list whose last element fails the predicate does not drop to
nothing. -/
theorem dropWhile_ne_nil_of_last {p : Char → Bool} {l : List Char} {c : Char}
    (hl : l.getLast? = some c) (hc : p c = false) : l.dropWhile p ≠ [] := by
  intro hnil
  have hall := List.dropWhile_eq_nil_iff.mp hnil
  rw [hall c (getLast?_mem hl)] at hc
  cases hc

/-- Dropping across an append stays inside a first part that does not
drop to nothing. -/
theorem dropWhile_append_of_ne_nil {p : Char → Bool} {l : List Char} (r : List Char)
    (h : l.dropWhile p ≠ []) : (l ++ r).dropWhile p = l.dropWhile p ++ r := by
  induction l with
  | nil => exact absurd rfl h
  | cons a as ih =>
    cases ha : p a with
    | true =>
      rw [List.dropWhile_cons_of_pos ha] at h
      rw [List.cons_append, List.dropWhile_cons_of_pos ha, List.dropWhile_cons_of_pos ha]
      exact ih h
    | false =>
      rw [List.cons_append, List.dropWhile_cons_of_neg (by simp [ha]),
        List.dropWhile_cons_of_neg (by simp [ha])]
      rfl

/-- A head is a member. -/
theorem mem_of_head?_some {α : Type} {l : List α} {c : α} (h : l.head? = some c) : c ∈ l := by
  cases l with
  | nil => cases h
  | cons x xs =>
    have hx : x = c := by simpa using h
    simp [hx]

/-- The head of the reversal is the last element. -/
theorem reverse_head? (l : List Char) : l.reverse.head? = l.getLast? := by
  induction l with
  | nil => rfl
  | cons a as ih =>
    cases as with
    | nil => rfl
    | cons x xs =>
      rw [List.reverse_cons, List.head?_append_of_ne_nil _ (by simp), ih,
        List.getLast?_cons_cons]

/-- Trimming a string that is already trimmed changes nothing. -/
theorem jsTrim_of_trimShaped {s : List Char} (h : trimShaped s = true) : jsTrim s = s := by
  unfold trimShaped at h
  rw [Bool.and_eq_true, Bool.and_eq_true] at h
  obtain ⟨⟨hne, hhd⟩, hlast⟩ := h
  cases s with
  | nil => simp at hne
  | cons c cs =>
    have hc : isJsWs c = false := by simpa using hhd
    unfold jsTrim
    rw [dropWhile_cons_neg _ hc]
    cases hr : (c :: cs).reverse with
    | nil => exact absurd (congrArg List.length hr) (by simp)
    | cons d ds =>
      have hd1 : (c :: cs).getLast? = some d := by
        rw [← reverse_head?, hr]
        rfl
      have hd : isJsWs d = false := by
        have := hlast
        rw [List.getLastD_eq_getLast?, hd1] at this
        simpa using this
      rw [dropWhile_cons_neg _ hd, ← hr, List.reverse_reverse]

/-- A cons cell always has a last element. -/
theorem getLast?_cons_ne_none {α : Type} (a : α) (l : List α) : (a :: l).getLast? ≠ none := by
  induction l generalizing a with
  | nil => simp [List.getLast?]
  | cons x xs ih =>
    rw [List.getLast?_cons_cons]
    exact ih x

/-- The end-anchored scan walks unmoved across a prefix that holds no
marker and does not end in whitespace. -/
theorem scanFirst_skip {α : Type} (attempt : List Char → Option α) (marker : Char)
    (hgate : ∀ t, ¬(t.dropWhile isJsWs).head? = some marker → attempt t = none) :
    ∀ (pre rest : List Char), marker ∉ pre →
      (∀ c, pre.getLast? = some c → isJsWs c = false) →
      scanFirst attempt (pre ++ rest) = scanFirst attempt rest := by
  intro pre
  induction pre with
  | nil => intro rest _ _; rfl
  | cons p ps ih =>
    intro rest hmem hlast
    cases hgl : (p :: ps).getLast? with
    | none => exact absurd hgl (getLast?_cons_ne_none p ps)
    | some c =>
      have hc : isJsWs c = false := hlast c hgl
      have hdnn : (p :: ps).dropWhile isJsWs ≠ [] := dropWhile_ne_nil_of_last hgl hc
      have hatt : attempt (p :: (ps ++ rest)) = none := by
        apply hgate
        rw [← List.cons_append, dropWhile_append_of_ne_nil rest hdnn,
          List.head?_append_of_ne_nil _ hdnn]
        intro hhd
        have hmark : marker ∈ (p :: ps).dropWhile isJsWs := mem_of_head?_some hhd
        exact hmem ((List.dropWhile_sublist _).subset hmark)
      rw [List.cons_append, scanFirst, hatt]
      apply ih
      · intro hm
        exact hmem (List.mem_cons_of_mem p hm)
      · intro c2 hc2
        cases ps with
        | nil => cases hc2
        | cons x xs =>
          apply hlast
          rw [List.getLast?_cons_cons]
          exact hc2

/-- A list is a prefix of itself followed by anything. -/
theorem isPrefixOf_append_self (l r : List Char) : l.isPrefixOf (l ++ r) = true := by
  induction l with
  | nil => simp
  | cons a as ih =>
    rw [List.cons_append, List.isPrefixOf_cons₂, ih]
    simp

/-- The first occurrence of a space-marker-tail pattern after a prefix
that holds no marker and does not end in whitespace is right after the
prefix. -/
theorem splitFirst_end (marker : Char) (tail : List Char) :
    ∀ (pre : List Char), marker ∉ pre →
      (∀ c, pre.getLast? = some c → isJsWs c = false) →
      splitFirst (' ' :: marker :: tail) (pre ++ ' ' :: marker :: tail) = some (pre, []) := by
  intro pre
  induction pre with
  | nil =>
    intro _ _
    rw [List.nil_append, splitFirst,
      if_pos (by simpa using isPrefixOf_append_self (' ' :: marker :: tail) [])]
    simp
  | cons p ps ih =>
    intro hmem hlast
    have hnp : (' ' :: marker :: tail).isPrefixOf ((p :: ps) ++ ' ' :: marker :: tail) = false := by
      rw [List.cons_append, List.isPrefixOf_cons₂]
      by_cases hp : p = ' '
      · subst hp
        cases ps with
        | nil =>
          have := hlast ' ' (by rfl)
          simp [isJsWs, jsWsChars] at this
        | cons q qs =>
          have hq : ¬(marker == q) = true := by
            intro hb
            exact hmem (by simp [List.mem_cons, (eq_of_beq hb).symm])
          rw [List.cons_append, List.isPrefixOf_cons₂]
          simp only [Bool.and_eq_false_iff]
          right
          left
          exact Bool.eq_false_iff.mpr hq
      · have hp2 : ¬((' ' : Char) == p) = true := by
          intro hb
          exact hp (eq_of_beq hb).symm
        simp [Bool.eq_false_iff.mpr hp2]
    rw [List.cons_append, splitFirst]
    rw [List.cons_append] at hnp
    rw [if_neg (by rw [hnp]; exact Bool.false_ne_true)]
    have hps := ih (fun hm => hmem (List.mem_cons_of_mem p hm))
      (fun c2 hc2 => by
        cases ps with
        | nil => cases hc2
        | cons x xs =>
          apply hlast
          rw [List.getLast?_cons_cons]
          exact hc2)
    rw [hps]
    rfl

/-- One peel step of the annotation scan: past a clean prefix the
match is the whole annotation and removing it leaves the prefix. -/
theorem scan_peel {β : Type} (attempt : List Char → Option (List Char × β)) (marker : Char)
    (hgate : ∀ t, ¬(t.dropWhile isJsWs).head? = some marker → attempt t = none)
    (pre tail : List Char) (v : β)
    (hatt : attempt (' ' :: marker :: tail) = some (' ' :: marker :: tail, v))
    (hmem : marker ∉ pre)
    (hlast : ∀ c, pre.getLast? = some c → isJsWs c = false) :
    scanFirst attempt (pre ++ ' ' :: marker :: tail) = some (' ' :: marker :: tail, v)
    ∧ replaceFirst (pre ++ ' ' :: marker :: tail) (' ' :: marker :: tail) = pre := by
  constructor
  · rw [scanFirst_skip attempt marker hgate pre _ hmem hlast, scanFirst, hatt]
  · unfold replaceFirst
    rw [splitFirst_end marker tail pre hmem hlast]
    simp

/-- Splitting a string without the separator yields the string. -/
theorem splitChar_no_sep (sep : Char) (l : List Char) (h : sep ∉ l) :
    splitChar sep l = [l] := by
  induction l with
  | nil => rfl
  | cons c cs ih =>
    have hc : (c == sep) = false := by
      cases hb : c == sep with
      | true => exact absurd (by simp [eq_of_beq hb]) h
      | false => rfl
    rw [splitChar, hc]
    rw [ih (fun hm => h (List.mem_cons_of_mem c hm))]
    rfl

/-- Splitting past a separator-free prefix cuts at the separator. -/
theorem splitChar_append_sep (sep : Char) (l r : List Char) (h : sep ∉ l) :
    splitChar sep (l ++ sep :: r) = l :: splitChar sep r := by
  induction l with
  | nil =>
    rw [List.nil_append, splitChar]
    simp
  | cons c cs ih =>
    have hc : (c == sep) = false := by
      cases hb : c == sep with
      | true => exact absurd (by simp [eq_of_beq hb]) h
      | false => rfl
    rw [List.cons_append, splitChar, hc,
      ih (fun hm => h (List.mem_cons_of_mem c hm))]
    rfl

/-- Splitting on newlines undoes the newline join of newline-free
lines. -/
theorem splitChar_joinLines (ls : List (List Char)) (hne : ls ≠ [])
    (h : ∀ l ∈ ls, ('\n' : Char) ∉ l) : splitChar '\n' (joinLines ls) = ls := by
  induction ls with
  | nil => exact absurd rfl hne
  | cons l rest ih =>
    cases rest with
    | nil => exact splitChar_no_sep _ l (h l (by simp))
    | cons l2 ls2 =>
      rw [joinLines, splitChar_append_sep _ _ _ (h l (by simp)),
        ih (List.cons_ne_nil l2 ls2) (fun x hx => h x (List.mem_cons_of_mem l hx))]
      exact List.cons_ne_nil l2 ls2

/-- Joining an append of two nonempty line lists joins both parts
around a newline. -/
theorem joinLines_append (a b : List (List Char)) (ha : a ≠ []) (hb : b ≠ []) :
    joinLines (a ++ b) = joinLines a ++ '\n' :: joinLines b := by
  induction a with
  | nil => exact absurd rfl ha
  | cons l rest ih =>
    cases rest with
    | nil =>
      cases b with
      | nil => exact absurd rfl hb
      | cons b1 bs =>
        rw [List.cons_append, List.nil_append, joinLines, joinLines]
        exact List.cons_ne_nil b1 bs
    | cons l2 ls2 =>
      have h1 : joinLines ((l :: l2 :: ls2) ++ b)
          = l ++ '\n' :: joinLines ((l2 :: ls2) ++ b) := by
        show joinLines (l :: (l2 :: (ls2 ++ b))) = _
        rfl
      have h2 : joinLines (l :: l2 :: ls2) = l ++ '\n' :: joinLines (l2 :: ls2) := rfl
      rw [h1, ih (List.cons_ne_nil l2 ls2), h2, List.append_assoc]
      rfl

/-- Scan of a line break followed by three dashes: true when every
newline of the string is followed by a character other than a dash. -/
def nlGuard : List Char → Bool
  | [] => true
  | c :: r =>
    (if c = '\n' then
       (match r with
        | c2 :: _ => decide (c2 ≠ '-')
        | [] => false)
     else true)
    && nlGuard r

/-- The first dashed-delimiter occurrence after a guarded prefix is
right after the prefix. -/
theorem splitFirst_nl :
    ∀ (pre rest : List Char), nlGuard pre = true →
      splitFirst ['\n', '-', '-', '-'] (pre ++ '\n' :: '-' :: '-' :: '-' :: rest)
        = some (pre, rest) := by
  intro pre
  induction pre with
  | nil =>
    intro rest _
    rw [List.nil_append, splitFirst,
      if_pos (by simp [List.isPrefixOf_cons₂] : (['\n', '-', '-', '-'] : List Char).isPrefixOf
        ('\n' :: '-' :: '-' :: '-' :: rest) = true)]
    rfl
  | cons c cs ih =>
    intro rest hg
    by_cases hc : c = '\n'
    · subst hc
      cases cs with
      | nil => exact absurd hg (by decide)
      | cons c2 r2 =>
        have hg3 : (decide (c2 ≠ '-') && nlGuard (c2 :: r2)) = true := hg
        rw [Bool.and_eq_true] at hg3
        have hc2 : c2 ≠ '-' := of_decide_eq_true hg3.1
        have hnp : (['\n', '-', '-', '-'] : List Char).isPrefixOf
            ('\n' :: ((c2 :: r2) ++ '\n' :: '-' :: '-' :: '-' :: rest)) = false := by
          rw [List.isPrefixOf_cons₂, List.cons_append, List.isPrefixOf_cons₂]
          have hb2 : (('-' : Char) == c2) = false := by
            cases hb : ('-' : Char) == c2 with
            | true => exact absurd (eq_of_beq hb).symm hc2
            | false => rfl
          rw [hb2]
          simp
        rw [List.cons_append, splitFirst, if_neg (by rw [hnp]; exact Bool.false_ne_true),
          ih rest hg3.2]
        rfl
    · have hg2 : nlGuard cs = true := by
        cases cs with
        | nil => rfl
        | cons c2 r2 =>
          have hstep : nlGuard (c :: c2 :: r2)
              = ((if c = '\n' then decide (c2 ≠ '-') else true) && nlGuard (c2 :: r2)) := rfl
          rw [hstep, if_neg hc, Bool.true_and] at hg
          exact hg
      have hnp : (['\n', '-', '-', '-'] : List Char).isPrefixOf
          (c :: (cs ++ '\n' :: '-' :: '-' :: '-' :: rest)) = false := by
        rw [List.isPrefixOf_cons₂]
        have hb : (('\n' : Char) == c) = false := by
          cases hb1 : ('\n' : Char) == c with
          | true => exact absurd (eq_of_beq hb1).symm hc
          | false => rfl
        rw [hb]
        rfl
      rw [List.cons_append, splitFirst, if_neg (by rw [hnp]; exact Bool.false_ne_true),
        ih rest hg2]
      rfl

/-- A head-gated attempt scans unmoved across a prefix without the
head character. -/
theorem scanFirst_skip_head {α : Type} (attempt : List Char → Option α) (c0 : Char)
    (hgate : ∀ t, ¬ t.head? = some c0 → attempt t = none) :
    ∀ (pre rest : List Char), c0 ∉ pre →
      scanFirst attempt (pre ++ rest) = scanFirst attempt rest := by
  intro pre
  induction pre with
  | nil => intro rest _; rfl
  | cons p ps ih =>
    intro rest hmem
    have hatt : attempt (p :: (ps ++ rest)) = none := by
      apply hgate
      intro hh
      have hp : p = c0 := by simpa using hh
      exact hmem (by simp [hp])
    rw [List.cons_append, scanFirst, hatt]
    exact ih rest (fun hm => hmem (List.mem_cons_of_mem p hm))

/-- A key cannot be a prefix of a string with a different head. -/
theorem isPrefixOf_false_of_head (key t : List Char) (c0 : Char) (hk : key.head? = some c0)
    (ht : ¬ t.head? = some c0) : key.isPrefixOf t = false := by
  cases key with
  | nil => cases hk
  | cons k ks =>
    have hkc : k = c0 := by simpa using hk
    subst hkc
    cases t with
    | nil => rfl
    | cons a as =>
      have ha : (k == a) = false := by
        cases hb : k == a with
        | true =>
          exact absurd (by rw [← eq_of_beq hb]; rfl) ht
        | false => rfl
      rw [List.isPrefixOf_cons₂, ha]
      rfl

/-- The key-date attempt fails on a subject with a different head. -/
theorem keyDateAttempt_gate (key t : List Char) (c0 : Char) (hk : key.head? = some c0)
    (ht : ¬ t.head? = some c0) : keyDateAttempt key t = none := by
  unfold keyDateAttempt
  rw [if_neg (by rw [isPrefixOf_false_of_head key t c0 hk ht]; exact Bool.false_ne_true)]

/-- Characters annotation values are built from: digits, the dash, the
colon and letters. -/
def annValueClass (c : Char) : Bool := c.isDigit || c = '-' || c = ':' || c.isAlpha

/-- Membership via the boolean containment. -/
theorem contains_of_mem {c : Char} {l : List Char} (h : c ∈ l) : l.contains c = true :=
  List.elem_eq_true_of_mem h

/-- Annotation-value characters are not whitespace, not line
terminators and not markers. -/
theorem annValueClass_props {c : Char} (h : annValueClass c = true) :
    isJsWs c = false ∧ isDotChar c = true ∧ markerChars.contains c = false := by
  refine ⟨?_, ?_, ?_⟩
  · cases hw : isJsWs c with
    | false => rfl
    | true =>
      exfalso
      simp [isJsWs, jsWsChars] at hw
      rcases hw with rfl | rfl | rfl | rfl | rfl | rfl | rfl <;> exact absurd h (by decide)
  · unfold isDotChar
    cases hl : isLineTerm c with
    | false => rfl
    | true =>
      exfalso
      simp [isLineTerm] at hl
      rcases hl with ((rfl | rfl) | rfl) | rfl <;> exact absurd h (by decide)
  · cases hm : markerChars.contains c with
    | false => rfl
    | true =>
      exfalso
      simp [markerChars] at hm
      rcases hm with rfl | rfl | rfl | rfl | rfl <;> exact absurd h (by decide)

/-- Shaped dates use only annotation-value characters. -/
theorem dateShaped_class {v : String} (h : dateShaped v = true) :
    v.data.all annValueClass = true := by
  unfold dateShaped at h
  split at h
  · rename_i a b c d e f g g2 heq
    rw [heq]
    simp only [Bool.and_eq_true] at h
    obtain ⟨⟨⟨⟨⟨⟨⟨h1, h2⟩, h3⟩, h4⟩, h5⟩, h6⟩, h7⟩, h8⟩ := h
    simp [List.all_cons, annValueClass, *]
  · cases h

/-- Shaped times use only annotation-value characters. -/
theorem timeShaped_class {v : String} (h : timeShaped v = true) :
    v.data.all annValueClass = true := by
  unfold timeShaped at h
  split at h
  · rename_i a b c d heq
    rw [heq]
    simp only [Bool.and_eq_true] at h
    obtain ⟨⟨⟨h1, h2⟩, h3⟩, h4⟩ := h
    simp [List.all_cons, annValueClass, *]
  · rename_i a c d heq
    rw [heq]
    simp only [Bool.and_eq_true] at h
    obtain ⟨⟨h1, h3⟩, h4⟩ := h
    simp [List.all_cons, annValueClass, *]
  · cases h

/-- Digits are annotation-value characters. -/
theorem class_of_digit {s : List Char} (h : s.all Char.isDigit = true) :
    s.all annValueClass = true := by
  rw [List.all_eq_true] at h ⊢
  intro c hc
  unfold annValueClass
  rw [h c hc]
  rfl

/-- Rendered numbers use only annotation-value characters. -/
theorem natDigits_class (n : Nat) : (natDigits n).all annValueClass = true :=
  class_of_digit (natDigits_all_digit n)

/-- Recurrence type words use only annotation-value characters. -/
theorem recTypeStr_class (ty : RecurrenceType) : (recTypeStr ty).all annValueClass = true := by
  cases ty <;> decide

/-- The last character of an all-digit string is a digit. -/
theorem last_digit_of_all {s : List Char} (hall : s.all Char.isDigit = true) {c : Char}
    (h : s.getLast? = some c) : c.isDigit = true :=
  List.all_eq_true.mp hall c (getLast?_mem h)

/-- Dropping the head keeps the last element of a nonempty tail. -/
theorem getLast?_cons_of_ne_nil {α : Type} (a : α) {l : List α} (h : l ≠ []) :
    (a :: l).getLast? = l.getLast? := by
  cases l with
  | nil => exact absurd rfl h
  | cons x xs => exact List.getLast?_cons_cons

/-- Where the last element of an append comes from. -/
theorem last_append_choice {α : Type} (a b : List α) :
    (a ++ b).getLast? = b.getLast? ∨ (b = [] ∧ (a ++ b).getLast? = a.getLast?) := by
  cases hb : b with
  | nil =>
    right
    refine ⟨rfl, ?_⟩
    simp
  | cons x xs =>
    left
    rw [← hb]
    exact List.getLast?_append_of_ne_nil a (by simp [hb])

/-- Ending outside whitespace is preserved by appending. -/
theorem ends_nonws_append {a b : List Char}
    (ha : ∀ c, a.getLast? = some c → isJsWs c = false)
    (hb : ∀ c, b.getLast? = some c → isJsWs c = false) :
    ∀ c, (a ++ b).getLast? = some c → isJsWs c = false := by
  intro c hc
  rcases last_append_choice a b with h | ⟨hbe, h⟩
  · exact hb c (h ▸ hc)
  · exact ha c (h ▸ hc)

/-- A trimmed nonempty string ends outside whitespace. -/
theorem trimShaped_last {s : List Char} (h : trimShaped s = true) :
    ∀ c, s.getLast? = some c → isJsWs c = false := by
  intro c hc
  unfold trimShaped at h
  rw [Bool.and_eq_true, Bool.and_eq_true] at h
  have h3 := h.2
  rw [List.getLastD_eq_getLast?, hc] at h3
  simpa using h3

/-- A trimmed nonempty string starts outside whitespace. -/
theorem trimShaped_head {s : List Char} (h : trimShaped s = true) :
    ∀ c, s.head? = some c → isJsWs c = false := by
  intro c hc
  unfold trimShaped at h
  rw [Bool.and_eq_true, Bool.and_eq_true] at h
  have h2 := h.1.2
  cases s with
  | nil => cases hc
  | cons x xs =>
    have hx : x = c := by simpa using hc
    subst hx
    simpa [List.headD] using h2

/-- Where a character of a marker annotation can come from. -/
theorem mem_annOf {m : Char} {ov : Option String} {c : Char} (hc : c ∈ annOf m ov) :
    c = ' ' ∨ c = m ∨ ∃ v, ov = some v ∧ c ∈ v.data := by
  cases ov with
  | none => cases hc
  | some v =>
    simp only [annOf, List.mem_cons] at hc
    rcases hc with rfl | rfl | rfl | hcv
    · exact Or.inl rfl
    · exact Or.inr (Or.inl rfl)
    · exact Or.inl rfl
    · exact Or.inr (Or.inr ⟨v, rfl, hcv⟩)

/-- Where a character of the recurrence annotation can come from. -/
theorem mem_recAnnOf {orec : Option Recurrence} {c : Char} (hc : c ∈ recAnnOf orec) :
    c = ' ' ∨ c = '🔁' ∨ c = ':' ∨ annValueClass c = true := by
  cases orec with
  | none => cases hc
  | some r =>
    rcases r with ⟨ty, itv, dow, dom⟩
    have hW := List.all_eq_true.mp (recTypeStr_class ty)
    have hD := List.all_eq_true.mp (natDigits_class itv)
    have hcore : ∀ x : Char,
        x ∈ (' ' :: '🔁' :: ' ' :: (recTypeStr ty ++ ':' :: natDigits itv)) →
        x = ' ' ∨ x = '🔁' ∨ x = ':' ∨ annValueClass x = true := by
      intro x hx
      rcases List.mem_cons.mp hx with rfl | hx1
      · exact Or.inl rfl
      rcases List.mem_cons.mp hx1 with rfl | hx2
      · exact Or.inr (Or.inl rfl)
      rcases List.mem_cons.mp hx2 with rfl | hx3
      · exact Or.inl rfl
      rcases List.mem_append.mp hx3 with hw | hd
      · exact Or.inr (Or.inr (Or.inr (hW x hw)))
      rcases List.mem_cons.mp hd with rfl | hdd
      · exact Or.inr (Or.inr (Or.inl rfl))
      · exact Or.inr (Or.inr (Or.inr (hD x hdd)))
    have haux : ∀ (k : Nat) (x : Char), x ∈ (':' :: natDigits k) →
        x = ' ' ∨ x = '🔁' ∨ x = ':' ∨ annValueClass x = true := by
      intro k x hx
      rcases List.mem_cons.mp hx with rfl | hdd
      · exact Or.inr (Or.inr (Or.inl rfl))
      · exact Or.inr (Or.inr (Or.inr (List.all_eq_true.mp (natDigits_class k) x hdd)))
    cases ty with
    | days =>
      have he : recAnnOf (some ⟨RecurrenceType.days, itv, dow, dom⟩)
          = (' ' :: '🔁' :: ' ' ::
              (recTypeStr RecurrenceType.days ++ ':' :: natDigits itv)) ++ [] ++ [] := rfl
      rw [List.append_nil, List.append_nil] at he
      rw [he] at hc
      exact hcore c hc
    | weeks =>
      cases dow with
      | none =>
        have he : recAnnOf (some ⟨RecurrenceType.weeks, itv, none, dom⟩)
            = (' ' :: '🔁' :: ' ' ::
                (recTypeStr RecurrenceType.weeks ++ ':' :: natDigits itv)) ++ [] ++ [] := rfl
        rw [List.append_nil, List.append_nil] at he
        rw [he] at hc
        exact hcore c hc
      | some k =>
        have he : recAnnOf (some ⟨RecurrenceType.weeks, itv, some k, dom⟩)
            = (' ' :: '🔁' :: ' ' ::
                (recTypeStr RecurrenceType.weeks ++ ':' :: natDigits itv))
              ++ (':' :: natDigits k) ++ [] := rfl
        rw [List.append_nil] at he
        rw [he] at hc
        rcases List.mem_append.mp hc with h1 | h2
        · exact hcore c h1
        · exact haux k c h2
    | months =>
      cases dom with
      | none =>
        have he : recAnnOf (some ⟨RecurrenceType.months, itv, dow, none⟩)
            = (' ' :: '🔁' :: ' ' ::
                (recTypeStr RecurrenceType.months ++ ':' :: natDigits itv)) ++ [] ++ [] := rfl
        rw [List.append_nil, List.append_nil] at he
        rw [he] at hc
        exact hcore c hc
      | some k =>
        have he : recAnnOf (some ⟨RecurrenceType.months, itv, dow, some k⟩)
            = (' ' :: '🔁' :: ' ' ::
                (recTypeStr RecurrenceType.months ++ ':' :: natDigits itv))
              ++ [] ++ (':' :: natDigits k) := rfl
        rw [List.append_nil] at he
        rw [he] at hc
        rcases List.mem_append.mp hc with h1 | h2
        · exact hcore c h1
        · exact haux k c h2

/-- A different marker never occurs in a marker annotation with a
class-shaped value. -/
theorem marker_not_mem_annOf {m m2 : Char} {ov : Option String}
    (hval : ∀ v, ov = some v → v.data.all annValueClass = true)
    (hm2 : m2 ∈ markerChars) (hne : m2 ≠ m) : m2 ∉ annOf m ov := by
  intro hmem
  rcases mem_annOf hmem with h1 | h2 | ⟨v, hv, hcv⟩
  · subst h1
    revert hm2
    decide
  · exact hne h2
  · have hclass := List.all_eq_true.mp (hval v hv) m2 hcv
    have hprops := (annValueClass_props hclass).2.2
    rw [contains_of_mem hm2] at hprops
    cases hprops

/-- No marker other than the repeat marker occurs in the recurrence
annotation. -/
theorem marker_not_mem_recAnnOf {m2 : Char} {orec : Option Recurrence}
    (hm2 : m2 ∈ markerChars) (hne : m2 ≠ '🔁') : m2 ∉ recAnnOf orec := by
  intro hmem
  rcases mem_recAnnOf hmem with h1 | h2 | h3 | h4
  · subst h1
    revert hm2
    decide
  · exact hne h2
  · subst h3
    revert hm2
    decide
  · have hprops := (annValueClass_props h4).2.2
    rw [contains_of_mem hm2] at hprops
    cases hprops

/-- No marker occurs in a shaped url value. -/
theorem marker_not_mem_url {m2 : Char} {v : String} (hu : urlShaped v = true)
    (hm2 : m2 ∈ markerChars) : m2 ∉ v.data := by
  intro hmem
  unfold urlShaped at hu
  rw [Bool.and_eq_true] at hu
  have hv := List.all_eq_true.mp hu.2 m2 hmem
  rw [Bool.and_eq_true] at hv
  have hcont := hv.2
  rw [contains_of_mem hm2] at hcont
  cases hcont

/-- A marker annotation with a nonempty class-shaped value ends
outside whitespace. -/
theorem ends_nonws_annOf {m : Char} {ov : Option String}
    (hval : ∀ v, ov = some v → v.data ≠ [] ∧ v.data.all annValueClass = true) :
    ∀ c, (annOf m ov).getLast? = some c → isJsWs c = false := by
  cases ov with
  | none => intro c hc; cases hc
  | some v =>
    intro c hc
    obtain ⟨hne, hclass⟩ := hval v rfl
    rw [annOf, getLast?_cons_of_ne_nil _ (by simp), getLast?_cons_of_ne_nil _ (by simp),
      getLast?_cons_of_ne_nil _ hne] at hc
    exact (annValueClass_props (List.all_eq_true.mp hclass c (getLast?_mem hc))).1

/-- The recurrence annotation ends in a digit, never in whitespace. -/
theorem ends_nonws_recAnnOf {orec : Option Recurrence} :
    ∀ c, (recAnnOf orec).getLast? = some c → isJsWs c = false := by
  cases orec with
  | none => intro c hc; cases hc
  | some r =>
    intro c hc
    rcases r with ⟨ty, itv, dow, dom⟩
    have hcore : ∀ x : Char,
        (' ' :: '🔁' :: ' ' :: (recTypeStr ty ++ ':' :: natDigits itv)).getLast? = some x →
        isJsWs x = false := by
      intro x hx
      rw [getLast?_cons_of_ne_nil _ (by simp), getLast?_cons_of_ne_nil _ (by simp),
        getLast?_cons_of_ne_nil _ (by simp),
        (last_append_choice (recTypeStr ty) (':' :: natDigits itv)).resolve_right
          (by simp),
        getLast?_cons_of_ne_nil _ (natDigits_ne_nil itv)] at hx
      have hd := last_digit_of_all (natDigits_all_digit itv) hx
      exact (annValueClass_props (by unfold annValueClass; rw [hd]; rfl)).1
    have haux : ∀ (k : Nat) (x : Char), (':' :: natDigits k).getLast? = some x →
        isJsWs x = false := by
      intro k x hx
      rw [getLast?_cons_of_ne_nil _ (natDigits_ne_nil k)] at hx
      have hd := last_digit_of_all (natDigits_all_digit k) hx
      exact (annValueClass_props (by unfold annValueClass; rw [hd]; rfl)).1
    cases ty with
    | days =>
      have he : recAnnOf (some ⟨RecurrenceType.days, itv, dow, dom⟩)
          = (' ' :: '🔁' :: ' ' ::
              (recTypeStr RecurrenceType.days ++ ':' :: natDigits itv)) ++ [] ++ [] := rfl
      rw [List.append_nil, List.append_nil] at he
      rw [he] at hc
      exact hcore c hc
    | weeks =>
      cases dow with
      | none =>
        have he : recAnnOf (some ⟨RecurrenceType.weeks, itv, none, dom⟩)
            = (' ' :: '🔁' :: ' ' ::
                (recTypeStr RecurrenceType.weeks ++ ':' :: natDigits itv)) ++ [] ++ [] := rfl
        rw [List.append_nil, List.append_nil] at he
        rw [he] at hc
        exact hcore c hc
      | some k =>
        have he : recAnnOf (some ⟨RecurrenceType.weeks, itv, some k, dom⟩)
            = (' ' :: '🔁' :: ' ' ::
                (recTypeStr RecurrenceType.weeks ++ ':' :: natDigits itv))
              ++ (':' :: natDigits k) ++ [] := rfl
        rw [List.append_nil] at he
        rw [he, List.getLast?_append_of_ne_nil _ (by simp)] at hc
        exact haux k c hc
    | months =>
      cases dom with
      | none =>
        have he : recAnnOf (some ⟨RecurrenceType.months, itv, dow, none⟩)
            = (' ' :: '🔁' :: ' ' ::
                (recTypeStr RecurrenceType.months ++ ':' :: natDigits itv)) ++ [] ++ [] := rfl
      
        rw [List.append_nil, List.append_nil] at he
        rw [he] at hc
        exact hcore c hc
      | some k =>
        have he : recAnnOf (some ⟨RecurrenceType.months, itv, dow, some k⟩)
            = (' ' :: '🔁' :: ' ' ::
                (recTypeStr RecurrenceType.months ++ ':' :: natDigits itv))
              ++ [] ++ (':' :: natDigits k) := rfl
        rw [List.append_nil] at he
        rw [he, List.getLast?_append_of_ne_nil _ (by simp)] at hc
        exact haux k c hc

/-- Whitespace membership of a digit. -/
theorem ws_of_digit {c : Char} (h : c.isDigit = true) : isJsWs c = false :=
  (annValueClass_props (by unfold annValueClass; rw [h]; rfl)).1

/-- A successful date attempt on a serialized date annotation. -/
theorem dateAttempt_succ (marker : Char) (hm : isJsWs marker = false) {v : String}
    (hv : dateShaped v = true) :
    dateAttempt marker (' ' :: marker :: ' ' :: v.data)
      = some (' ' :: marker :: ' ' :: v.data, v.data) := by
  unfold dateShaped at hv
  split at hv
  · rename_i a b c d e f g h heq
    simp only [Bool.and_eq_true] at hv
    obtain ⟨⟨⟨⟨⟨⟨⟨h1, h2⟩, h3⟩, h4⟩, h5⟩, h6⟩, h7⟩, h8⟩ := hv
    have ha : isJsWs a = false := ws_of_digit h1
    rw [heq]
    unfold dateAttempt
    rw [List.takeWhile_cons_of_pos (show isJsWs ' ' = true from rfl),
      takeWhile_cons_neg _ hm,
      List.dropWhile_cons_of_pos (show isJsWs ' ' = true from rfl),
      dropWhile_cons_neg _ hm]
    show (if (marker == marker) = true then _ else none) = _
    rw [beq_self_eq_true]
    rw [List.takeWhile_cons_of_pos (show isJsWs ' ' = true from rfl),
      takeWhile_cons_neg _ ha,
      List.dropWhile_cons_of_pos (show isJsWs ' ' = true from rfl),
      dropWhile_cons_neg _ ha]
    simp only [h1, h2, h3, h4, h5, h6, h7, h8, List.all_nil, Bool.and_true, Bool.and_self,
      if_true]
    rfl
  · cases hv

/-- A successful time attempt on a serialized time annotation. -/
theorem timeAttempt_succ {v : String} (hv : timeShaped v = true) :
    timeAttempt (' ' :: '⏰' :: ' ' :: v.data)
      = some (' ' :: '⏰' :: ' ' :: v.data, v.data) := by
  unfold timeShaped at hv
  split at hv
  · rename_i a b c d heq
    simp only [Bool.and_eq_true] at hv
    obtain ⟨⟨⟨h1, h2⟩, h3⟩, h4⟩ := hv
    have ha : isJsWs a = false := ws_of_digit h1
    rw [heq]
    unfold timeAttempt
    rw [List.dropWhile_cons_of_pos (show isJsWs ' ' = true from rfl),
      dropWhile_cons_neg _ (show isJsWs '⏰' = false from rfl)]
    show (if ('⏰' : Char) = '⏰' then _ else none) = _
    rw [if_pos rfl]
    rw [List.takeWhile_cons_of_pos (show isJsWs ' ' = true from rfl),
      takeWhile_cons_neg _ ha,
      List.dropWhile_cons_of_pos (show isJsWs ' ' = true from rfl),
      dropWhile_cons_neg _ ha]
    have htwo : timeTwo [a, b, ':', c, d] = some ([a, b, ':', c, d], []) := by
      unfold timeTwo
      simp [h1, h2, h3, h4]
    simp only [htwo]
    rfl
  · rename_i a c d heq
    simp only [Bool.and_eq_true] at hv
    obtain ⟨⟨h1, h3⟩, h4⟩ := hv
    have ha : isJsWs a = false := ws_of_digit h1
    rw [heq]
    unfold timeAttempt
    rw [List.dropWhile_cons_of_pos (show isJsWs ' ' = true from rfl),
      dropWhile_cons_neg _ (show isJsWs '⏰' = false from rfl)]
    show (if ('⏰' : Char) = '⏰' then _ else none) = _
    rw [if_pos rfl]
    rw [List.takeWhile_cons_of_pos (show isJsWs ' ' = true from rfl),
      takeWhile_cons_neg _ ha,
      List.dropWhile_cons_of_pos (show isJsWs ' ' = true from rfl),
      dropWhile_cons_neg _ ha]
    have hcne : (':' : Char) ≠ c := by
      intro hcc
      rw [← hcc] at h3
      cases h3
    have htwo : timeTwo [a, ':', c, d] = none := by
      unfold timeTwo
      split
      · rename_i a2 b2 c2 d2 r5 heq2
        exfalso
        have : (':' : Char) = c := by
          have h5 := congrArg (fun l => l.get? 2) heq2
          simpa using h5.symm
        exact hcne this
      · rfl
    have hone : timeOne [a, ':', c, d] = some ([a, ':', c, d], []) := by
      unfold timeOne
      simp [h1, h3, h4]
    simp only [htwo, hone, Option.orElse]
    rfl
  · cases hv

/-- A nonempty list is not boolean-empty. -/
theorem isEmpty_false_of_ne_nil {l : List Char} (h : l ≠ []) : l.isEmpty = false := by
  cases l with
  | nil => exact absurd rfl h
  | cons x xs => rfl

/-- Digits of a number survive a digit take. -/
theorem takeWhile_digits_self (n : Nat) :
    (natDigits n).takeWhile Char.isDigit = natDigits n := by
  have h := takeWhile_append_all (natDigits n) [] (natDigits_all_digit n)
  simpa using h

/-- The serialized recurrence annotation after the repeat marker and
its space. -/
def recTailOf (r : Recurrence) : List Char :=
  (recTypeStr r.type ++ ':' :: natDigits r.interval)
  ++ (if r.type = RecurrenceType.weeks then
        (match r.dayOfWeek with
         | some k => ':' :: natDigits k
         | none => [])
      else [])
  ++ (if r.type = RecurrenceType.months then
        (match r.dayOfMonth with
         | some k => ':' :: natDigits k
         | none => [])
      else [])

/-- The digits of the auxiliary day field the encoder writes. -/
def recAuxDigits (r : Recurrence) : Option (List Char) :=
  if r.type = RecurrenceType.weeks then r.dayOfWeek.map natDigits
  else if r.type = RecurrenceType.months then r.dayOfMonth.map natDigits
  else none

/-- A successful recurrence attempt on a serialized recurrence
annotation. -/
theorem recAttempt_succ (r : Recurrence) (hsh : recShaped r = true) :
    recAttempt (' ' :: '🔁' :: ' ' :: recTailOf r)
      = some (' ' :: '🔁' :: ' ' :: recTailOf r,
              r.type, natDigits r.interval, recAuxDigits r) := by
  rcases r with ⟨ty, itv, dow, dom⟩
  have hd1 := takeWhile_digits_self itv
  have he1 := isEmpty_false_of_ne_nil (natDigits_ne_nil itv)
  cases ty with
  | days =>
    unfold recShaped at hsh
    rw [Bool.and_eq_true] at hsh
    obtain ⟨hw, hm⟩ := hsh
    have hwn : dow = none := Option.isNone_iff_eq_none.mp hw
    have hmn : dom = none := Option.isNone_iff_eq_none.mp hm
    subst hwn hmn
    have he : recTailOf ⟨RecurrenceType.days, itv, none, none⟩
        = "days".data ++ ':' :: natDigits itv := by
      show (("days".data ++ ':' :: natDigits itv) ++ []) ++ [] = _
      rw [List.append_nil, List.append_nil]
    rw [he]
    unfold recAttempt
    rw [List.dropWhile_cons_of_pos (show isJsWs ' ' = true from rfl),
      dropWhile_cons_neg _ (show isJsWs '🔁' = false from rfl)]
    show (if ('🔁' : Char) = '🔁' then _ else none) = _
    rw [if_pos rfl]
    have hr3 : List.dropWhile isJsWs (' ' :: ("days".data ++ ':' :: natDigits itv))
        = "days".data ++ ':' :: natDigits itv := rfl
    have hw2 : List.takeWhile isJsWs (' ' :: ("days".data ++ ':' :: natDigits itv)) = [' '] := rfl
    have hth : recTypeHead ("days".data ++ ':' :: natDigits itv)
        = some (RecurrenceType.days, 4) := rfl
    have hdrop : List.drop 4 ("days".data ++ ':' :: natDigits itv) = ':' :: natDigits itv := rfl
    have htake : List.take 4 ("days".data ++ ':' :: natDigits itv) = "days".data := rfl
    simp only [hr3, hw2, hth, hdrop, htake, hd1, List.drop_length, he1]
    simp [recAuxDigits]
    rfl
  | weeks =>
    unfold recShaped at hsh
    have hmn : dom = none := Option.isNone_iff_eq_none.mp hsh
    subst hmn
    cases dow with
    | none =>
      have he : recTailOf ⟨RecurrenceType.weeks, itv, none, none⟩
          = "weeks".data ++ ':' :: natDigits itv := by
        show (("weeks".data ++ ':' :: natDigits itv) ++ []) ++ [] = _
        rw [List.append_nil, List.append_nil]
      rw [he]
      unfold recAttempt
      rw [List.dropWhile_cons_of_pos (show isJsWs ' ' = true from rfl),
        dropWhile_cons_neg _ (show isJsWs '🔁' = false from rfl)]
      show (if ('🔁' : Char) = '🔁' then _ else none) = _
      rw [if_pos rfl]
      have hr3 : List.dropWhile isJsWs (' ' :: ("weeks".data ++ ':' :: natDigits itv))
          = "weeks".data ++ ':' :: natDigits itv := rfl
      have hw2 : List.takeWhile isJsWs (' ' :: ("weeks".data ++ ':' :: natDigits itv))
          = [' '] := rfl
      have hth : recTypeHead ("weeks".data ++ ':' :: natDigits itv)
          = some (RecurrenceType.weeks, 5) := rfl
      have hdrop : List.drop 5 ("weeks".data ++ ':' :: natDigits itv)
          = ':' :: natDigits itv := rfl
      have htake : List.take 5 ("weeks".data ++ ':' :: natDigits itv) = "weeks".data := rfl
      simp only [hr3, hw2, hth, hdrop, htake, hd1, List.drop_length, he1]
      simp [recAuxDigits]
      rfl
    | some k =>
      have hd2 := takeWhile_digits_self k
      have he2 := isEmpty_false_of_ne_nil (natDigits_ne_nil k)
      have hds1 : List.takeWhile Char.isDigit (natDigits itv ++ ':' :: natDigits k)
          = natDigits itv := by
        rw [takeWhile_append_all _ _ (natDigits_all_digit itv),
          takeWhile_cons_neg _ (show Char.isDigit ':' = false from rfl), List.append_nil]
      have he : recTailOf ⟨RecurrenceType.weeks, itv, some k, none⟩
          = ("weeks".data ++ ':' :: natDigits itv) ++ ':' :: natDigits k := by
        show (("weeks".data ++ ':' :: natDigits itv) ++ (':' :: natDigits k)) ++ [] = _
        rw [List.append_nil]
      rw [he]
      unfold recAttempt
      rw [List.dropWhile_cons_of_pos (show isJsWs ' ' = true from rfl),
        dropWhile_cons_neg _ (show isJsWs '🔁' = false from rfl)]
      show (if ('🔁' : Char) = '🔁' then _ else none) = _
      rw [if_pos rfl]
      have hr3 : List.dropWhile isJsWs
          (' ' :: (("weeks".data ++ ':' :: natDigits itv) ++ ':' :: natDigits k))
          = ("weeks".data ++ ':' :: natDigits itv) ++ ':' :: natDigits k := rfl
      have hw2 : List.takeWhile isJsWs
          (' ' :: (("weeks".data ++ ':' :: natDigits itv) ++ ':' :: natDigits k))
          = [' '] := rfl
      have hth : recTypeHead (("weeks".data ++ ':' :: natDigits itv) ++ ':' :: natDigits k)
          = some (RecurrenceType.weeks, 5) := rfl
      have hdrop : List.drop 5 (("weeks".data ++ ':' :: natDigits itv) ++ ':' :: natDigits k)
          = ':' :: (natDigits itv ++ ':' :: natDigits k) := rfl
      have htake : List.take 5 (("weeks".data ++ ':' :: natDigits itv) ++ ':' :: natDigits k)
          = "weeks".data := rfl
      have hr5 : List.drop (natDigits itv).length (natDigits itv ++ ':' :: natDigits k)
          = ':' :: natDigits k := List.drop_left _ _
      simp only [hr3, hw2, hth, hdrop, htake, hds1, he1, hr5, hd2, he2, List.drop_length]
      simp [recAuxDigits]
      rfl
  | months =>
    unfold recShaped at hsh
    have hwn : dow = none := Option.isNone_iff_eq_none.mp hsh
    subst hwn
    cases dom with
    | none =>
      have he : recTailOf ⟨RecurrenceType.months, itv, none, none⟩
          = "months".data ++ ':' :: natDigits itv := by
        show (("months".data ++ ':' :: natDigits itv) ++ []) ++ [] = _
        rw [List.append_nil, List.append_nil]
      rw [he]
      unfold recAttempt
      rw [List.dropWhile_cons_of_pos (show isJsWs ' ' = true from rfl),
        dropWhile_cons_neg _ (show isJsWs '🔁' = false from rfl)]
      show (if ('🔁' : Char) = '🔁' then _ else none) = _
      rw [if_pos rfl]
      have hr3 : List.dropWhile isJsWs (' ' :: ("months".data ++ ':' :: natDigits itv))
          = "months".data ++ ':' :: natDigits itv := rfl
      have hw2 : List.takeWhile isJsWs (' ' :: ("months".data ++ ':' :: natDigits itv))
          = [' '] := rfl
      have hth : recTypeHead ("months".data ++ ':' :: natDigits itv)
          = some (RecurrenceType.months, 6) := rfl
      have hdrop : List.drop 6 ("months".data ++ ':' :: natDigits itv)
          = ':' :: natDigits itv := rfl
      have htake : List.take 6 ("months".data ++ ':' :: natDigits itv) = "months".data := rfl
      simp only [hr3, hw2, hth, hdrop, htake, hd1, List.drop_length, he1]
      simp [recAuxDigits]
      rfl
    | some k =>
      have hd2 := takeWhile_digits_self k
      have he2 := isEmpty_false_of_ne_nil (natDigits_ne_nil k)
      have hds1 : List.takeWhile Char.isDigit (natDigits itv ++ ':' :: natDigits k)
          = natDigits itv := by
        rw [takeWhile_append_all _ _ (natDigits_all_digit itv),
          takeWhile_cons_neg _ (show Char.isDigit ':' = false from rfl), List.append_nil]
      have he : recTailOf ⟨RecurrenceType.months, itv, none, some k⟩
          = ("months".data ++ ':' :: natDigits itv) ++ ':' :: natDigits k := by
        show (("months".data ++ ':' :: natDigits itv) ++ []) ++ (':' :: natDigits k) = _
        rw [List.append_nil]
      rw [he]
      unfold recAttempt
      rw [List.dropWhile_cons_of_pos (show isJsWs ' ' = true from rfl),
        dropWhile_cons_neg _ (show isJsWs '🔁' = false from rfl)]
      show (if ('🔁' : Char) = '🔁' then _ else none) = _
      rw [if_pos rfl]
      have hr3 : List.dropWhile isJsWs
          (' ' :: (("months".data ++ ':' :: natDigits itv) ++ ':' :: natDigits k))
          = ("months".data ++ ':' :: natDigits itv) ++ ':' :: natDigits k := rfl
      have hw2 : List.takeWhile isJsWs
          (' ' :: (("months".data ++ ':' :: natDigits itv) ++ ':' :: natDigits k))
          = [' '] := rfl
      have hth : recTypeHead (("months".data ++ ':' :: natDigits itv) ++ ':' :: natDigits k)
          = some (RecurrenceType.months, 6) := rfl
      have hdrop : List.drop 6 (("months".data ++ ':' :: natDigits itv) ++ ':' :: natDigits k)
          = ':' :: (natDigits itv ++ ':' :: natDigits k) := rfl
      have htake : List.take 6 (("months".data ++ ':' :: natDigits itv) ++ ':' :: natDigits k)
          = "months".data := rfl
      have hr5 : List.drop (natDigits itv).length (natDigits itv ++ ':' :: natDigits k)
          = ':' :: natDigits k := List.drop_left _ _
      simp only [hr3, hw2, hth, hdrop, htake, hds1, he1, hr5, hd2, he2, List.drop_length]
      simp [recAuxDigits]
      rfl

/-- A successful url attempt on a serialized https url. -/
theorem urlAttempt_succ_8 (body : List Char) (hne : body ≠ [])
    (hnws : body.all (fun c => !isJsWs c) = true) :
    urlAttempt (' ' :: '🔗' :: ' ' :: ("https://".data ++ body))
      = some (' ' :: '🔗' :: ' ' :: ("https://".data ++ body), "https://".data ++ body) := by
  have h1 : body.takeWhile (fun c => !isJsWs c) = body := by
    have h2 := takeWhile_append_all body [] hnws
    simpa using h2
  have hbe : body.isEmpty = false := by
    cases body with
    | nil => exact absurd rfl hne
    | cons x xs => rfl
  change (if (List.takeWhile (fun c => !isJsWs c) body).isEmpty = true then none
    else if (List.drop (List.takeWhile (fun c => !isJsWs c) body).length body).all isJsWs
        = true then
      some (' ' :: '🔗' :: ' ' ::
          ("https://".data
            ++ (List.takeWhile (fun c => !isJsWs c) body
                ++ List.drop (List.takeWhile (fun c => !isJsWs c) body).length body)),
        "https://".data ++ List.takeWhile (fun c => !isJsWs c) body)
    else none)
    = some (' ' :: '🔗' :: ' ' :: ("https://".data ++ body), "https://".data ++ body)
  rw [h1, List.drop_length, hbe]
  simp

/-- A successful url attempt on a serialized http url. -/
theorem urlAttempt_succ_7 (body : List Char) (hne : body ≠ [])
    (hnws : body.all (fun c => !isJsWs c) = true) :
    urlAttempt (' ' :: '🔗' :: ' ' :: ("http://".data ++ body))
      = some (' ' :: '🔗' :: ' ' :: ("http://".data ++ body), "http://".data ++ body) := by
  have h1 : body.takeWhile (fun c => !isJsWs c) = body := by
    have h2 := takeWhile_append_all body [] hnws
    simpa using h2
  have hbe : body.isEmpty = false := by
    cases body with
    | nil => exact absurd rfl hne
    | cons x xs => rfl
  change (if (List.takeWhile (fun c => !isJsWs c) body).isEmpty = true then none
    else if (List.drop (List.takeWhile (fun c => !isJsWs c) body).length body).all isJsWs
        = true then
      some (' ' :: '🔗' :: ' ' ::
          ("http://".data
            ++ (List.takeWhile (fun c => !isJsWs c) body
                ++ List.drop (List.takeWhile (fun c => !isJsWs c) body).length body)),
        "http://".data ++ List.takeWhile (fun c => !isJsWs c) body)
    else none)
    = some (' ' :: '🔗' :: ' ' :: ("http://".data ++ body), "http://".data ++ body)
  rw [h1, List.drop_length, hbe]
  simp

/-- The checkbox pattern on a serialized task or habit line. -/
theorem checkboxSplit_serialized (completed : Bool) (body : List Char) (hne : body ≠ [])
    (hh : ∀ c, body.head? = some c → isJsWs c = false)
    (hdot : body.all isDotChar = true) :
    checkboxSplit ("- ".data ++ (if completed then "[x]".data else "[ ]".data) ++ ' ' :: body)
      = some ((if completed then 'x' else ' '), body) := by
  cases body with
  | nil => exact absurd rfl hne
  | cons b bs =>
    have hb : isJsWs b = false := hh b rfl
    cases completed with
    | true =>
      show checkboxSplit ('-' :: ' ' :: '[' :: 'x' :: ']' :: ' ' :: b :: bs)
        = some ('x', b :: bs)
      have hdw : List.dropWhile isJsWs (' ' :: b :: bs) = b :: bs := by
        rw [List.dropWhile_cons_of_pos (show isJsWs ' ' = true from rfl),
          dropWhile_cons_neg _ hb]
      simp only [checkboxSplit]
      have hdc : dotChunk (' ' :: b :: bs) = some (b :: bs) := by
        unfold dotChunk
        rw [hdw]
        simp [hdot]
      rw [show List.dropWhile isJsWs (' ' :: '[' :: 'x' :: ']' :: ' ' :: b :: bs)
          = '[' :: 'x' :: ']' :: ' ' :: b :: bs from rfl]
      simp [hdc]
    | false =>
      show checkboxSplit ('-' :: ' ' :: '[' :: ' ' :: ']' :: ' ' :: b :: bs)
        = some (' ', b :: bs)
      have hdw : List.dropWhile isJsWs (' ' :: b :: bs) = b :: bs := by
        rw [List.dropWhile_cons_of_pos (show isJsWs ' ' = true from rfl),
          dropWhile_cons_neg _ hb]
      simp only [checkboxSplit]
      have hdc : dotChunk (' ' :: b :: bs) = some (b :: bs) := by
        unfold dotChunk
        rw [hdw]
        simp [hdot]
      rw [show List.dropWhile isJsWs (' ' :: '[' :: ' ' :: ']' :: ' ' :: b :: bs)
          = '[' :: ' ' :: ']' :: ' ' :: b :: bs from rfl]
      simp [hdc]

/-- A successful url attempt on any shaped url annotation. -/
theorem urlAttempt_succ {v : String} (hu : urlShaped v = true) :
    urlAttempt (' ' :: '🔗' :: ' ' :: v.data)
      = some (' ' :: '🔗' :: ' ' :: v.data, v.data) := by
  unfold urlShaped at hu
  rw [Bool.and_eq_true] at hu
  obtain ⟨hpre, hchars⟩ := hu
  have hnwsall : ∀ w : List Char, (∀ c ∈ w, c ∈ v.data) → w.all (fun c => !isJsWs c) = true := by
    intro w hw
    rw [List.all_eq_true]
    intro c hc
    have h := List.all_eq_true.mp hchars c (hw c hc)
    rw [Bool.and_eq_true, Bool.and_eq_true] at h
    simpa using h.1.1
  by_cases h8 : "https://".data.isPrefixOf v.data = true
  · rw [if_pos h8] at hpre
    obtain ⟨body, hb⟩ := List.isPrefixOf_iff_prefix.mp h8
    have hdrop : v.data.drop 8 = body := by
      rw [← hb, show (8 : Nat) = ("https://".data).length from rfl]
      exact List.drop_left _ _
    have hne : body ≠ [] := by
      rw [hdrop] at hpre
      intro hbe
      rw [hbe] at hpre
      cases hpre
    have hnws : body.all (fun c => !isJsWs c) = true := by
      apply hnwsall
      intro c hc
      rw [← hb]
      exact List.mem_append_right _ hc
    rw [← hb]
    exact urlAttempt_succ_8 body hne hnws
  · rw [if_neg h8] at hpre
    by_cases h7 : "http://".data.isPrefixOf v.data = true
    · rw [if_pos h7] at hpre
      obtain ⟨body, hb⟩ := List.isPrefixOf_iff_prefix.mp h7
      have hdrop : v.data.drop 7 = body := by
        rw [← hb, show (7 : Nat) = ("http://".data).length from rfl]
        exact List.drop_left _ _
      have hne : body ≠ [] := by
        rw [hdrop] at hpre
        intro hbe
        rw [hbe] at hpre
        cases hpre
      have hnws : body.all (fun c => !isJsWs c) = true := by
        apply hnwsall
        intro c hc
        rw [← hb]
        exact List.mem_append_right _ hc
      rw [← hb]
      exact urlAttempt_succ_7 body hne hnws
    · rw [if_neg h7] at hpre
      cases hpre

/-- The serialized recurrence annotation in marker-tail form. -/
theorem recAnnOf_some (r : Recurrence) :
    recAnnOf (some r) = ' ' :: '🔁' :: ' ' :: recTailOf r := rfl

/-- The conditional completion annotation as an annotation of a
conditional value. -/
theorem annOf_if (m : Char) (b : Bool) (ov : Option String) :
    (if b then annOf m ov else []) = annOf m (if b then ov else none) := by
  cases b with
  | true => rfl
  | false => cases ov <;> rfl

/-- A shaped date is nonempty. -/
theorem dateShaped_ne_nil {v : String} (h : dateShaped v = true) : v.data ≠ [] := by
  unfold dateShaped at h
  split at h
  · rename_i heq
    rw [heq]
    simp
  · cases h

/-- A shaped time is nonempty. -/
theorem timeShaped_ne_nil {v : String} (h : timeShaped v = true) : v.data ≠ [] := by
  unfold timeShaped at h
  split at h
  · rename_i heq
    rw [heq]
    simp
  · rename_i heq
    rw [heq]
    simp
  · cases h

/-- A shaped url is nonempty. -/
theorem urlShaped_ne_nil {v : String} (h : urlShaped v = true) : v.data ≠ [] := by
  unfold urlShaped at h
  rw [Bool.and_eq_true] at h
  have h1 := h.1
  intro hnil
  rw [hnil] at h1
  simp at h1

/-- Characters of a shaped url are not whitespace. -/
theorem urlShaped_nonws {v : String} (h : urlShaped v = true) :
    ∀ c ∈ v.data, isJsWs c = false := by
  unfold urlShaped at h
  rw [Bool.and_eq_true] at h
  intro c hc
  have h2 := List.all_eq_true.mp h.2 c hc
  rw [Bool.and_eq_true, Bool.and_eq_true] at h2
  simpa using h2.1.1

/-- Characters of a shaped url are not line terminators. -/
theorem urlShaped_dot {v : String} (h : urlShaped v = true) :
    ∀ c ∈ v.data, isDotChar c = true := by
  unfold urlShaped at h
  rw [Bool.and_eq_true] at h
  intro c hc
  have h2 := List.all_eq_true.mp h.2 c hc
  rw [Bool.and_eq_true, Bool.and_eq_true] at h2
  exact h2.1.2

/-- The url annotation ends outside whitespace. -/
theorem ends_nonws_annOf_url {ov : Option String}
    (hval : ∀ v, ov = some v → urlShaped v = true) :
    ∀ c, (annOf '🔗' ov).getLast? = some c → isJsWs c = false := by
  cases ov with
  | none => intro c hc; cases hc
  | some v =>
    intro c hc
    have hu := hval v rfl
    rw [annOf, getLast?_cons_of_ne_nil _ (by simp), getLast?_cons_of_ne_nil _ (by simp),
      getLast?_cons_of_ne_nil _ (urlShaped_ne_nil hu)] at hc
    exact urlShaped_nonws hu c (getLast?_mem hc)

/-- Trimming is the identity on a string with clean ends. -/
theorem jsTrim_eq_self_of {s : List Char} (hne : s ≠ [])
    (hh : ∀ c, s.head? = some c → isJsWs c = false)
    (hl : ∀ c, s.getLast? = some c → isJsWs c = false) : jsTrim s = s := by
  apply jsTrim_of_trimShaped
  unfold trimShaped
  cases s with
  | nil => exact absurd rfl hne
  | cons x xs =>
    rw [Bool.and_eq_true, Bool.and_eq_true]
    refine ⟨⟨rfl, ?_⟩, ?_⟩
    · have := hh x rfl
      simp [this]
    · cases hgl : (x :: xs).getLast? with
      | none => exact absurd hgl (getLast?_cons_ne_none x xs)
      | some d =>
        have := hl d hgl
        rw [List.getLastD_eq_getLast?, hgl]
        simp [this]

/-- A shaped title ends outside whitespace. -/
theorem titleShaped_last {s : List Char} (h : titleShaped s = true) :
    ∀ c, s.getLast? = some c → isJsWs c = false := by
  unfold titleShaped lineShaped at h
  rw [Bool.and_eq_true, Bool.and_eq_true] at h
  exact trimShaped_last h.1.1

/-- A shaped title starts outside whitespace. -/
theorem titleShaped_head {s : List Char} (h : titleShaped s = true) :
    ∀ c, s.head? = some c → isJsWs c = false := by
  unfold titleShaped lineShaped at h
  rw [Bool.and_eq_true, Bool.and_eq_true] at h
  exact trimShaped_head h.1.1

/-- A shaped title is nonempty. -/
theorem titleShaped_ne_nil {s : List Char} (h : titleShaped s = true) : s ≠ [] := by
  unfold titleShaped lineShaped trimShaped at h
  rw [Bool.and_eq_true, Bool.and_eq_true, Bool.and_eq_true, Bool.and_eq_true] at h
  have h1 := h.1.1.1.1
  intro hnil
  rw [hnil] at h1
  cases h1

/-- Markers are absent from a shaped title. -/
theorem titleShaped_marker {s : List Char} (h : titleShaped s = true) {m : Char}
    (hm : m ∈ markerChars) : m ∉ s := by
  unfold titleShaped at h
  rw [Bool.and_eq_true] at h
  intro hmem
  have := List.all_eq_true.mp h.2 m hmem
  rw [contains_of_mem hm] at this
  cases this

/-- Line terminators are absent from a shaped title. -/
theorem titleShaped_dot {s : List Char} (h : titleShaped s = true) :
    ∀ c ∈ s, isDotChar c = true := by
  unfold titleShaped lineShaped at h
  rw [Bool.and_eq_true, Bool.and_eq_true] at h
  exact fun c hc => List.all_eq_true.mp h.1.2 c hc

/-- Where a character of the conditional completion annotation comes
from is the same as for any marker annotation. -/
theorem all_dotChar_annOf (m : Char) (hm : isDotChar m = true) {ov : Option String}
    (hval : ∀ v, ov = some v → ∀ c ∈ v.data, isDotChar c = true) :
    ∀ c ∈ annOf m ov, isDotChar c = true := by
  intro c hc
  rcases mem_annOf hc with rfl | rfl | ⟨v, hv, hcv⟩
  · rfl
  · exact hm
  · exact hval v hv c hcv

/-- Every character of the recurrence annotation is a dot character. -/
theorem all_dotChar_recAnnOf {orec : Option Recurrence} :
    ∀ c ∈ recAnnOf orec, isDotChar c = true := by
  intro c hc
  rcases mem_recAnnOf hc with rfl | rfl | rfl | h4
  · rfl
  · rfl
  · rfl
  · exact (annValueClass_props h4).2.1

/-- The parsed recurrence fields rebuild the original record. -/
theorem recRebuild (r : Recurrence) (hsh : recShaped r = true) :
    ({ type := r.type, interval := digitsToNat (natDigits r.interval),
       dayOfWeek := if r.type = RecurrenceType.weeks
         then (recAuxDigits r).map digitsToNat else none,
       dayOfMonth := if r.type = RecurrenceType.months
         then (recAuxDigits r).map digitsToNat else none } : Recurrence) = r := by
  rcases r with ⟨ty, itv, dow, dom⟩
  cases ty with
  | days =>
    unfold recShaped at hsh
    rw [Bool.and_eq_true] at hsh
    have hwn : dow = none := Option.isNone_iff_eq_none.mp hsh.1
    have hmn : dom = none := Option.isNone_iff_eq_none.mp hsh.2
    subst hwn hmn
    simp [recAuxDigits, digitsToNat_natDigits]
  | weeks =>
    unfold recShaped at hsh
    have hmn : dom = none := Option.isNone_iff_eq_none.mp hsh
    subst hmn
    cases dow with
    | none => simp [recAuxDigits, digitsToNat_natDigits]
    | some k => simp [recAuxDigits, digitsToNat_natDigits]
  | months =>
    unfold recShaped at hsh
    have hwn : dow = none := Option.isNone_iff_eq_none.mp hsh
    subst hwn
    cases dom with
    | none => simp [recAuxDigits, digitsToNat_natDigits]
    | some k => simp [recAuxDigits, digitsToNat_natDigits]

/-- Membership composition for absence. -/
theorem not_mem_append2 {m : Char} {a b : List Char} (ha : m ∉ a) (hb : m ∉ b) :
    m ∉ a ++ b :=
  fun h => (List.mem_append.mp h).elim ha hb

/-- An append with a nonempty left part is nonempty. -/
theorem append_ne_nil_left {a : List Char} (b : List Char) (h : a ≠ []) : a ++ b ≠ [] :=
  fun hx => h (List.append_eq_nil.mp hx).1

/-- A different marker never occurs in a url annotation. -/
theorem marker_not_mem_annOf_url {m2 : Char} {ov : Option String}
    (hval : ∀ v, ov = some v → urlShaped v = true)
    (hm2 : m2 ∈ markerChars) (hne : m2 ≠ '🔗') : m2 ∉ annOf '🔗' ov := by
  intro hmem
  rcases mem_annOf hmem with h1 | h2 | ⟨v, hv, hcv⟩
  · subst h1
    revert hm2
    decide
  · exact hne h2
  · exact marker_not_mem_url (hval v hv) hm2 hcv

/-- One peel step with the trim of the remainder folded in. -/
theorem peel_generic {β : Type} (attempt : List Char → Option (List Char × β)) (marker : Char)
    (hgate : ∀ u, ¬(u.dropWhile isJsWs).head? = some marker → attempt u = none)
    (pre tail : List Char) (v : β)
    (hatt : attempt (' ' :: marker :: tail) = some (' ' :: marker :: tail, v))
    (hmem : marker ∉ pre)
    (hlast : ∀ c, pre.getLast? = some c → isJsWs c = false)
    (hne : pre ≠ []) (hhead : ∀ c, pre.head? = some c → isJsWs c = false) :
    scanFirst attempt (pre ++ ' ' :: marker :: tail) = some (' ' :: marker :: tail, v)
    ∧ jsTrim (replaceFirst (pre ++ ' ' :: marker :: tail) (' ' :: marker :: tail)) = pre := by
  obtain ⟨h1, h2⟩ := scan_peel attempt marker hgate pre tail v hatt hmem hlast
  refine ⟨h1, ?_⟩
  rw [h2]
  exact jsTrim_eq_self_of hne hhead hlast

/-- Decoding a serialized checkbox payload: the annotations are peeled
back off in scan order and the title survives exactly. -/
theorem parseAnnotations (ident : String) (mark : Char) (sect : TaskSection)
    (line title : List Char) (d? t? c? u? : Option String) (r? : Option Recurrence)
    (htitle : titleShaped title = true)
    (hd : ∀ v, d? = some v → dateShaped v = true)
    (ht : ∀ v, t? = some v → timeShaped v = true)
    (hc : ∀ v, c? = some v → dateShaped v = true)
    (hu : ∀ v, u? = some v → urlShaped v = true)
    (hr : ∀ r, r? = some r → recShaped r = true)
    (hmix : r?.isSome = true → d? = none ∧ t? = none)
    (hsplit : checkboxSplit line
      = some (mark, title ++ annOf '📅' d? ++ annOf '⏰' t? ++ recAnnOf r?
          ++ annOf '✅' c? ++ annOf '🔗' u?)) :
    parseTaskLine ident line sect
      = some { id := ident, title := String.mk title,
               completed := (mark == 'x' || mark == 'X'), completedAt := c?,
               sect := sect, url := u?, doDate := d?, doTime := t?, recurrence := r? } := by
  -- component facts
  have htne := titleShaped_ne_nil htitle
  have hclsD : ∀ v, d? = some v → v.data.all annValueClass = true :=
    fun v hv => dateShaped_class (hd v hv)
  have hclsT : ∀ v, t? = some v → v.data.all annValueClass = true :=
    fun v hv => timeShaped_class (ht v hv)
  have hclsC : ∀ v, c? = some v → v.data.all annValueClass = true :=
    fun v hv => dateShaped_class (hc v hv)
  have hvalD : ∀ v, d? = some v → v.data ≠ [] ∧ v.data.all annValueClass = true :=
    fun v hv => ⟨dateShaped_ne_nil (hd v hv), hclsD v hv⟩
  have hvalT : ∀ v, t? = some v → v.data ≠ [] ∧ v.data.all annValueClass = true :=
    fun v hv => ⟨timeShaped_ne_nil (ht v hv), hclsT v hv⟩
  have hvalC : ∀ v, c? = some v → v.data ≠ [] ∧ v.data.all annValueClass = true :=
    fun v hv => ⟨dateShaped_ne_nil (hc v hv), hclsC v hv⟩
  have eTitle := titleShaped_last htitle
  have hTitleHead := titleShaped_head htitle
  have eD := ends_nonws_annOf (m := '📅') hvalD
  have eTm := ends_nonws_annOf (m := '⏰') hvalT
  have eC := ends_nonws_annOf (m := '✅') hvalC
  have eR := @ends_nonws_recAnnOf r?
  -- absence of each marker from each earlier component
  have hnotT : ∀ m2, m2 ∈ markerChars → m2 ∉ title :=
    fun m2 hm2 => titleShaped_marker htitle hm2
  -- composite prefixes
  have e2 := ends_nonws_append eTitle eD
  have e3 := ends_nonws_append e2 eTm
  have e4 := ends_nonws_append e3 eR
  have e5 := ends_nonws_append e4 eC
  have hne2 : title ++ annOf '📅' d? ≠ [] := append_ne_nil_left _ htne
  have hne3 : title ++ annOf '📅' d? ++ annOf '⏰' t? ≠ [] := append_ne_nil_left _ hne2
  have hne4 : title ++ annOf '📅' d? ++ annOf '⏰' t? ++ recAnnOf r? ≠ [] :=
    append_ne_nil_left _ hne3
  have hne5 : title ++ annOf '📅' d? ++ annOf '⏰' t? ++ recAnnOf r? ++ annOf '✅' c? ≠ [] :=
    append_ne_nil_left _ hne4
  have hhead2 : ∀ c, (title ++ annOf '📅' d?).head? = some c → isJsWs c = false := by
    intro c hcc
    rw [List.head?_append_of_ne_nil _ htne] at hcc
    exact hTitleHead c hcc
  have hhead3 : ∀ c, (title ++ annOf '📅' d? ++ annOf '⏰' t?).head? = some c →
      isJsWs c = false := by
    intro c hcc
    rw [List.head?_append_of_ne_nil _ hne2] at hcc
    exact hhead2 c hcc
  have hhead4 : ∀ c,
      (title ++ annOf '📅' d? ++ annOf '⏰' t? ++ recAnnOf r?).head? = some c →
      isJsWs c = false := by
    intro c hcc
    rw [List.head?_append_of_ne_nil _ hne3] at hcc
    exact hhead3 c hcc
  have hhead5 : ∀ c,
      (title ++ annOf '📅' d? ++ annOf '⏰' t? ++ recAnnOf r? ++ annOf '✅' c?).head?
        = some c → isJsWs c = false := by
    intro c hcc
    rw [List.head?_append_of_ne_nil _ hne4] at hcc
    exact hhead4 c hcc
  have hnm5 : ('🔗' : Char) ∉
      title ++ annOf '📅' d? ++ annOf '⏰' t? ++ recAnnOf r? ++ annOf '✅' c? := by
    refine not_mem_append2 (not_mem_append2 (not_mem_append2 (not_mem_append2
      (hnotT _ (by decide)) ?_) ?_) ?_) ?_
    · exact marker_not_mem_annOf hclsD (by decide) (by decide)
    · exact marker_not_mem_annOf hclsT (by decide) (by decide)
    · exact marker_not_mem_recAnnOf (by decide) (by decide)
    · exact marker_not_mem_annOf hclsC (by decide) (by decide)
  have hnm4 : ('✅' : Char) ∉
      title ++ annOf '📅' d? ++ annOf '⏰' t? ++ recAnnOf r? := by
    refine not_mem_append2 (not_mem_append2 (not_mem_append2
      (hnotT _ (by decide)) ?_) ?_) ?_
    · exact marker_not_mem_annOf hclsD (by decide) (by decide)
    · exact marker_not_mem_annOf hclsT (by decide) (by decide)
    · exact marker_not_mem_recAnnOf (by decide) (by decide)
  have hnmTm4 : ('⏰' : Char) ∉
      title ++ annOf '📅' d? ++ annOf '⏰' none ++ recAnnOf r? := by
    refine not_mem_append2 (not_mem_append2 (not_mem_append2
      (hnotT _ (by decide)) ?_) ?_) ?_
    · exact marker_not_mem_annOf hclsD (by decide) (by decide)
    · intro hx
      cases hx
    · exact marker_not_mem_recAnnOf (by decide) (by decide)
  -- stage 1: the url peel
  have hstage1 : (match scanFirst urlAttempt
        (title ++ annOf '📅' d? ++ annOf '⏰' t? ++ recAnnOf r? ++ annOf '✅' c?
          ++ annOf '🔗' u?) with
      | some (m0, u) =>
        (jsTrim (replaceFirst
          (title ++ annOf '📅' d? ++ annOf '⏰' t? ++ recAnnOf r? ++ annOf '✅' c?
            ++ annOf '🔗' u?) m0), some (String.mk u))
      | none =>
        (title ++ annOf '📅' d? ++ annOf '⏰' t? ++ recAnnOf r? ++ annOf '✅' c?
          ++ annOf '🔗' u?, (none : Option String)))
      = (title ++ annOf '📅' d? ++ annOf '⏰' t? ++ recAnnOf r? ++ annOf '✅' c?, u?) := by
    cases hu? : u? with
    | none =>
      rw [show annOf '🔗' (none : Option String) = ([] : List Char) from rfl, List.append_nil]
      rw [scanFirst_none_of_marker urlAttempt '🔗' urlAttempt_gate _ hnm5]
    | some u =>
      rw [show annOf '🔗' (some u) = ' ' :: '🔗' :: ' ' :: u.data from rfl]
      obtain ⟨hscan, hrep⟩ := peel_generic urlAttempt '🔗' urlAttempt_gate
        (title ++ annOf '📅' d? ++ annOf '⏰' t? ++ recAnnOf r? ++ annOf '✅' c?)
        (' ' :: u.data) u.data (urlAttempt_succ (hu u hu?)) hnm5 e5 hne5 hhead5
      rw [hscan]
      simp only [hrep]
  -- stage 2: the completion date peel
  have hstage2 : (match scanFirst (dateAttempt '✅')
        (title ++ annOf '📅' d? ++ annOf '⏰' t? ++ recAnnOf r? ++ annOf '✅' c?) with
      | some (m0, u) =>
        (jsTrim (replaceFirst
          (title ++ annOf '📅' d? ++ annOf '⏰' t? ++ recAnnOf r? ++ annOf '✅' c?) m0),
         some (String.mk u))
      | none =>
        (title ++ annOf '📅' d? ++ annOf '⏰' t? ++ recAnnOf r? ++ annOf '✅' c?,
         (none : Option String)))
      = (title ++ annOf '📅' d? ++ annOf '⏰' t? ++ recAnnOf r?, c?) := by
    cases hc? : c? with
    | none =>
      rw [show annOf '✅' (none : Option String) = ([] : List Char) from rfl, List.append_nil]
      rw [scanFirst_none_of_marker (dateAttempt '✅') '✅' (dateAttempt_gate '✅') _ hnm4]
    | some v =>
      rw [show annOf '✅' (some v) = ' ' :: '✅' :: ' ' :: v.data from rfl]
      obtain ⟨hscan, hrep⟩ := peel_generic (dateAttempt '✅') '✅' (dateAttempt_gate '✅')
        (title ++ annOf '📅' d? ++ annOf '⏰' t? ++ recAnnOf r?)
        (' ' :: v.data) v.data (dateAttempt_succ '✅' (by decide) (hc v hc?)) hnm4 e4 hne4 hhead4
      rw [hscan]
      simp only [hrep]
  -- stage 3: the time peel
  have hstage3 : (match scanFirst timeAttempt
        (title ++ annOf '📅' d? ++ annOf '⏰' t? ++ recAnnOf r?) with
      | some (m0, u) =>
        (jsTrim (replaceFirst (title ++ annOf '📅' d? ++ annOf '⏰' t? ++ recAnnOf r?) m0),
         some (String.mk u))
      | none =>
        (title ++ annOf '📅' d? ++ annOf '⏰' t? ++ recAnnOf r?, (none : Option String)))
      = (title ++ annOf '📅' d? ++ recAnnOf r?, t?) := by
    cases ht? : t? with
    | none =>
      rw [show annOf '⏰' (none : Option String) = ([] : List Char) from rfl, List.append_nil]
      have hx : ('⏰' : Char) ∉ title ++ annOf '📅' d? ++ recAnnOf r? := by
        refine not_mem_append2 (not_mem_append2 (hnotT _ (by decide)) ?_) ?_
        · exact marker_not_mem_annOf hclsD (by decide) (by decide)
        · exact marker_not_mem_recAnnOf (by decide) (by decide)
      rw [scanFirst_none_of_marker timeAttempt '⏰' timeAttempt_gate _ hx]
    | some v =>
      cases hr? : r? with
      | some r =>
        exfalso
        have hmix2 := (hmix (by rw [hr?]; rfl)).2
        rw [hmix2] at ht?
        cases ht?
      | none =>
        rw [show recAnnOf (none : Option Recurrence) = ([] : List Char) from rfl,
          List.append_nil, List.append_nil]
        rw [show annOf '⏰' (some v) = ' ' :: '⏰' :: ' ' :: v.data from rfl]
        have hx : ('⏰' : Char) ∉ title ++ annOf '📅' d? := by
          refine not_mem_append2 (hnotT _ (by decide)) ?_
          exact marker_not_mem_annOf hclsD (by decide) (by decide)
        obtain ⟨hscan, hrep⟩ := peel_generic timeAttempt '⏰' timeAttempt_gate
          (title ++ annOf '📅' d?) (' ' :: v.data) v.data
          (timeAttempt_succ (ht v ht?)) hx e2 hne2 hhead2
        rw [hscan]
        simp only [hrep]
  -- stage 4: the scheduled date peel
  have hstage4 : (match scanFirst (dateAttempt '📅')
        (title ++ annOf '📅' d? ++ recAnnOf r?) with
      | some (m0, u) =>
        (jsTrim (replaceFirst (title ++ annOf '📅' d? ++ recAnnOf r?) m0),
         some (String.mk u))
      | none => (title ++ annOf '📅' d? ++ recAnnOf r?, (none : Option String)))
      = (title ++ recAnnOf r?, d?) := by
    cases hd? : d? with
    | none =>
      rw [show annOf '📅' (none : Option String) = ([] : List Char) from rfl, List.append_nil]
      have hx : ('📅' : Char) ∉ title ++ recAnnOf r? := by
        refine not_mem_append2 (hnotT _ (by decide)) ?_
        exact marker_not_mem_recAnnOf (by decide) (by decide)
      rw [scanFirst_none_of_marker (dateAttempt '📅') '📅' (dateAttempt_gate '📅') _ hx]
    | some v =>
      cases hr? : r? with
      | some r =>
        exfalso
        have hmix2 := (hmix (by rw [hr?]; rfl)).1
        rw [hmix2] at hd?
        cases hd?
      | none =>
        rw [show recAnnOf (none : Option Recurrence) = ([] : List Char) from rfl,
          List.append_nil, List.append_nil]
        rw [show annOf '📅' (some v) = ' ' :: '📅' :: ' ' :: v.data from rfl]
        obtain ⟨hscan, hrep⟩ := peel_generic (dateAttempt '📅') '📅' (dateAttempt_gate '📅')
          title (' ' :: v.data) v.data
          (dateAttempt_succ '📅' (by decide) (hd v hd?)) (hnotT _ (by decide)) eTitle htne
          hTitleHead
        rw [hscan]
        simp only [hrep]
  -- stage 5: the recurrence peel
  have hstage5 : (match scanFirst recAttempt (title ++ recAnnOf r?) with
      | some (m0, ty, ds1, ds2) =>
        (jsTrim (replaceFirst (title ++ recAnnOf r?) m0),
         some { type := ty, interval := digitsToNat ds1,
                dayOfWeek := if ty = RecurrenceType.weeks then ds2.map digitsToNat else none,
                dayOfMonth := if ty = RecurrenceType.months then ds2.map digitsToNat else none })
      | none => (title ++ recAnnOf r?, (none : Option Recurrence)))
      = (title, r?) := by
    cases hr? : r? with
    | none =>
      rw [show recAnnOf (none : Option Recurrence) = ([] : List Char) from rfl,
        List.append_nil]
      rw [scanFirst_none_of_marker recAttempt '🔁' recAttempt_gate _ (hnotT _ (by decide))]
    | some r =>
      rw [recAnnOf_some r]
      obtain ⟨hscan, hrep⟩ := peel_generic recAttempt '🔁' recAttempt_gate
        title (' ' :: recTailOf r) (r.type, natDigits r.interval, recAuxDigits r)
        (recAttempt_succ r (hr r hr?)) (hnotT _ (by decide)) eTitle htne hTitleHead
      rw [hscan]
      simp only [hrep]
      rw [recRebuild r (hr r hr?)]
  -- the trim of the serialized payload
  have eU := ends_nonws_annOf_url hu
  have e6 := ends_nonws_append e5 eU
  have hne6 : title ++ annOf '📅' d? ++ annOf '⏰' t? ++ recAnnOf r? ++ annOf '✅' c?
      ++ annOf '🔗' u? ≠ [] := append_ne_nil_left _ hne5
  have hhead6 : ∀ c,
      (title ++ annOf '📅' d? ++ annOf '⏰' t? ++ recAnnOf r? ++ annOf '✅' c?
        ++ annOf '🔗' u?).head? = some c → isJsWs c = false := by
    intro c hcc
    rw [List.head?_append_of_ne_nil _ hne5] at hcc
    exact hhead5 c hcc
  have ht0 : jsTrim (title ++ annOf '📅' d? ++ annOf '⏰' t? ++ recAnnOf r? ++ annOf '✅' c?
      ++ annOf '🔗' u?) = title ++ annOf '📅' d? ++ annOf '⏰' t? ++ recAnnOf r?
      ++ annOf '✅' c? ++ annOf '🔗' u? :=
    jsTrim_eq_self_of hne6 hhead6 e6
  simp only [parseTaskLine, hsplit, ht0, hstage1, hstage2, hstage3, hstage4, hstage5]
/-- Characters of a shaped date are dot characters. -/
theorem dateShaped_dot {v : String} (h : dateShaped v = true) :
    ∀ c ∈ v.data, isDotChar c = true := by
  intro c hc
  exact (annValueClass_props (List.all_eq_true.mp (dateShaped_class h) c hc)).2.1

/-- Characters of a shaped time are dot characters. -/
theorem timeShaped_dot {v : String} (h : timeShaped v = true) :
    ∀ c ∈ v.data, isDotChar c = true := by
  intro c hc
  exact (annValueClass_props (List.all_eq_true.mp (timeShaped_class h) c hc)).2.1

/-- Decoding one serialized task line recovers every field, with the
id resupplied, the section taken from the surrounding block, and the
completion date only when the encoder was asked to write it. -/
theorem parseTaskLine_serialized (ident : String) (t : Task) (sect : TaskSection) (b : Bool)
    (hok : taskOk t = true) :
    parseTaskLine ident (serializeTask t b) sect
      = some { id := ident, title := t.title, completed := t.completed,
               completedAt := if b then t.completedAt else none, sect := sect,
               url := t.url, doDate := t.doDate, doTime := t.doTime,
               recurrence := t.recurrence } := by
  simp only [taskOk, Bool.and_eq_true] at hok
  obtain ⟨⟨⟨⟨⟨hti, hurl⟩, hdd⟩, hdt⟩, hca⟩, hrec⟩ := hok
  have hu : ∀ v, t.url = some v → urlShaped v = true := by
    intro v hv
    rw [hv] at hurl
    exact hurl
  have hd : ∀ v, t.doDate = some v → dateShaped v = true := by
    intro v hv
    rw [hv] at hdd
    exact hdd
  have ht : ∀ v, t.doTime = some v → timeShaped v = true := by
    intro v hv
    rw [hv] at hdt
    exact hdt
  have hcav : ∀ v, t.completedAt = some v → dateShaped v = true := by
    intro v hv
    rw [hv] at hca
    exact hca
  have hc : ∀ v, (if b then t.completedAt else none) = some v → dateShaped v = true := by
    cases b with
    | true => exact hcav
    | false => intro v hv; cases hv
  have hr : ∀ r, t.recurrence = some r → recShaped r = true := by
    intro r hv
    rw [hv] at hrec
    rw [Bool.and_eq_true, Bool.and_eq_true] at hrec
    exact hrec.1.1
  have hmix : t.recurrence.isSome = true → t.doDate = none ∧ t.doTime = none := by
    intro hs
    cases hvr : t.recurrence with
    | none => rw [hvr] at hs; cases hs
    | some r =>
      rw [hvr] at hrec
      rw [Bool.and_eq_true, Bool.and_eq_true] at hrec
      exact ⟨Option.isNone_iff_eq_none.mp hrec.1.2, Option.isNone_iff_eq_none.mp hrec.2⟩
  -- the serialized line in checkbox shape
  have hline : serializeTask t b
      = "- ".data ++ (if t.completed then "[x]".data else "[ ]".data)
        ++ ' ' :: (t.title.data ++ annOf '📅' t.doDate ++ annOf '⏰' t.doTime
            ++ recAnnOf t.recurrence ++ annOf '✅' (if b then t.completedAt else none)
            ++ annOf '🔗' t.url) := by
    unfold serializeTask
    rw [annOf_if]
    simp [List.append_assoc]
  have hbodyne : t.title.data ++ annOf '📅' t.doDate ++ annOf '⏰' t.doTime
      ++ recAnnOf t.recurrence ++ annOf '✅' (if b then t.completedAt else none)
      ++ annOf '🔗' t.url ≠ [] :=
    append_ne_nil_left _ (append_ne_nil_left _ (append_ne_nil_left _ (append_ne_nil_left _
      (append_ne_nil_left _ (titleShaped_ne_nil hti)))))
  have hbodyhead : ∀ c, (t.title.data ++ annOf '📅' t.doDate ++ annOf '⏰' t.doTime
      ++ recAnnOf t.recurrence ++ annOf '✅' (if b then t.completedAt else none)
      ++ annOf '🔗' t.url).head? = some c → isJsWs c = false := by
    intro c hcc
    rw [List.head?_append_of_ne_nil _ (append_ne_nil_left _ (append_ne_nil_left _
        (append_ne_nil_left _ (append_ne_nil_left _ (titleShaped_ne_nil hti))))),
      List.head?_append_of_ne_nil _ (append_ne_nil_left _ (append_ne_nil_left _
        (append_ne_nil_left _ (titleShaped_ne_nil hti)))),
      List.head?_append_of_ne_nil _ (append_ne_nil_left _
        (append_ne_nil_left _ (titleShaped_ne_nil hti))),
      List.head?_append_of_ne_nil _ (append_ne_nil_left _ (titleShaped_ne_nil hti)),
      List.head?_append_of_ne_nil _ (titleShaped_ne_nil hti)] at hcc
    exact titleShaped_head hti c hcc
  have hbodydot : (t.title.data ++ annOf '📅' t.doDate ++ annOf '⏰' t.doTime
      ++ recAnnOf t.recurrence ++ annOf '✅' (if b then t.completedAt else none)
      ++ annOf '🔗' t.url).all isDotChar = true := by
    simp only [List.all_append, Bool.and_eq_true]
    refine ⟨⟨⟨⟨⟨?_, ?_⟩, ?_⟩, ?_⟩, ?_⟩, ?_⟩
    · exact List.all_eq_true.mpr (titleShaped_dot hti)
    · exact List.all_eq_true.mpr (all_dotChar_annOf '📅' (by decide)
        (fun v hv => dateShaped_dot (hd v hv)))
    · exact List.all_eq_true.mpr (all_dotChar_annOf '⏰' (by decide)
        (fun v hv => timeShaped_dot (ht v hv)))
    · exact List.all_eq_true.mpr all_dotChar_recAnnOf
    · exact List.all_eq_true.mpr (all_dotChar_annOf '✅' (by decide)
        (fun v hv => dateShaped_dot (hc v hv)))
    · exact List.all_eq_true.mpr (all_dotChar_annOf '🔗' (by decide)
        (fun v hv => urlShaped_dot (hu v hv)))
  have hsplit := checkboxSplit_serialized t.completed _ hbodyne hbodyhead hbodydot
  rw [hline]
  have hmain := parseAnnotations ident (if t.completed then 'x' else ' ') sect
    ("- ".data ++ (if t.completed then "[x]".data else "[ ]".data)
      ++ ' ' :: (t.title.data ++ annOf '📅' t.doDate ++ annOf '⏰' t.doTime
          ++ recAnnOf t.recurrence ++ annOf '✅' (if b then t.completedAt else none)
          ++ annOf '🔗' t.url))
    t.title.data t.doDate t.doTime (if b then t.completedAt else none) t.url t.recurrence
    hti hd ht hc hu hr hmix hsplit
  rw [hmain]
  have hmark : ((if t.completed then 'x' else ' ') == 'x'
      || (if t.completed then 'x' else ' ') == 'X') = t.completed := by
    cases t.completed <;> decide
  rw [hmark]

/-- Decoding one serialized habit line recovers the habit with a
fresh id. -/
theorem parseHabitLine_serialized (ident : String) (h : DailyHabit)
    (hok : habitOk h = true) :
    parseHabitLine ident (serializeHabit h)
      = some ⟨ident, h.title, h.completedToday⟩ := by
  unfold habitOk lineShaped at hok
  rw [Bool.and_eq_true] at hok
  have hne : h.title.data ≠ [] := by
    have h1 := hok.1
    unfold trimShaped at h1
    rw [Bool.and_eq_true, Bool.and_eq_true] at h1
    have h2 := h1.1.1
    intro hx
    rw [hx] at h2
    cases h2
  have hsplit := checkboxSplit_serialized h.completedToday h.title.data hne
    (trimShaped_head (by
      unfold trimShaped
      unfold trimShaped at hok
      exact hok.1))
    hok.2
  unfold serializeHabit parseHabitLine
  rw [hsplit]
  rw [Option.map_some']
  have htr : jsTrim h.title.data = h.title.data :=
    jsTrim_of_trimShaped (by
      unfold trimShaped
      unfold trimShaped at hok
      exact hok.1)
  rw [htr]
  have hmark : ((if h.completedToday then 'x' else ' ') == 'x'
      || (if h.completedToday then 'x' else ' ') == 'X') = h.completedToday := by
    cases h.completedToday <;> decide
  rw [hmark]

/-- The dash is not among four digit characters. -/
theorem dash_not_mem_digits {a b c d : Char} (ha : a.isDigit = true) (hb : b.isDigit = true)
    (hc : c.isDigit = true) (hd : d.isDigit = true) : ('-' : Char) ∉ [a, b, c, d] := by
  intro hm
  simp only [List.mem_cons, List.not_mem_nil, or_false] at hm
  rcases hm with rfl | rfl | rfl | rfl
  · cases ha
  · cases hb
  · cases hc
  · cases hd

/-- Decoding the formatted header of a shaped month key returns the
key. -/
theorem parseMonthHeader_format (k : String) (hk : monthKeyShaped k = true) :
    parseMonthHeader ("### ".data ++ formatMonthHeader k) = some k := by
  unfold monthKeyShaped at hk
  split at hk
  · rename_i a b c d m1 m2 heq
    simp only [Bool.and_eq_true] at hk
    obtain ⟨⟨⟨⟨h1, h2⟩, h3⟩, h4⟩, h5⟩ := hk
    have ha : isJsWs a = false := ws_of_digit h1
    have hcases : [m1, m2] = ['0','1'] ∨ [m1, m2] = ['0','2'] ∨ [m1, m2] = ['0','3']
        ∨ [m1, m2] = ['0','4'] ∨ [m1, m2] = ['0','5'] ∨ [m1, m2] = ['0','6']
        ∨ [m1, m2] = ['0','7'] ∨ [m1, m2] = ['0','8'] ∨ [m1, m2] = ['0','9']
        ∨ [m1, m2] = ['1','0'] ∨ [m1, m2] = ['1','1'] ∨ [m1, m2] = ['1','2'] := by
      have h6 : ([m1, m2] : List Char) ∈
          [['0','1'], ['0','2'], ['0','3'], ['0','4'], ['0','5'], ['0','6'], ['0','7'],
           ['0','8'], ['0','9'], ['1','0'], ['1','1'], ['1','2']] :=
        List.mem_of_elem_eq_true h5
      simpa only [List.mem_cons, List.not_mem_nil, or_false] using h6
    have hksplit : k = String.mk k.data := rfl
    have hndash := dash_not_mem_digits h1 h2 h3 h4
    rcases hcases with hmm | hmm | hmm | hmm | hmm | hmm | hmm | hmm | hmm | hmm | hmm | hmm
    · rw [List.cons.injEq] at hmm
      obtain ⟨hm1, hm2x⟩ := hmm
      rw [List.cons.injEq] at hm2x
      obtain ⟨hm2, _⟩ := hm2x
      subst hm1
      subst hm2
      have hfinal : String.mk ([a, b, c, d] ++ '-' :: ['0', '1']) = k := by
        cases k with
        | mk l =>
          exact congrArg String.mk (by simpa using heq.symm)
      unfold formatMonthHeader
      rw [heq]
      rw [show ([a, b, c, d, '-', '0', '1'] : List Char)
          = [a, b, c, d] ++ '-' :: ['0', '1'] from rfl]
      rw [splitChar_append_sep '-' [a, b, c, d] ['0', '1'] hndash,
        splitChar_no_sep '-' ['0', '1'] (by decide)]
      show parseMonthHeader
        ('#' :: '#' :: '#' :: ' ' :: ("January".data ++ ' ' :: [a, b, c, d])) = some k
      have hA1 : List.takeWhile isJsWs (' ' :: ("January".data ++ ' ' :: [a, b, c, d]))
          = [' '] := rfl
      have hA2 : List.dropWhile isJsWs (' ' :: ("January".data ++ ' ' :: [a, b, c, d]))
          = "January".data ++ ' ' :: [a, b, c, d] := rfl
      have hword : List.takeWhile isWordChar ("January".data ++ ' ' :: [a, b, c, d])
          = "January".data := rfl
      have hdrop : List.drop
          (List.takeWhile isWordChar ("January".data ++ ' ' :: [a, b, c, d])).length
          ("January".data ++ ' ' :: [a, b, c, d]) = ' ' :: [a, b, c, d] := by
        rw [hword]
        rfl
      have hw2 : List.takeWhile isJsWs (' ' :: [a, b, c, d]) = [' '] := by
        rw [List.takeWhile_cons_of_pos (show isJsWs ' ' = true from rfl),
          takeWhile_cons_neg _ ha]
      have hr3 : List.dropWhile isJsWs (' ' :: [a, b, c, d]) = [a, b, c, d] := by
        rw [List.dropWhile_cons_of_pos (show isJsWs ' ' = true from rfl),
          dropWhile_cons_neg _ ha]
      have hnum : monthNumOf (("January".data).map asciiLower) = some ['0', '1'] := rfl
      simp only [parseMonthHeader, hA1, hA2, hword, hdrop, hw2, hr3, h1, h2, h3, h4, hnum]
      simp [hfinal]
      exact ⟨rfl, by rw [hr3]; simp [h1, h2, h3, h4]; rw [← heq]⟩
    · rw [List.cons.injEq] at hmm
      obtain ⟨hm1, hm2x⟩ := hmm
      rw [List.cons.injEq] at hm2x
      obtain ⟨hm2, _⟩ := hm2x
      subst hm1
      subst hm2
      have hfinal : String.mk ([a, b, c, d] ++ '-' :: ['0', '2']) = k := by
        cases k with
        | mk l =>
          exact congrArg String.mk (by simpa using heq.symm)
      unfold formatMonthHeader
      rw [heq]
      rw [show ([a, b, c, d, '-', '0', '2'] : List Char)
          = [a, b, c, d] ++ '-' :: ['0', '2'] from rfl]
      rw [splitChar_append_sep '-' [a, b, c, d] ['0', '2'] hndash,
        splitChar_no_sep '-' ['0', '2'] (by decide)]
      show parseMonthHeader
        ('#' :: '#' :: '#' :: ' ' :: ("February".data ++ ' ' :: [a, b, c, d])) = some k
      have hA1 : List.takeWhile isJsWs (' ' :: ("February".data ++ ' ' :: [a, b, c, d]))
          = [' '] := rfl
      have hA2 : List.dropWhile isJsWs (' ' :: ("February".data ++ ' ' :: [a, b, c, d]))
          = "February".data ++ ' ' :: [a, b, c, d] := rfl
      have hword : List.takeWhile isWordChar ("February".data ++ ' ' :: [a, b, c, d])
          = "February".data := rfl
      have hdrop : List.drop
          (List.takeWhile isWordChar ("February".data ++ ' ' :: [a, b, c, d])).length
          ("February".data ++ ' ' :: [a, b, c, d]) = ' ' :: [a, b, c, d] := by
        rw [hword]
        rfl
      have hw2 : List.takeWhile isJsWs (' ' :: [a, b, c, d]) = [' '] := by
        rw [List.takeWhile_cons_of_pos (show isJsWs ' ' = true from rfl),
          takeWhile_cons_neg _ ha]
      have hr3 : List.dropWhile isJsWs (' ' :: [a, b, c, d]) = [a, b, c, d] := by
        rw [List.dropWhile_cons_of_pos (show isJsWs ' ' = true from rfl),
          dropWhile_cons_neg _ ha]
      have hnum : monthNumOf (("February".data).map asciiLower) = some ['0', '2'] := rfl
      simp only [parseMonthHeader, hA1, hA2, hword, hdrop, hw2, hr3, h1, h2, h3, h4, hnum]
      simp [hfinal]
      exact ⟨rfl, by rw [hr3]; simp [h1, h2, h3, h4]; rw [← heq]⟩
    · rw [List.cons.injEq] at hmm
      obtain ⟨hm1, hm2x⟩ := hmm
      rw [List.cons.injEq] at hm2x
      obtain ⟨hm2, _⟩ := hm2x
      subst hm1
      subst hm2
      have hfinal : String.mk ([a, b, c, d] ++ '-' :: ['0', '3']) = k := by
        cases k with
        | mk l =>
          exact congrArg String.mk (by simpa using heq.symm)
      unfold formatMonthHeader
      rw [heq]
      rw [show ([a, b, c, d, '-', '0', '3'] : List Char)
          = [a, b, c, d] ++ '-' :: ['0', '3'] from rfl]
      rw [splitChar_append_sep '-' [a, b, c, d] ['0', '3'] hndash,
        splitChar_no_sep '-' ['0', '3'] (by decide)]
      show parseMonthHeader
        ('#' :: '#' :: '#' :: ' ' :: ("March".data ++ ' ' :: [a, b, c, d])) = some k
      have hA1 : List.takeWhile isJsWs (' ' :: ("March".data ++ ' ' :: [a, b, c, d]))
          = [' '] := rfl
      have hA2 : List.dropWhile isJsWs (' ' :: ("March".data ++ ' ' :: [a, b, c, d]))
          = "March".data ++ ' ' :: [a, b, c, d] := rfl
      have hword : List.takeWhile isWordChar ("March".data ++ ' ' :: [a, b, c, d])
          = "March".data := rfl
      have hdrop : List.drop
          (List.takeWhile isWordChar ("March".data ++ ' ' :: [a, b, c, d])).length
          ("March".data ++ ' ' :: [a, b, c, d]) = ' ' :: [a, b, c, d] := by
        rw [hword]
        rfl
      have hw2 : List.takeWhile isJsWs (' ' :: [a, b, c, d]) = [' '] := by
        rw [List.takeWhile_cons_of_pos (show isJsWs ' ' = true from rfl),
          takeWhile_cons_neg _ ha]
      have hr3 : List.dropWhile isJsWs (' ' :: [a, b, c, d]) = [a, b, c, d] := by
        rw [List.dropWhile_cons_of_pos (show isJsWs ' ' = true from rfl),
          dropWhile_cons_neg _ ha]
      have hnum : monthNumOf (("March".data).map asciiLower) = some ['0', '3'] := rfl
      simp only [parseMonthHeader, hA1, hA2, hword, hdrop, hw2, hr3, h1, h2, h3, h4, hnum]
      simp [hfinal]
      exact ⟨rfl, by rw [hr3]; simp [h1, h2, h3, h4]; rw [← heq]⟩
    · rw [List.cons.injEq] at hmm
      obtain ⟨hm1, hm2x⟩ := hmm
      rw [List.cons.injEq] at hm2x
      obtain ⟨hm2, _⟩ := hm2x
      subst hm1
      subst hm2
      have hfinal : String.mk ([a, b, c, d] ++ '-' :: ['0', '4']) = k := by
        cases k with
        | mk l =>
          exact congrArg String.mk (by simpa using heq.symm)
      unfold formatMonthHeader
      rw [heq]
      rw [show ([a, b, c, d, '-', '0', '4'] : List Char)
          = [a, b, c, d] ++ '-' :: ['0', '4'] from rfl]
      rw [splitChar_append_sep '-' [a, b, c, d] ['0', '4'] hndash,
        splitChar_no_sep '-' ['0', '4'] (by decide)]
      show parseMonthHeader
        ('#' :: '#' :: '#' :: ' ' :: ("April".data ++ ' ' :: [a, b, c, d])) = some k
      have hA1 : List.takeWhile isJsWs (' ' :: ("April".data ++ ' ' :: [a, b, c, d]))
          = [' '] := rfl
      have hA2 : List.dropWhile isJsWs (' ' :: ("April".data ++ ' ' :: [a, b, c, d]))
          = "April".data ++ ' ' :: [a, b, c, d] := rfl
      have hword : List.takeWhile isWordChar ("April".data ++ ' ' :: [a, b, c, d])
          = "April".data := rfl
      have hdrop : List.drop
          (List.takeWhile isWordChar ("April".data ++ ' ' :: [a, b, c, d])).length
          ("April".data ++ ' ' :: [a, b, c, d]) = ' ' :: [a, b, c, d] := by
        rw [hword]
        rfl
      have hw2 : List.takeWhile isJsWs (' ' :: [a, b, c, d]) = [' '] := by
        rw [List.takeWhile_cons_of_pos (show isJsWs ' ' = true from rfl),
          takeWhile_cons_neg _ ha]
      have hr3 : List.dropWhile isJsWs (' ' :: [a, b, c, d]) = [a, b, c, d] := by
        rw [List.dropWhile_cons_of_pos (show isJsWs ' ' = true from rfl),
          dropWhile_cons_neg _ ha]
      have hnum : monthNumOf (("April".data).map asciiLower) = some ['0', '4'] := rfl
      simp only [parseMonthHeader, hA1, hA2, hword, hdrop, hw2, hr3, h1, h2, h3, h4, hnum]
      simp [hfinal]
      exact ⟨rfl, by rw [hr3]; simp [h1, h2, h3, h4]; rw [← heq]⟩
    · rw [List.cons.injEq] at hmm
      obtain ⟨hm1, hm2x⟩ := hmm
      rw [List.cons.injEq] at hm2x
      obtain ⟨hm2, _⟩ := hm2x
      subst hm1
      subst hm2
      have hfinal : String.mk ([a, b, c, d] ++ '-' :: ['0', '5']) = k := by
        cases k with
        | mk l =>
          exact congrArg String.mk (by simpa using heq.symm)
      unfold formatMonthHeader
      rw [heq]
      rw [show ([a, b, c, d, '-', '0', '5'] : List Char)
          = [a, b, c, d] ++ '-' :: ['0', '5'] from rfl]
      rw [splitChar_append_sep '-' [a, b, c, d] ['0', '5'] hndash,
        splitChar_no_sep '-' ['0', '5'] (by decide)]
      show parseMonthHeader
        ('#' :: '#' :: '#' :: ' ' :: ("May".data ++ ' ' :: [a, b, c, d])) = some k
      have hA1 : List.takeWhile isJsWs (' ' :: ("May".data ++ ' ' :: [a, b, c, d]))
          = [' '] := rfl
      have hA2 : List.dropWhile isJsWs (' ' :: ("May".data ++ ' ' :: [a, b, c, d]))
          = "May".data ++ ' ' :: [a, b, c, d] := rfl
      have hword : List.takeWhile isWordChar ("May".data ++ ' ' :: [a, b, c, d])
          = "May".data := rfl
      have hdrop : List.drop
          (List.takeWhile isWordChar ("May".data ++ ' ' :: [a, b, c, d])).length
          ("May".data ++ ' ' :: [a, b, c, d]) = ' ' :: [a, b, c, d] := by
        rw [hword]
        rfl
      have hw2 : List.takeWhile isJsWs (' ' :: [a, b, c, d]) = [' '] := by
        rw [List.takeWhile_cons_of_pos (show isJsWs ' ' = true from rfl),
          takeWhile_cons_neg _ ha]
      have hr3 : List.dropWhile isJsWs (' ' :: [a, b, c, d]) = [a, b, c, d] := by
        rw [List.dropWhile_cons_of_pos (show isJsWs ' ' = true from rfl),
          dropWhile_cons_neg _ ha]
      have hnum : monthNumOf (("May".data).map asciiLower) = some ['0', '5'] := rfl
      simp only [parseMonthHeader, hA1, hA2, hword, hdrop, hw2, hr3, h1, h2, h3, h4, hnum]
      simp [hfinal]
      exact ⟨rfl, by rw [hr3]; simp [h1, h2, h3, h4]; rw [← heq]⟩
    · rw [List.cons.injEq] at hmm
      obtain ⟨hm1, hm2x⟩ := hmm
      rw [List.cons.injEq] at hm2x
      obtain ⟨hm2, _⟩ := hm2x
      subst hm1
      subst hm2
      have hfinal : String.mk ([a, b, c, d] ++ '-' :: ['0', '6']) = k := by
        cases k with
        | mk l =>
          exact congrArg String.mk (by simpa using heq.symm)
      unfold formatMonthHeader
      rw [heq]
      rw [show ([a, b, c, d, '-', '0', '6'] : List Char)
          = [a, b, c, d] ++ '-' :: ['0', '6'] from rfl]
      rw [splitChar_append_sep '-' [a, b, c, d] ['0', '6'] hndash,
        splitChar_no_sep '-' ['0', '6'] (by decide)]
      show parseMonthHeader
        ('#' :: '#' :: '#' :: ' ' :: ("June".data ++ ' ' :: [a, b, c, d])) = some k
      have hA1 : List.takeWhile isJsWs (' ' :: ("June".data ++ ' ' :: [a, b, c, d]))
          = [' '] := rfl
      have hA2 : List.dropWhile isJsWs (' ' :: ("June".data ++ ' ' :: [a, b, c, d]))
          = "June".data ++ ' ' :: [a, b, c, d] := rfl
      have hword : List.takeWhile isWordChar ("June".data ++ ' ' :: [a, b, c, d])
          = "June".data := rfl
      have hdrop : List.drop
          (List.takeWhile isWordChar ("June".data ++ ' ' :: [a, b, c, d])).length
          ("June".data ++ ' ' :: [a, b, c, d]) = ' ' :: [a, b, c, d] := by
        rw [hword]
        rfl
      have hw2 : List.takeWhile isJsWs (' ' :: [a, b, c, d]) = [' '] := by
        rw [List.takeWhile_cons_of_pos (show isJsWs ' ' = true from rfl),
          takeWhile_cons_neg _ ha]
      have hr3 : List.dropWhile isJsWs (' ' :: [a, b, c, d]) = [a, b, c, d] := by
        rw [List.dropWhile_cons_of_pos (show isJsWs ' ' = true from rfl),
          dropWhile_cons_neg _ ha]
      have hnum : monthNumOf (("June".data).map asciiLower) = some ['0', '6'] := rfl
      simp only [parseMonthHeader, hA1, hA2, hword, hdrop, hw2, hr3, h1, h2, h3, h4, hnum]
      simp [hfinal]
      exact ⟨rfl, by rw [hr3]; simp [h1, h2, h3, h4]; rw [← heq]⟩
    · rw [List.cons.injEq] at hmm
      obtain ⟨hm1, hm2x⟩ := hmm
      rw [List.cons.injEq] at hm2x
      obtain ⟨hm2, _⟩ := hm2x
      subst hm1
      subst hm2
      have hfinal : String.mk ([a, b, c, d] ++ '-' :: ['0', '7']) = k := by
        cases k with
        | mk l =>
          exact congrArg String.mk (by simpa using heq.symm)
      unfold formatMonthHeader
      rw [heq]
      rw [show ([a, b, c, d, '-', '0', '7'] : List Char)
          = [a, b, c, d] ++ '-' :: ['0', '7'] from rfl]
      rw [splitChar_append_sep '-' [a, b, c, d] ['0', '7'] hndash,
        splitChar_no_sep '-' ['0', '7'] (by decide)]
      show parseMonthHeader
        ('#' :: '#' :: '#' :: ' ' :: ("July".data ++ ' ' :: [a, b, c, d])) = some k
      have hA1 : List.takeWhile isJsWs (' ' :: ("July".data ++ ' ' :: [a, b, c, d]))
          = [' '] := rfl
      have hA2 : List.dropWhile isJsWs (' ' :: ("July".data ++ ' ' :: [a, b, c, d]))
          = "July".data ++ ' ' :: [a, b, c, d] := rfl
      have hword : List.takeWhile isWordChar ("July".data ++ ' ' :: [a, b, c, d])
          = "July".data := rfl
      have hdrop : List.drop
          (List.takeWhile isWordChar ("July".data ++ ' ' :: [a, b, c, d])).length
          ("July".data ++ ' ' :: [a, b, c, d]) = ' ' :: [a, b, c, d] := by
        rw [hword]
        rfl
      have hw2 : List.takeWhile isJsWs (' ' :: [a, b, c, d]) = [' '] := by
        rw [List.takeWhile_cons_of_pos (show isJsWs ' ' = true from rfl),
          takeWhile_cons_neg _ ha]
      have hr3 : List.dropWhile isJsWs (' ' :: [a, b, c, d]) = [a, b, c, d] := by
        rw [List.dropWhile_cons_of_pos (show isJsWs ' ' = true from rfl),
          dropWhile_cons_neg _ ha]
      have hnum : monthNumOf (("July".data).map asciiLower) = some ['0', '7'] := rfl
      simp only [parseMonthHeader, hA1, hA2, hword, hdrop, hw2, hr3, h1, h2, h3, h4, hnum]
      simp [hfinal]
      exact ⟨rfl, by rw [hr3]; simp [h1, h2, h3, h4]; rw [← heq]⟩
    · rw [List.cons.injEq] at hmm
      obtain ⟨hm1, hm2x⟩ := hmm
      rw [List.cons.injEq] at hm2x
      obtain ⟨hm2, _⟩ := hm2x
      subst hm1
      subst hm2
      have hfinal : String.mk ([a, b, c, d] ++ '-' :: ['0', '8']) = k := by
        cases k with
        | mk l =>
          exact congrArg String.mk (by simpa using heq.symm)
      unfold formatMonthHeader
      rw [heq]
      rw [show ([a, b, c, d, '-', '0', '8'] : List Char)
          = [a, b, c, d] ++ '-' :: ['0', '8'] from rfl]
      rw [splitChar_append_sep '-' [a, b, c, d] ['0', '8'] hndash,
        splitChar_no_sep '-' ['0', '8'] (by decide)]
      show parseMonthHeader
        ('#' :: '#' :: '#' :: ' ' :: ("August".data ++ ' ' :: [a, b, c, d])) = some k
      have hA1 : List.takeWhile isJsWs (' ' :: ("August".data ++ ' ' :: [a, b, c, d]))
          = [' '] := rfl
      have hA2 : List.dropWhile isJsWs (' ' :: ("August".data ++ ' ' :: [a, b, c, d]))
          = "August".data ++ ' ' :: [a, b, c, d] := rfl
      have hword : List.takeWhile isWordChar ("August".data ++ ' ' :: [a, b, c, d])
          = "August".data := rfl
      have hdrop : List.drop
          (List.takeWhile isWordChar ("August".data ++ ' ' :: [a, b, c, d])).length
          ("August".data ++ ' ' :: [a, b, c, d]) = ' ' :: [a, b, c, d] := by
        rw [hword]
        rfl
      have hw2 : List.takeWhile isJsWs (' ' :: [a, b, c, d]) = [' '] := by
        rw [List.takeWhile_cons_of_pos (show isJsWs ' ' = true from rfl),
          takeWhile_cons_neg _ ha]
      have hr3 : List.dropWhile isJsWs (' ' :: [a, b, c, d]) = [a, b, c, d] := by
        rw [List.dropWhile_cons_of_pos (show isJsWs ' ' = true from rfl),
          dropWhile_cons_neg _ ha]
      have hnum : monthNumOf (("August".data).map asciiLower) = some ['0', '8'] := rfl
      simp only [parseMonthHeader, hA1, hA2, hword, hdrop, hw2, hr3, h1, h2, h3, h4, hnum]
      simp [hfinal]
      exact ⟨rfl, by rw [hr3]; simp [h1, h2, h3, h4]; rw [← heq]⟩
    · rw [List.cons.injEq] at hmm
      obtain ⟨hm1, hm2x⟩ := hmm
      rw [List.cons.injEq] at hm2x
      obtain ⟨hm2, _⟩ := hm2x
      subst hm1
      subst hm2
      have hfinal : String.mk ([a, b, c, d] ++ '-' :: ['0', '9']) = k := by
        cases k with
        | mk l =>
          exact congrArg String.mk (by simpa using heq.symm)
      unfold formatMonthHeader
      rw [heq]
      rw [show ([a, b, c, d, '-', '0', '9'] : List Char)
          = [a, b, c, d] ++ '-' :: ['0', '9'] from rfl]
      rw [splitChar_append_sep '-' [a, b, c, d] ['0', '9'] hndash,
        splitChar_no_sep '-' ['0', '9'] (by decide)]
      show parseMonthHeader
        ('#' :: '#' :: '#' :: ' ' :: ("September".data ++ ' ' :: [a, b, c, d])) = some k
      have hA1 : List.takeWhile isJsWs (' ' :: ("September".data ++ ' ' :: [a, b, c, d]))
          = [' '] := rfl
      have hA2 : List.dropWhile isJsWs (' ' :: ("September".data ++ ' ' :: [a, b, c, d]))
          = "September".data ++ ' ' :: [a, b, c, d] := rfl
      have hword : List.takeWhile isWordChar ("September".data ++ ' ' :: [a, b, c, d])
          = "September".data := rfl
      have hdrop : List.drop
          (List.takeWhile isWordChar ("September".data ++ ' ' :: [a, b, c, d])).length
          ("September".data ++ ' ' :: [a, b, c, d]) = ' ' :: [a, b, c, d] := by
        rw [hword]
        rfl
      have hw2 : List.takeWhile isJsWs (' ' :: [a, b, c, d]) = [' '] := by
        rw [List.takeWhile_cons_of_pos (show isJsWs ' ' = true from rfl),
          takeWhile_cons_neg _ ha]
      have hr3 : List.dropWhile isJsWs (' ' :: [a, b, c, d]) = [a, b, c, d] := by
        rw [List.dropWhile_cons_of_pos (show isJsWs ' ' = true from rfl),
          dropWhile_cons_neg _ ha]
      have hnum : monthNumOf (("September".data).map asciiLower) = some ['0', '9'] := rfl
      simp only [parseMonthHeader, hA1, hA2, hword, hdrop, hw2, hr3, h1, h2, h3, h4, hnum]
      simp [hfinal]
      exact ⟨rfl, by rw [hr3]; simp [h1, h2, h3, h4]; rw [← heq]⟩
    · rw [List.cons.injEq] at hmm
      obtain ⟨hm1, hm2x⟩ := hmm
      rw [List.cons.injEq] at hm2x
      obtain ⟨hm2, _⟩ := hm2x
      subst hm1
      subst hm2
      have hfinal : String.mk ([a, b, c, d] ++ '-' :: ['1', '0']) = k := by
        cases k with
        | mk l =>
          exact congrArg String.mk (by simpa using heq.symm)
      unfold formatMonthHeader
      rw [heq]
      rw [show ([a, b, c, d, '-', '1', '0'] : List Char)
          = [a, b, c, d] ++ '-' :: ['1', '0'] from rfl]
      rw [splitChar_append_sep '-' [a, b, c, d] ['1', '0'] hndash,
        splitChar_no_sep '-' ['1', '0'] (by decide)]
      show parseMonthHeader
        ('#' :: '#' :: '#' :: ' ' :: ("October".data ++ ' ' :: [a, b, c, d])) = some k
      have hA1 : List.takeWhile isJsWs (' ' :: ("October".data ++ ' ' :: [a, b, c, d]))
          = [' '] := rfl
      have hA2 : List.dropWhile isJsWs (' ' :: ("October".data ++ ' ' :: [a, b, c, d]))
          = "October".data ++ ' ' :: [a, b, c, d] := rfl
      have hword : List.takeWhile isWordChar ("October".data ++ ' ' :: [a, b, c, d])
          = "October".data := rfl
      have hdrop : List.drop
          (List.takeWhile isWordChar ("October".data ++ ' ' :: [a, b, c, d])).length
          ("October".data ++ ' ' :: [a, b, c, d]) = ' ' :: [a, b, c, d] := by
        rw [hword]
        rfl
      have hw2 : List.takeWhile isJsWs (' ' :: [a, b, c, d]) = [' '] := by
        rw [List.takeWhile_cons_of_pos (show isJsWs ' ' = true from rfl),
          takeWhile_cons_neg _ ha]
      have hr3 : List.dropWhile isJsWs (' ' :: [a, b, c, d]) = [a, b, c, d] := by
        rw [List.dropWhile_cons_of_pos (show isJsWs ' ' = true from rfl),
          dropWhile_cons_neg _ ha]
      have hnum : monthNumOf (("October".data).map asciiLower) = some ['1', '0'] := rfl
      simp only [parseMonthHeader, hA1, hA2, hword, hdrop, hw2, hr3, h1, h2, h3, h4, hnum]
      simp [hfinal]
      exact ⟨rfl, by rw [hr3]; simp [h1, h2, h3, h4]; rw [← heq]⟩
    · rw [List.cons.injEq] at hmm
      obtain ⟨hm1, hm2x⟩ := hmm
      rw [List.cons.injEq] at hm2x
      obtain ⟨hm2, _⟩ := hm2x
      subst hm1
      subst hm2
      have hfinal : String.mk ([a, b, c, d] ++ '-' :: ['1', '1']) = k := by
        cases k with
        | mk l =>
          exact congrArg String.mk (by simpa using heq.symm)
      unfold formatMonthHeader
      rw [heq]
      rw [show ([a, b, c, d, '-', '1', '1'] : List Char)
          = [a, b, c, d] ++ '-' :: ['1', '1'] from rfl]
      rw [splitChar_append_sep '-' [a, b, c, d] ['1', '1'] hndash,
        splitChar_no_sep '-' ['1', '1'] (by decide)]
      show parseMonthHeader
        ('#' :: '#' :: '#' :: ' ' :: ("November".data ++ ' ' :: [a, b, c, d])) = some k
      have hA1 : List.takeWhile isJsWs (' ' :: ("November".data ++ ' ' :: [a, b, c, d]))
          = [' '] := rfl
      have hA2 : List.dropWhile isJsWs (' ' :: ("November".data ++ ' ' :: [a, b, c, d]))
          = "November".data ++ ' ' :: [a, b, c, d] := rfl
      have hword : List.takeWhile isWordChar ("November".data ++ ' ' :: [a, b, c, d])
          = "November".data := rfl
      have hdrop : List.drop
          (List.takeWhile isWordChar ("November".data ++ ' ' :: [a, b, c, d])).length
          ("November".data ++ ' ' :: [a, b, c, d]) = ' ' :: [a, b, c, d] := by
        rw [hword]
        rfl
      have hw2 : List.takeWhile isJsWs (' ' :: [a, b, c, d]) = [' '] := by
        rw [List.takeWhile_cons_of_pos (show isJsWs ' ' = true from rfl),
          takeWhile_cons_neg _ ha]
      have hr3 : List.dropWhile isJsWs (' ' :: [a, b, c, d]) = [a, b, c, d] := by
        rw [List.dropWhile_cons_of_pos (show isJsWs ' ' = true from rfl),
          dropWhile_cons_neg _ ha]
      have hnum : monthNumOf (("November".data).map asciiLower) = some ['1', '1'] := rfl
      simp only [parseMonthHeader, hA1, hA2, hword, hdrop, hw2, hr3, h1, h2, h3, h4, hnum]
      simp [hfinal]
      exact ⟨rfl, by rw [hr3]; simp [h1, h2, h3, h4]; rw [← heq]⟩
    · rw [List.cons.injEq] at hmm
      obtain ⟨hm1, hm2x⟩ := hmm
      rw [List.cons.injEq] at hm2x
      obtain ⟨hm2, _⟩ := hm2x
      subst hm1
      subst hm2
      have hfinal : String.mk ([a, b, c, d] ++ '-' :: ['1', '2']) = k := by
        cases k with
        | mk l =>
          exact congrArg String.mk (by simpa using heq.symm)
      unfold formatMonthHeader
      rw [heq]
      rw [show ([a, b, c, d, '-', '1', '2'] : List Char)
          = [a, b, c, d] ++ '-' :: ['1', '2'] from rfl]
      rw [splitChar_append_sep '-' [a, b, c, d] ['1', '2'] hndash,
        splitChar_no_sep '-' ['1', '2'] (by decide)]
      show parseMonthHeader
        ('#' :: '#' :: '#' :: ' ' :: ("December".data ++ ' ' :: [a, b, c, d])) = some k
      have hA1 : List.takeWhile isJsWs (' ' :: ("December".data ++ ' ' :: [a, b, c, d]))
          = [' '] := rfl
      have hA2 : List.dropWhile isJsWs (' ' :: ("December".data ++ ' ' :: [a, b, c, d]))
          = "December".data ++ ' ' :: [a, b, c, d] := rfl
      have hword : List.takeWhile isWordChar ("December".data ++ ' ' :: [a, b, c, d])
          = "December".data := rfl
      have hdrop : List.drop
          (List.takeWhile isWordChar ("December".data ++ ' ' :: [a, b, c, d])).length
          ("December".data ++ ' ' :: [a, b, c, d]) = ' ' :: [a, b, c, d] := by
        rw [hword]
        rfl
      have hw2 : List.takeWhile isJsWs (' ' :: [a, b, c, d]) = [' '] := by
        rw [List.takeWhile_cons_of_pos (show isJsWs ' ' = true from rfl),
          takeWhile_cons_neg _ ha]
      have hr3 : List.dropWhile isJsWs (' ' :: [a, b, c, d]) = [a, b, c, d] := by
        rw [List.dropWhile_cons_of_pos (show isJsWs ' ' = true from rfl),
          dropWhile_cons_neg _ ha]
      have hnum : monthNumOf (("December".data).map asciiLower) = some ['1', '2'] := rfl
      simp only [parseMonthHeader, hA1, hA2, hword, hdrop, hw2, hr3, h1, h2, h3, h4, hnum]
      simp [hfinal]
      exact ⟨rfl, by rw [hr3]; simp [h1, h2, h3, h4]; rw [← heq]⟩
  · cases hk
/-- Base case of the goal-line repetition: the empty capture. -/
theorem goalRep_nil : goalRep [] = [] := by
  unfold goalRep
  rfl

theorem goalRep_step_end (g : List Char) (hgne : g ≠ [])
    (hghead : ∀ c, g.head? = some c → isJsWs c = false) (hgdot : g.all isDotChar = true) :
    goalRep (' ' :: ' ' :: '-' :: ' ' :: g) = ' ' :: ' ' :: '-' :: ' ' :: g := by
  obtain ⟨c0, cs0, hg0⟩ : ∃ c0 cs0, g = c0 :: cs0 := by
    cases g with
    | nil => exact absurd rfl hgne
    | cons x xs => exact ⟨x, xs, rfl⟩
  subst hg0
  have hc0 : isJsWs c0 = false := hghead c0 rfl
  have hc0d : isDotChar c0 = true := List.all_eq_true.mp hgdot c0 (by simp)
  have e0 : List.takeWhile isJsWs (' ' :: ' ' :: '-' :: ' ' :: c0 :: cs0) = [' ', ' '] := by
    rw [List.takeWhile_cons_of_pos (show isJsWs ' ' = true from rfl),
      List.takeWhile_cons_of_pos (show isJsWs ' ' = true from rfl),
      takeWhile_cons_neg _ (show isJsWs '-' = false from rfl)]
  have e1 : List.dropWhile isJsWs (' ' :: ' ' :: '-' :: ' ' :: c0 :: cs0)
      = '-' :: ' ' :: c0 :: cs0 := by
    rw [List.dropWhile_cons_of_pos (show isJsWs ' ' = true from rfl),
      List.dropWhile_cons_of_pos (show isJsWs ' ' = true from rfl),
      dropWhile_cons_neg _ (show isJsWs '-' = false from rfl)]
  have e3 : List.takeWhile isJsWs (' ' :: c0 :: cs0) = [' '] := by
    rw [List.takeWhile_cons_of_pos (show isJsWs ' ' = true from rfl),
      takeWhile_cons_neg _ hc0]
  have e4 : List.dropWhile isJsWs (' ' :: c0 :: cs0) = c0 :: cs0 := by
    rw [List.dropWhile_cons_of_pos (show isJsWs ' ' = true from rfl),
      dropWhile_cons_neg _ hc0]
  have e5 : List.takeWhile isDotChar (c0 :: cs0) = c0 :: cs0 := by
    have h2 := takeWhile_append_all (c0 :: cs0) [] hgdot
    simpa using h2
  have e6 : List.drop (c0 :: cs0).length (c0 :: cs0) = [] := List.drop_length _
  unfold goalRep
  rw [dif_neg (by rw [e0]; simp)]
  split
  case _ r2 hm =>
    rw [e1] at hm
    injection hm with h1 h2
    subst h2
    rw [dif_neg (by rw [e3]; simp)]
    rw [dif_neg (by rw [e4, e5]; simp)]
    simp only [e3, e4, e5]
    split
    case _ r5 hr =>
      rw [e4, e5, e6] at hr
      exact absurd hr (by simp)
    next hno =>
      rw [e4, e5, e6, goalRep_nil, e0]
      simp
  next hno =>
    exact absurd (hno _ e1) id

theorem goalRep_step_nl (g more : List Char) (hgne : g ≠ [])
    (hghead : ∀ c, g.head? = some c → isJsWs c = false) (hgdot : g.all isDotChar = true) :
    goalRep (' ' :: ' ' :: '-' :: ' ' :: (g ++ '\n' :: more))
      = ' ' :: ' ' :: '-' :: ' ' :: (g ++ '\n' :: goalRep more) := by
  obtain ⟨c0, cs0, hg0⟩ : ∃ c0 cs0, g = c0 :: cs0 := by
    cases g with
    | nil => exact absurd rfl hgne
    | cons x xs => exact ⟨x, xs, rfl⟩
  subst hg0
  have hc0 : isJsWs c0 = false := hghead c0 rfl
  rw [List.cons_append]
  have e0 : List.takeWhile isJsWs (' ' :: ' ' :: '-' :: ' ' :: c0 :: (cs0 ++ '\n' :: more))
      = [' ', ' '] := by
    rw [List.takeWhile_cons_of_pos (show isJsWs ' ' = true from rfl),
      List.takeWhile_cons_of_pos (show isJsWs ' ' = true from rfl),
      takeWhile_cons_neg _ (show isJsWs '-' = false from rfl)]
  have e1 : List.dropWhile isJsWs (' ' :: ' ' :: '-' :: ' ' :: c0 :: (cs0 ++ '\n' :: more))
      = '-' :: ' ' :: c0 :: (cs0 ++ '\n' :: more) := by
    rw [List.dropWhile_cons_of_pos (show isJsWs ' ' = true from rfl),
      List.dropWhile_cons_of_pos (show isJsWs ' ' = true from rfl),
      dropWhile_cons_neg _ (show isJsWs '-' = false from rfl)]
  have e3 : List.takeWhile isJsWs (' ' :: c0 :: (cs0 ++ '\n' :: more)) = [' '] := by
    rw [List.takeWhile_cons_of_pos (show isJsWs ' ' = true from rfl),
      takeWhile_cons_neg _ hc0]
  have e4 : List.dropWhile isJsWs (' ' :: c0 :: (cs0 ++ '\n' :: more))
      = c0 :: (cs0 ++ '\n' :: more) := by
    rw [List.dropWhile_cons_of_pos (show isJsWs ' ' = true from rfl),
      dropWhile_cons_neg _ hc0]
  have e5 : List.takeWhile isDotChar (c0 :: (cs0 ++ '\n' :: more)) = c0 :: cs0 := by
    have h2 := takeWhile_append_all (c0 :: cs0) ('\n' :: more) hgdot
    rw [List.cons_append] at h2
    rw [h2, takeWhile_cons_neg _ (show isDotChar '\n' = false from rfl), List.append_nil]
  have e6 : List.drop (c0 :: cs0).length (c0 :: (cs0 ++ '\n' :: more)) = '\n' :: more := by
    rw [← List.cons_append]
    exact List.drop_left _ _
  generalize hG : goalRep more = G
  unfold goalRep
  rw [dif_neg (by rw [e0]; simp)]
  split
  case _ r2 hm =>
    rw [e1] at hm
    injection hm with h1 h2
    subst h2
    rw [dif_neg (by rw [e3]; simp)]
    rw [dif_neg (by rw [e4, e5]; simp)]
    simp only [e3, e4, e5]
    split
    case _ r5 hr =>
      rw [e4, e5, e6] at hr
      injection hr with h3 h4
      subst h4
      rw [e0, hG]
      simp
    next hno =>
      exact absurd (hno more (by rw [e4, e5, e6])) id
  next hno =>
    exact absurd (hno _ e1) id

theorem goalRep_full (gs : List (List Char))
    (h : ∀ g ∈ gs, g ≠ [] ∧ (∀ c, g.head? = some c → isJsWs c = false)
        ∧ g.all isDotChar = true) :
    goalRep (joinLines (gs.map (fun g => "  - ".data ++ g)))
      = joinLines (gs.map (fun g => "  - ".data ++ g)) := by
  induction gs with
  | nil => exact goalRep_nil
  | cons g rest ih =>
    obtain ⟨hgne, hghead, hgdot⟩ := h g (by simp)
    cases rest with
    | nil => exact goalRep_step_end g hgne hghead hgdot
    | cons r rs =>
      have hmore := ih (fun x hx => h x (List.mem_cons_of_mem _ hx))
      have hstep := goalRep_step_nl g
        (joinLines ((r :: rs).map (fun x => "  - ".data ++ x))) hgne hghead hgdot
      rw [hmore] at hstep
      exact hstep

/-- The goal block of the serialized frontmatter. -/
def goalsLines (d : FocusData) : List (List Char) :=
  if d.goals.isEmpty then ["goals: []".data]
  else "goals:".data :: d.goals.map (fun g => "  - ".data ++ g.title.data)

/-- The serialized lines following the closing frontmatter
delimiter. -/
def bodyLines (d : FocusData) : List (List Char) :=
  (if d.habits.isEmpty then []
   else ("## Daily Habits".data :: d.habits.map serializeHabit) ++ [[]])
  ++ "## Immediate".data :: d.tasks.immediate.map (serializeTask · false) ++ [[]]
  ++ "## This week".data :: d.tasks.thisWeek.map (serializeTask · false) ++ [[]]
  ++ "## Unscheduled".data :: d.tasks.unscheduled.map (serializeTask · false) ++ [[]]
  ++ (if ((stableSortBy strCmp (d.completedTasks.map (fun p => p.1))).reverse).isEmpty then []
      else "## Completed".data :: [] ::
        (((stableSortBy strCmp (d.completedTasks.map (fun p => p.1))).reverse).map
          (monthBlock d.completedTasks)).flatten)

/-- The serialized lines split at the frontmatter delimiters. -/
theorem serializeFileLines_decomp (d : FocusData) :
    serializeFileLines d
      = "---".data :: ("weekOf: ".data ++ d.weekOf.data)
          :: ("habitResetDate: ".data ++ d.habitResetDate.data)
          :: (goalsLines d ++ "---".data :: [] :: bodyLines d) := by
  unfold serializeFileLines goalsLines bodyLines
  simp [List.append_assoc]

/-- The body always holds the Immediate header line. -/
theorem bodyLines_ne_nil (d : FocusData) : bodyLines d ≠ [] := by
  unfold bodyLines
  intro h
  simp only [List.append_eq_nil] at h
  exact List.cons_ne_nil _ _ h.1.1.1.1.1.1.2

/-- A successful key-date attempt on a serialized date line. -/
theorem keyDateAttempt_succ (key : List Char) (v : String) (rest : List Char)
    (hv : dateShaped v = true) :
    keyDateAttempt key (key ++ ' ' :: (v.data ++ rest)) = some v.data := by
  unfold dateShaped at hv
  split at hv
  · rename_i a b c d e f g h heq
    simp only [Bool.and_eq_true] at hv
    obtain ⟨⟨⟨⟨⟨⟨⟨h1, h2⟩, h3⟩, h4⟩, h5⟩, h6⟩, h7⟩, h8⟩ := hv
    have ha : isJsWs a = false := ws_of_digit h1
    rw [heq]
    unfold keyDateAttempt
    rw [if_pos (isPrefixOf_append_self key _)]
    have hdk : (key ++ ' ' :: ([a, b, c, d, '-', e, f, '-', g, h] ++ rest)).drop key.length
        = ' ' :: ([a, b, c, d, '-', e, f, '-', g, h] ++ rest) := List.drop_left _ _
    rw [hdk, List.dropWhile_cons_of_pos (show isJsWs ' ' = true from rfl)]
    rw [show ([a, b, c, d, '-', e, f, '-', g, h] : List Char) ++ rest
        = a :: b :: c :: d :: '-' :: e :: f :: '-' :: g :: h :: rest from rfl]
    rw [dropWhile_cons_neg _ ha]
    simp [h1, h2, h3, h4, h5, h6, h7, h8]
  · cases hv

/-- The delimiter guard ignores a newline-free prefix. -/
theorem nlGuard_append_no_nl (a rest : List Char) (h : ('\n' : Char) ∉ a) :
    nlGuard (a ++ rest) = nlGuard rest := by
  induction a with
  | nil => rfl
  | cons c cs ih =>
    have hc : c ≠ '\n' := fun he => h (by simp [he])
    have hstep : nlGuard (c :: (cs ++ rest))
        = ((if c = '\n' then
              (match cs ++ rest with
               | c2 :: _ => decide (c2 ≠ '-')
               | [] => false)
            else true) && nlGuard (cs ++ rest)) := rfl
    rw [List.cons_append, hstep, if_neg hc, Bool.true_and]
    exact ih (fun hm => h (List.mem_cons_of_mem c hm))

/-- A newline-free string passes the delimiter guard. -/
theorem nlGuard_no_nl (a : List Char) (h : ('\n' : Char) ∉ a) : nlGuard a = true := by
  have h2 := nlGuard_append_no_nl a [] h
  rwa [List.append_nil] at h2

/-- A newline followed by a non-dash character passes one guard
step. -/
theorem nlGuard_cons_nl (c2 : Char) (r : List Char) (h : c2 ≠ '-') :
    nlGuard ('\n' :: c2 :: r) = nlGuard (c2 :: r) := by
  have hstep : nlGuard ('\n' :: c2 :: r)
      = ((if ('\n' : Char) = '\n' then
            (match c2 :: r with
             | c3 :: _ => decide (c3 ≠ '-')
             | [] => false)
          else true) && nlGuard (c2 :: r)) := rfl
  rw [hstep, if_pos rfl]
  simp [h]

/-- Characters of a shaped date are digits or the dash. -/
theorem dateShaped_chars {v : String} (hv : dateShaped v = true) :
    ∀ c ∈ v.data, c.isDigit = true ∨ c = '-' := by
  unfold dateShaped at hv
  split at hv
  · rename_i a b c d e f g h heq
    simp only [Bool.and_eq_true] at hv
    obtain ⟨⟨⟨⟨⟨⟨⟨h1, h2⟩, h3⟩, h4⟩, h5⟩, h6⟩, h7⟩, h8⟩ := hv
    intro x hx
    rw [heq] at hx
    simp only [List.mem_cons, List.not_mem_nil, or_false] at hx
    rcases hx with rfl | rfl | rfl | rfl | rfl | rfl | rfl | rfl | rfl | rfl <;>
      simp [h1, h2, h3, h4, h5, h6, h7, h8]
  · cases hv

/-- A shaped date holds no newline. -/
theorem dateShaped_no_nl {v : String} (hv : dateShaped v = true) : ('\n' : Char) ∉ v.data := by
  intro hm
  rcases dateShaped_chars hv '\n' hm with h | h
  · exact absurd h (by decide)
  · exact absurd h (by decide)

/-- A shaped date does not hold a given letter. -/
theorem dateShaped_no_alpha {v : String} (hv : dateShaped v = true) (c : Char)
    (hd : c.isDigit = false) (hc : c ≠ '-') : c ∉ v.data := by
  intro hm
  rcases dateShaped_chars hv c hm with h | h
  · rw [hd] at h; cases h
  · exact hc h

/-- A scan succeeds immediately when the attempt succeeds at the
start. -/
theorem scanFirst_of_head {α : Type} (attempt : List Char → Option α) (s : List Char) (v : α)
    (h : attempt s = some v) : scanFirst attempt s = some v := by
  cases s with
  | nil => exact h
  | cons c cs => rw [scanFirst, h]

/-- The delimiter guard holds on joined lines without newlines whose
later lines start with a character other than a dash. -/
theorem nlGuard_joinLines : ∀ (ls : List (List Char)),
    (∀ l ∈ ls, ('\n' : Char) ∉ l) →
    (∀ l ∈ ls.tail, ∃ c cs, l = c :: cs ∧ c ≠ '-') →
    nlGuard (joinLines ls) = true
  | [], _, _ => rfl
  | [l], h1, _ => nlGuard_no_nl l (h1 l (by simp))
  | l :: l2 :: rest, h1, h2 => by
    obtain ⟨c, cs, hl2, hc⟩ := h2 l2 (by simp)
    have hjoin : ∃ m, joinLines (l2 :: rest) = c :: m := by
      cases rest with
      | nil => exact ⟨cs, by rw [hl2]; rfl⟩
      | cons r rs =>
        refine ⟨cs ++ '\n' :: joinLines (r :: rs), ?_⟩
        rw [joinLines, hl2, List.cons_append]
        exact List.cons_ne_nil r rs
    obtain ⟨m, hm⟩ := hjoin
    have hrec : nlGuard (joinLines (l2 :: rest)) = true :=
      nlGuard_joinLines (l2 :: rest) (fun x hx => h1 x (List.mem_cons_of_mem l hx))
        (fun x hx => h2 x (List.mem_cons_of_mem l2 hx))
    have hstep : joinLines (l :: l2 :: rest) = l ++ '\n' :: joinLines (l2 :: rest) := rfl
    rw [hstep, nlGuard_append_no_nl l _ (h1 l (by simp)), hm, nlGuard_cons_nl c m hc, ← hm]
    exact hrec

/-- The goal-block attempt fails on a subject that does not start with
the letter g. -/
theorem goalsAttempt_gate (t : List Char) (ht : ¬ t.head? = some 'g') :
    (if "goals:\n".data.isPrefixOf t then some (goalRep (t.drop 7)) else none) = none := by
  rw [if_neg (by
    rw [isPrefixOf_false_of_head "goals:\n".data t 'g' rfl ht]
    exact Bool.false_ne_true)]

/-- A trimmed string is nonempty. -/
theorem trimShaped_ne_nil {s : List Char} (h : trimShaped s = true) : s ≠ [] := by
  intro he
  subst he
  cases h

/-- A line-terminator-free string holds no newline. -/
theorem no_nl_of_dot {s : List Char} (h : s.all isDotChar = true) : ('\n' : Char) ∉ s := by
  intro hm
  have h2 := List.all_eq_true.mp h _ hm
  exact absurd h2 (by decide)

/-- Trimming ignores a leading all-whitespace chunk. -/
theorem jsTrim_dropFront (a s : List Char) (ha : a.all isJsWs = true) :
    jsTrim (a ++ s) = jsTrim s := by
  unfold jsTrim
  rw [dropWhile_append_all a s ha]

/-- Trimming a serialized goal line keeps the dash group and the
title. -/
theorem jsTrim_goalLine (t : List Char) (hts : trimShaped t = true) :
    jsTrim ("  - ".data ++ t) = '-' :: ' ' :: t := by
  rw [show "  - ".data ++ t = [' ', ' '] ++ ('-' :: ' ' :: t) from rfl,
    jsTrim_dropFront [' ', ' '] _ (by decide)]
  apply jsTrim_eq_self_of (List.cons_ne_nil _ _)
  · intro c hc
    have hcv : '-' = c := by simpa using hc
    subst hcv
    rfl
  · intro c hc
    rw [getLast?_cons_of_ne_nil _ (List.cons_ne_nil _ _),
      getLast?_cons_of_ne_nil _ (trimShaped_ne_nil hts)] at hc
    exact trimShaped_last hts c hc

/-- Stripping the dash group off a serialized goal line leaves the
title. -/
theorem stripDash_goalLine (t : List Char) (hts : trimShaped t = true) :
    stripDash ("  - ".data ++ t) = t := by
  obtain ⟨c0, cs0, rfl⟩ : ∃ c0 cs0, t = c0 :: cs0 := by
    cases t with
    | nil => exact absurd rfl (trimShaped_ne_nil hts)
    | cons x xs => exact ⟨x, xs, rfl⟩
  have hc0 : isJsWs c0 = false := trimShaped_head hts c0 rfl
  unfold stripDash
  rw [show "  - ".data ++ (c0 :: cs0) = ' ' :: ' ' :: '-' :: ' ' :: c0 :: cs0 from rfl]
  have e1 : List.dropWhile isJsWs (' ' :: ' ' :: '-' :: ' ' :: c0 :: cs0)
      = '-' :: ' ' :: c0 :: cs0 := by
    rw [List.dropWhile_cons_of_pos (show isJsWs ' ' = true from rfl),
      List.dropWhile_cons_of_pos (show isJsWs ' ' = true from rfl),
      dropWhile_cons_neg _ (show isJsWs '-' = false from rfl)]
  rw [e1]
  show List.dropWhile isJsWs (' ' :: c0 :: cs0) = c0 :: cs0
  rw [List.dropWhile_cons_of_pos (show isJsWs ' ' = true from rfl),
    dropWhile_cons_neg _ hc0]

/-- Every serialized goal line survives the nonemptiness filter. -/
theorem goalsFilter_eval (gs : List WeeklyGoal) (h : gs.all goalOk = true) :
    (gs.map (fun g => "  - ".data ++ g.title.data)).filter (fun l => !(jsTrim l).isEmpty)
      = gs.map (fun g => "  - ".data ++ g.title.data) := by
  induction gs with
  | nil => rfl
  | cons g rest ih =>
    rw [List.all_cons, Bool.and_eq_true] at h
    have hts : trimShaped g.title.data = true := by
      have h2 : (trimShaped g.title.data && g.title.data.all isDotChar) = true := h.1
      rw [Bool.and_eq_true] at h2
      exact h2.1
    rw [List.map_cons, List.filter_cons,
      if_pos (by rw [jsTrim_goalLine _ hts]; simp), ih h.2]

/-- Decoding the serialized goal lines rebuilds the goal titles with
fresh ids. -/
theorem goalsMap_eval (ids : Nat → String) (gs : List WeeklyGoal) (n : Nat)
    (h : gs.all goalOk = true) :
    ((gs.map (fun g => "  - ".data ++ g.title.data)).enumFrom n).map
        (fun p => (⟨ids p.1, String.mk (jsTrim (stripDash p.2))⟩ : WeeklyGoal))
      = (gs.enumFrom n).map (fun p => (⟨ids p.1, p.2.title⟩ : WeeklyGoal)) := by
  induction gs generalizing n with
  | nil => rfl
  | cons g rest ih =>
    rw [List.all_cons, Bool.and_eq_true] at h
    have hts : trimShaped g.title.data = true := by
      have h2 : (trimShaped g.title.data && g.title.data.all isDotChar) = true := h.1
      rw [Bool.and_eq_true] at h2
      exact h2.1
    rw [List.map_cons, List.enumFrom_cons, List.enumFrom_cons, List.map_cons, List.map_cons]
    rw [stripDash_goalLine _ hts, jsTrim_of_trimShaped hts]
    rw [ih (n + 1) h.2]

/-- The goal block of the encoder is never empty. -/
theorem goalsLines_ne_nil (d : FocusData) : goalsLines d ≠ [] := by
  unfold goalsLines
  by_cases hge : d.goals.isEmpty = true
  · rw [if_pos hge]
    exact List.cons_ne_nil _ _
  · rw [if_neg hge]
    exact List.cons_ne_nil _ _

/-- The goal-line repetition captures exactly the serialized goal
block. -/
theorem goalRep_goals (gs : List WeeklyGoal) (h : gs.all goalOk = true) :
    goalRep (joinLines (gs.map (fun g => "  - ".data ++ g.title.data)))
      = joinLines (gs.map (fun g => "  - ".data ++ g.title.data)) := by
  have hprops : ∀ t ∈ gs.map (fun g => g.title.data),
      t ≠ [] ∧ (∀ c, t.head? = some c → isJsWs c = false) ∧ t.all isDotChar = true := by
    intro t ht
    rw [List.mem_map] at ht
    obtain ⟨g, hgmem, rfl⟩ := ht
    have hok : (trimShaped g.title.data && g.title.data.all isDotChar) = true :=
      List.all_eq_true.mp h g hgmem
    rw [Bool.and_eq_true] at hok
    exact ⟨trimShaped_ne_nil hok.1, trimShaped_head hok.1, hok.2⟩
  have hfull := goalRep_full (gs.map (fun g => g.title.data)) hprops
  simpa [List.map_map, Function.comp] using hfull

/-- Goal decode over the zero-based enumeration. -/
theorem goalsMap_eval0 (ids : Nat → String) (gs : List WeeklyGoal) (h : gs.all goalOk = true) :
    ((gs.map (fun g => "  - ".data ++ g.title.data)).enum).map
        (fun p => (⟨ids p.1, String.mk (jsTrim (stripDash p.2))⟩ : WeeklyGoal))
      = gs.enum.map (fun p => (⟨ids p.1, p.2.title⟩ : WeeklyGoal)) :=
  goalsMap_eval ids gs 0 h

/-- Decoding the frontmatter of a serialized document recovers the two
dates, the renumbered goals and the body after the delimiter. -/
theorem parseFrontmatter_serialized (ids : Nat → String) (today : String) (d : FocusData)
    (hw : dateShaped d.weekOf = true) (hh : dateShaped d.habitResetDate = true)
    (hg : d.goals.all goalOk = true) :
    parseFrontmatter ids today (joinLines (serializeFileLines d))
      = ⟨d.weekOf, d.habitResetDate,
         d.goals.enum.map (fun p => (⟨ids p.1, p.2.title⟩ : WeeklyGoal)),
         '\n' :: '\n' :: joinLines (bodyLines d), d.goals.length⟩ := by
  have hGLne := goalsLines_ne_nil d
  have hBne := bodyLines_ne_nil d
  have hJB : joinLines ([] :: bodyLines d) = '\n' :: joinLines (bodyLines d) := by
    rw [show ([] :: bodyLines d : List (List Char)) = [[]] ++ bodyLines d from rfl,
      joinLines_append _ _ (List.cons_ne_nil _ _) hBne]
    rfl
  have hJH : joinLines (("habitResetDate: ".data ++ d.habitResetDate.data) :: goalsLines d)
      = ("habitResetDate: ".data ++ d.habitResetDate.data)
        ++ '\n' :: joinLines (goalsLines d) := by
    rw [show (("habitResetDate: ".data ++ d.habitResetDate.data) :: goalsLines d)
        = [("habitResetDate: ".data ++ d.habitResetDate.data)] ++ goalsLines d from rfl,
      joinLines_append _ _ (List.cons_ne_nil _ _) hGLne]
    rfl
  have hJA : joinLines (("weekOf: ".data ++ d.weekOf.data)
      :: ("habitResetDate: ".data ++ d.habitResetDate.data) :: goalsLines d)
      = ("weekOf: ".data ++ d.weekOf.data)
        ++ '\n' :: (("habitResetDate: ".data ++ d.habitResetDate.data)
          ++ '\n' :: joinLines (goalsLines d)) := by
    rw [show joinLines (("weekOf: ".data ++ d.weekOf.data)
        :: ("habitResetDate: ".data ++ d.habitResetDate.data) :: goalsLines d)
        = ("weekOf: ".data ++ d.weekOf.data)
          ++ '\n' :: joinLines (("habitResetDate: ".data ++ d.habitResetDate.data)
            :: goalsLines d) from rfl, hJH]
  have hContent : joinLines (serializeFileLines d)
      = "---\n".data
        ++ (joinLines (("weekOf: ".data ++ d.weekOf.data)
              :: ("habitResetDate: ".data ++ d.habitResetDate.data) :: goalsLines d)
            ++ '\n' :: '-' :: '-' :: '-' :: ('\n' :: '\n' :: joinLines (bodyLines d))) := by
    rw [serializeFileLines_decomp]
    have hGZ : goalsLines d ++ "---".data :: [] :: bodyLines d ≠ [] := by
      intro hx
      exact List.cons_ne_nil _ _ (List.append_eq_nil.mp hx).2
    have h1 : joinLines (("habitResetDate: ".data ++ d.habitResetDate.data)
        :: (goalsLines d ++ "---".data :: [] :: bodyLines d))
        = ("habitResetDate: ".data ++ d.habitResetDate.data)
          ++ '\n' :: joinLines (goalsLines d ++ "---".data :: [] :: bodyLines d) := by
      rw [show (("habitResetDate: ".data ++ d.habitResetDate.data)
          :: (goalsLines d ++ "---".data :: [] :: bodyLines d))
          = [("habitResetDate: ".data ++ d.habitResetDate.data)]
            ++ (goalsLines d ++ "---".data :: [] :: bodyLines d) from rfl,
        joinLines_append _ _ (List.cons_ne_nil _ _) hGZ]
      rfl
    have h2 : joinLines (goalsLines d ++ "---".data :: [] :: bodyLines d)
        = joinLines (goalsLines d)
          ++ '\n' :: ("---".data ++ '\n' :: ('\n' :: joinLines (bodyLines d))) := by
      rw [joinLines_append _ _ hGLne (List.cons_ne_nil _ _),
        show joinLines ("---".data :: [] :: bodyLines d)
          = "---".data ++ '\n' :: joinLines ([] :: bodyLines d) from rfl, hJB]
    rw [show joinLines ("---".data :: ("weekOf: ".data ++ d.weekOf.data)
        :: ("habitResetDate: ".data ++ d.habitResetDate.data)
        :: (goalsLines d ++ "---".data :: [] :: bodyLines d))
        = "---".data ++ '\n' :: (("weekOf: ".data ++ d.weekOf.data)
          ++ '\n' :: joinLines (("habitResetDate: ".data ++ d.habitResetDate.data)
            :: (goalsLines d ++ "---".data :: [] :: bodyLines d))) from rfl, h1, h2, hJA]
    simp [List.append_assoc]
  have hfmW : scanFirst (keyDateAttempt "weekOf:".data)
      (joinLines (("weekOf: ".data ++ d.weekOf.data)
        :: ("habitResetDate: ".data ++ d.habitResetDate.data) :: goalsLines d))
      = some d.weekOf.data := by
    apply scanFirst_of_head
    rw [show joinLines (("weekOf: ".data ++ d.weekOf.data)
        :: ("habitResetDate: ".data ++ d.habitResetDate.data) :: goalsLines d)
        = "weekOf:".data ++ ' ' :: (d.weekOf.data
          ++ '\n' :: joinLines (("habitResetDate: ".data ++ d.habitResetDate.data)
            :: goalsLines d)) from by
      rw [show joinLines (("weekOf: ".data ++ d.weekOf.data)
          :: ("habitResetDate: ".data ++ d.habitResetDate.data) :: goalsLines d)
          = ("weekOf: ".data ++ d.weekOf.data)
            ++ '\n' :: joinLines (("habitResetDate: ".data ++ d.habitResetDate.data)
              :: goalsLines d) from rfl,
        show ("weekOf: ".data : List Char) = "weekOf:".data ++ [' '] from rfl]
      simp [List.append_assoc]]
    exact keyDateAttempt_succ _ _ _ hw
  have hhpre : ('h' : Char) ∉ ("weekOf: ".data ++ d.weekOf.data) ++ ['\n'] :=
    not_mem_append2 (not_mem_append2 (by decide)
      (dateShaped_no_alpha hw 'h' (by decide) (by decide))) (by decide)
  have hfmH : scanFirst (keyDateAttempt "habitResetDate:".data)
      (joinLines (("weekOf: ".data ++ d.weekOf.data)
        :: ("habitResetDate: ".data ++ d.habitResetDate.data) :: goalsLines d))
      = some d.habitResetDate.data := by
    rw [hJA,
      show ("weekOf: ".data ++ d.weekOf.data)
          ++ '\n' :: (("habitResetDate: ".data ++ d.habitResetDate.data)
            ++ '\n' :: joinLines (goalsLines d))
        = (("weekOf: ".data ++ d.weekOf.data) ++ ['\n'])
          ++ ("habitResetDate:".data
            ++ ' ' :: (d.habitResetDate.data ++ '\n' :: joinLines (goalsLines d))) from by
        rw [show ("habitResetDate: ".data : List Char)
            = "habitResetDate:".data ++ [' '] from rfl]
        simp [List.append_assoc],
      scanFirst_skip_head _ 'h' (fun t ht => keyDateAttempt_gate "habitResetDate:".data t 'h' rfl ht) _ _ hhpre]
    apply scanFirst_of_head
    exact keyDateAttempt_succ _ _ _ hh
  have hgpre : ('g' : Char) ∉ (("weekOf: ".data ++ d.weekOf.data) ++ ['\n'])
      ++ (("habitResetDate: ".data ++ d.habitResetDate.data) ++ ['\n']) :=
    not_mem_append2 (not_mem_append2 (not_mem_append2 (by decide)
        (dateShaped_no_alpha hw 'g' (by decide) (by decide))) (by decide))
      (not_mem_append2 (not_mem_append2 (by decide)
        (dateShaped_no_alpha hh 'g' (by decide) (by decide))) (by decide))
  have hfmGpre : joinLines (("weekOf: ".data ++ d.weekOf.data)
      :: ("habitResetDate: ".data ++ d.habitResetDate.data) :: goalsLines d)
      = ((("weekOf: ".data ++ d.weekOf.data) ++ ['\n'])
          ++ (("habitResetDate: ".data ++ d.habitResetDate.data) ++ ['\n']))
        ++ joinLines (goalsLines d) := by
    rw [hJA]
    simp [List.append_assoc]
  have hlineW : ('\n' : Char) ∉ "weekOf: ".data ++ d.weekOf.data :=
    not_mem_append2 (by decide) (dateShaped_no_nl hw)
  have hlineH : ('\n' : Char) ∉ "habitResetDate: ".data ++ d.habitResetDate.data :=
    not_mem_append2 (by decide) (dateShaped_no_nl hh)
  have hheadH : ∃ c cs, "habitResetDate: ".data ++ d.habitResetDate.data = c :: cs ∧ c ≠ '-' :=
    ⟨'h', "abitResetDate: ".data ++ d.habitResetDate.data, rfl, by decide⟩
  by_cases hge : d.goals.isEmpty = true
  · have hgnil : d.goals = [] := by
      cases hgl : d.goals with
      | nil => rfl
      | cons x xs => rw [hgl] at hge; cases hge
    have hGL : goalsLines d = ["goals: []".data] := by
      unfold goalsLines
      rw [if_pos hge]
    have hguard : nlGuard (joinLines (("weekOf: ".data ++ d.weekOf.data)
        :: ("habitResetDate: ".data ++ d.habitResetDate.data) :: goalsLines d)) = true := by
      apply nlGuard_joinLines
      · intro l hl
        simp only [List.mem_cons] at hl
        rcases hl with rfl | rfl | h1
        · exact hlineW
        · exact hlineH
        · rw [hGL] at h1
          simp only [List.mem_singleton] at h1
          subst h1
          decide
      · intro l hl
        simp only [List.tail_cons, List.mem_cons] at hl
        rcases hl with rfl | h1
        · exact hheadH
        · rw [hGL] at h1
          simp only [List.mem_singleton] at h1
          subst h1
          exact ⟨'g', "oals: []".data, rfl, by decide⟩
    have hfmG : scanFirst (fun s => if "goals:\n".data.isPrefixOf s
          then some (goalRep (s.drop 7)) else none)
        (joinLines (("weekOf: ".data ++ d.weekOf.data)
          :: ("habitResetDate: ".data ++ d.habitResetDate.data) :: goalsLines d)) = none := by
      rw [hfmGpre, hGL,
        show joinLines (["goals: []".data]) = "goals: []".data from rfl,
        scanFirst_skip_head _ 'g' (fun t ht => goalsAttempt_gate t ht) _ _ hgpre]
      rfl
    unfold parseFrontmatter
    rw [hContent, if_pos (isPrefixOf_append_self _ _)]
    rw [show ("---\n".data
        ++ (joinLines (("weekOf: ".data ++ d.weekOf.data)
              :: ("habitResetDate: ".data ++ d.habitResetDate.data) :: goalsLines d)
            ++ '\n' :: '-' :: '-' :: '-' :: ('\n' :: '\n' :: joinLines (bodyLines d)))).drop 4
      = joinLines (("weekOf: ".data ++ d.weekOf.data)
            :: ("habitResetDate: ".data ++ d.habitResetDate.data) :: goalsLines d)
          ++ '\n' :: '-' :: '-' :: '-' :: ('\n' :: '\n' :: joinLines (bodyLines d))
      from List.drop_left ("---\n".data) _]
    rw [show ("\n---".data : List Char) = ['\n', '-', '-', '-'] from rfl,
      splitFirst_nl _ _ hguard]
    simp only [hfmW, hfmH, hfmG, hgnil]
    rfl
  · have hgne : d.goals ≠ [] := by
      intro hx
      rw [hx] at hge
      exact hge rfl
    have hGL : goalsLines d
        = "goals:".data :: d.goals.map (fun g => "  - ".data ++ g.title.data) := by
      unfold goalsLines
      rw [if_neg hge]
    have hgmapne : d.goals.map (fun g => "  - ".data ++ g.title.data) ≠ [] := by
      intro hx
      exact hgne (List.map_eq_nil.mp hx)
    have hJG : joinLines (goalsLines d)
        = "goals:".data
          ++ '\n' :: joinLines (d.goals.map (fun g => "  - ".data ++ g.title.data)) := by
      rw [hGL,
        show ("goals:".data :: d.goals.map (fun g => "  - ".data ++ g.title.data))
          = ["goals:".data] ++ d.goals.map (fun g => "  - ".data ++ g.title.data) from rfl,
        joinLines_append _ _ (List.cons_ne_nil _ _) hgmapne]
      rfl
    have hnlGoal : ∀ l ∈ d.goals.map (fun g => "  - ".data ++ g.title.data),
        ('\n' : Char) ∉ l := by
      intro l hl
      rw [List.mem_map] at hl
      obtain ⟨g, hgmem, rfl⟩ := hl
      have hok : (trimShaped g.title.data && g.title.data.all isDotChar) = true :=
        List.all_eq_true.mp hg g hgmem
      rw [Bool.and_eq_true] at hok
      exact not_mem_append2 (by decide) (no_nl_of_dot hok.2)
    have hguard : nlGuard (joinLines (("weekOf: ".data ++ d.weekOf.data)
        :: ("habitResetDate: ".data ++ d.habitResetDate.data) :: goalsLines d)) = true := by
      apply nlGuard_joinLines
      · intro l hl
        simp only [List.mem_cons] at hl
        rcases hl with rfl | rfl | h1
        · exact hlineW
        · exact hlineH
        · rw [hGL] at h1
          simp only [List.mem_cons] at h1
          rcases h1 with rfl | h2
          · decide
          · exact hnlGoal l h2
      · intro l hl
        simp only [List.tail_cons, List.mem_cons] at hl
        rcases hl with rfl | h1
        · exact hheadH
        · rw [hGL] at h1
          simp only [List.mem_cons] at h1
          rcases h1 with rfl | h2
          · exact ⟨'g', "oals:".data, rfl, by decide⟩
          · rw [List.mem_map] at h2
            obtain ⟨g, hgmem, rfl⟩ := h2
            exact ⟨' ', " - ".data ++ g.title.data, rfl, by decide⟩
    have hfmG : scanFirst (fun s => if "goals:\n".data.isPrefixOf s
          then some (goalRep (s.drop 7)) else none)
        (joinLines (("weekOf: ".data ++ d.weekOf.data)
          :: ("habitResetDate: ".data ++ d.habitResetDate.data) :: goalsLines d))
        = some (joinLines (d.goals.map (fun g => "  - ".data ++ g.title.data))) := by
      rw [hfmGpre, hJG,
        show "goals:".data
            ++ '\n' :: joinLines (d.goals.map (fun g => "  - ".data ++ g.title.data))
          = "goals:\n".data
            ++ joinLines (d.goals.map (fun g => "  - ".data ++ g.title.data)) from rfl,
        scanFirst_skip_head _ 'g' (fun t ht => goalsAttempt_gate t ht) _ _ hgpre]
      apply scanFirst_of_head
      show (if "goals:\n".data.isPrefixOf ("goals:\n".data
            ++ joinLines (d.goals.map (fun g => "  - ".data ++ g.title.data)))
          then some (goalRep (("goals:\n".data
            ++ joinLines (d.goals.map (fun g => "  - ".data ++ g.title.data))).drop 7))
          else none)
        = some (joinLines (d.goals.map (fun g => "  - ".data ++ g.title.data)))
      rw [if_pos (isPrefixOf_append_self _ _),
        show ("goals:\n".data
            ++ joinLines (d.goals.map (fun g => "  - ".data ++ g.title.data))).drop 7
          = joinLines (d.goals.map (fun g => "  - ".data ++ g.title.data))
          from List.drop_left ("goals:\n".data) _,
        goalRep_goals d.goals hg]
    have hsplitCap : splitChar '\n'
        (joinLines (d.goals.map (fun g => "  - ".data ++ g.title.data)))
        = d.goals.map (fun g => "  - ".data ++ g.title.data) :=
      splitChar_joinLines _ hgmapne hnlGoal
    have hfilt := goalsFilter_eval d.goals hg
    have hmap := goalsMap_eval0 ids d.goals hg
    unfold parseFrontmatter
    rw [hContent, if_pos (isPrefixOf_append_self _ _)]
    rw [show ("---\n".data
        ++ (joinLines (("weekOf: ".data ++ d.weekOf.data)
              :: ("habitResetDate: ".data ++ d.habitResetDate.data) :: goalsLines d)
            ++ '\n' :: '-' :: '-' :: '-' :: ('\n' :: '\n' :: joinLines (bodyLines d)))).drop 4
      = joinLines (("weekOf: ".data ++ d.weekOf.data)
            :: ("habitResetDate: ".data ++ d.habitResetDate.data) :: goalsLines d)
          ++ '\n' :: '-' :: '-' :: '-' :: ('\n' :: '\n' :: joinLines (bodyLines d))
      from List.drop_left ("---\n".data) _]
    rw [show ("\n---".data : List Char) = ['\n', '-', '-', '-'] from rfl,
      splitFirst_nl _ _ hguard]
    simp only [hfmW, hfmH, hfmG, hsplitCap, hfilt, hmap]
    simp [List.length_map, List.enum_length]




/-- The empty pattern is a prefix of anything. -/
theorem isPrefixOf_nil_left (l : List Char) : ([] : List Char).isPrefixOf l = true := by
  cases l <;> rfl

/-- A one-character pattern is a prefix of a list with that head. -/
theorem single_isPrefixOf (c : Char) (l : List Char) : [c].isPrefixOf (c :: l) = true := by
  show (c == c && ([] : List Char).isPrefixOf l) = true
  rw [beq_self_eq_true, isPrefixOf_nil_left]
  rfl

/-- The serialized task line with its annotation tail grouped. -/
theorem serializeTask_form (t : Task) (b : Bool) :
    serializeTask t b
      = "- ".data ++ (if t.completed then "[x]".data else "[ ]".data)
        ++ ' ' :: (t.title.data ++ annOf '📅' t.doDate ++ annOf '⏰' t.doTime
            ++ recAnnOf t.recurrence ++ annOf '✅' (if b then t.completedAt else none)
            ++ annOf '🔗' t.url) := by
  unfold serializeTask
  rw [annOf_if]
  simp [List.append_assoc]

/-- A serialized task line starts with its dash. -/
theorem serializeTask_head (t : Task) (b : Bool) :
    (serializeTask t b).head? = some '-' := by
  rw [serializeTask_form]
  rfl

/-- A serialized task line ends outside whitespace. -/
theorem serializeTask_last (t : Task) (b : Bool) (hok : taskOk t = true) :
    ∀ c, (serializeTask t b).getLast? = some c → isJsWs c = false := by
  simp only [taskOk, Bool.and_eq_true] at hok
  obtain ⟨⟨⟨⟨⟨hti, hurl⟩, hdd⟩, hdt⟩, hca⟩, hrec⟩ := hok
  have hbody : ∀ c, (t.title.data ++ annOf '📅' t.doDate ++ annOf '⏰' t.doTime
      ++ recAnnOf t.recurrence ++ annOf '✅' (if b then t.completedAt else none)
      ++ annOf '🔗' t.url).getLast? = some c → isJsWs c = false := by
    refine ends_nonws_append (ends_nonws_append (ends_nonws_append (ends_nonws_append
      (ends_nonws_append (titleShaped_last hti) ?_) ?_) ?_) ?_) ?_
    · exact ends_nonws_annOf (fun v hv => by
        rw [hv] at hdd
        exact ⟨dateShaped_ne_nil hdd, dateShaped_class hdd⟩)
    · exact ends_nonws_annOf (fun v hv => by
        rw [hv] at hdt
        exact ⟨timeShaped_ne_nil hdt, timeShaped_class hdt⟩)
    · exact ends_nonws_recAnnOf
    · exact ends_nonws_annOf (fun v hv => by
        cases b with
        | false => simp at hv
        | true =>
          rw [if_pos rfl] at hv
          rw [hv] at hca
          exact ⟨dateShaped_ne_nil hca, dateShaped_class hca⟩)
    · exact ends_nonws_annOf_url (fun v hv => by rw [hv] at hurl; exact hurl)
  intro c hc
  rw [serializeTask_form] at hc
  rw [List.getLast?_append_of_ne_nil _ (List.cons_ne_nil _ _),
    getLast?_cons_of_ne_nil _ (append_ne_nil_left _ (append_ne_nil_left _
      (append_ne_nil_left _ (append_ne_nil_left _ (append_ne_nil_left _
        (titleShaped_ne_nil hti))))))] at hc
  exact hbody c hc

/-- A serialized task line is unchanged by trimming. -/
theorem serializeTask_trim (t : Task) (b : Bool) (hok : taskOk t = true) :
    jsTrim (serializeTask t b) = serializeTask t b := by
  apply jsTrim_eq_self_of
  · intro he
    have hh := serializeTask_head t b
    rw [he] at hh
    cases hh
  · intro c hc
    have hh := serializeTask_head t b
    rw [hc] at hh
    have : c = '-' := by
      injection hh
    subst this
    rfl
  · exact serializeTask_last t b hok

/-- A serialized habit line starts with its dash. -/
theorem serializeHabit_head (h : DailyHabit) : (serializeHabit h).head? = some '-' := by
  unfold serializeHabit
  rfl

/-- A serialized habit line is unchanged by trimming. -/
theorem serializeHabit_trim (h : DailyHabit) (hok : habitOk h = true) :
    jsTrim (serializeHabit h) = serializeHabit h := by
  unfold habitOk lineShaped at hok
  rw [Bool.and_eq_true] at hok
  apply jsTrim_eq_self_of
  · intro he
    have hh := serializeHabit_head h
    rw [he] at hh
    cases hh
  · intro c hc
    have hh := serializeHabit_head h
    rw [hc] at hh
    have : c = '-' := by
      injection hh
    subst this
    rfl
  · intro c hc
    unfold serializeHabit at hc
    rw [List.getLast?_append_of_ne_nil _ (List.cons_ne_nil _ _),
      getLast?_cons_of_ne_nil _ (trimShaped_ne_nil hok.1)] at hc
    exact trimShaped_last hok.1 c hc

/-- A blank line leaves the loop state unchanged. -/
theorem procLine_blank (ids : Nat → String) (st : ParseSt) : procLine ids st [] = st := by
  simp [procLine, jsTrim]

/-- The Daily Habits header switches the loop into the habits
section. -/
theorem procLine_habits_header (ids : Nat → String) (st : ParseSt) :
    procLine ids st "## Daily Habits".data
      = { st with currentSection := none, inHabitsSection := true,
                  inCompletedSection := false, currentMonth := none } := rfl

/-- The Immediate header selects the immediate section. -/
theorem procLine_immediate_header (ids : Nat → String) (st : ParseSt) :
    procLine ids st "## Immediate".data
      = { st with currentSection := some TaskSection.immediate, inHabitsSection := false,
                  inCompletedSection := false, currentMonth := none } := rfl

/-- The This week header selects the thisWeek section. -/
theorem procLine_thisWeek_header (ids : Nat → String) (st : ParseSt) :
    procLine ids st "## This week".data
      = { st with currentSection := some TaskSection.thisWeek, inHabitsSection := false,
                  inCompletedSection := false, currentMonth := none } := rfl

/-- The Unscheduled header selects the unscheduled section. -/
theorem procLine_unscheduled_header (ids : Nat → String) (st : ParseSt) :
    procLine ids st "## Unscheduled".data
      = { st with currentSection := some TaskSection.unscheduled, inHabitsSection := false,
                  inCompletedSection := false, currentMonth := none } := rfl

/-- The Completed header switches the loop into the archive
section. -/
theorem procLine_completed_header (ids : Nat → String) (st : ParseSt) :
    procLine ids st "## Completed".data
      = { st with currentSection := none, inHabitsSection := false,
                  inCompletedSection := true, currentMonth := none } := rfl

/-- The task record the decoder rebuilds from a serialized task
line. -/
def decodedTask (ident : String) (sect : TaskSection) (b : Bool) (t : Task) : Task :=
  { id := ident, title := t.title, completed := t.completed,
    completedAt := if b then t.completedAt else none, sect := sect,
    url := t.url, doDate := t.doDate, doTime := t.doTime, recurrence := t.recurrence }

/-- A serialized active task line appends the decoded task to the
current section list and advances the id counter. -/
theorem procLine_task (ids : Nat → String) (st : ParseSt) (t : Task) (sect : TaskSection)
    (hok : taskOk t = true) (hsec : st.currentSection = some sect)
    (hhab : st.inHabitsSection = false) (hcomp : st.inCompletedSection = false) :
    procLine ids st (serializeTask t false)
      = { st with
          tasks := st.tasks.set sect (st.tasks.get sect
            ++ [decodedTask (ids st.nextId) sect false t]),
          nextId := st.nextId + 1 } := by
  obtain ⟨r, hr⟩ : ∃ r, serializeTask t false = '-' :: r := by
    have hh := serializeTask_head t false
    cases hs : serializeTask t false with
    | nil => rw [hs] at hh; cases hh
    | cons c cs =>
      rw [hs] at hh
      have hc : '-' = c := by injection hh with h1; exact h1.symm
      exact ⟨cs, by rw [← hc]⟩
  have hpre : "-".data.isPrefixOf (serializeTask t false) = true := by
    rw [hr]
    exact single_isPrefixOf '-' r
  have hpre3 : "###".data.isPrefixOf (serializeTask t false) = false := by
    apply isPrefixOf_false_of_head "###".data _ '#' rfl
    rw [serializeTask_head t false]
    intro hx
    injection hx with h1
    exact absurd h1 (by decide)
  simp only [procLine]
  rw [serializeTask_trim t false hok]
  rw [if_neg (by
    intro he
    have h2 := congrArg List.head? he
    rw [List.head?_map, serializeTask_head] at h2
    simp [asciiLower] at h2)]
  rw [if_neg (by
    intro he
    have h2 := congrArg List.head? he
    rw [List.head?_map, serializeTask_head] at h2
    simp [asciiLower] at h2)]
  rw [if_neg (by
    intro he
    have h2 := congrArg List.head? he
    rw [List.head?_map, serializeTask_head] at h2
    simp [asciiLower] at h2)]
  rw [if_neg (by
    intro he
    have h2 := congrArg List.head? he
    rw [List.head?_map, serializeTask_head] at h2
    simp [asciiLower] at h2)]
  rw [if_neg (by
    intro he
    have h2 := congrArg List.head? he
    rw [List.head?_map, serializeTask_head] at h2
    simp [asciiLower] at h2)]
  rw [if_neg (by
    intro hx
    rw [hpre3] at hx
    exact absurd hx.2 (by decide))]
  rw [if_pos hpre, hhab, hcomp, hsec]
  rw [if_neg (by decide), if_neg (by decide)]
  simp [parseTaskLine_serialized (ids st.nextId) t sect false hok, decodedTask]
/-- A month name is never the empty string. -/
theorem monthNameStr_ne_nil (n : Nat) : monthNameStr n ≠ [] := by
  unfold monthNameStr
  split <;> decide

/-- The rendered month header of a shaped key. -/
theorem formatMonthHeader_eval (k : String) (hk : monthKeyShaped k = true) :
    ∃ a b c d m1 m2, k.data = [a, b, c, d, '-', m1, m2] ∧ d.isDigit = true ∧
      formatMonthHeader k
        = monthNameStr (digitsToNat [m1, m2]) ++ ' ' :: [a, b, c, d] := by
  unfold monthKeyShaped at hk
  split at hk
  · rename_i a b c d m1 m2 heq
    simp only [Bool.and_eq_true] at hk
    obtain ⟨⟨⟨⟨h1, h2⟩, h3⟩, h4⟩, hm⟩ := hk
    refine ⟨a, b, c, d, m1, m2, heq, h4, ?_⟩
    have hdash : ('-' : Char) ∉ [a, b, c, d] := by
      intro hmem
      simp only [List.mem_cons, List.not_mem_nil, or_false] at hmem
      rcases hmem with rfl | rfl | rfl | rfl
      · exact absurd h1 (by decide)
      · exact absurd h2 (by decide)
      · exact absurd h3 (by decide)
      · exact absurd h4 (by decide)
    have hm2 : [m1, m2] ∈ [['0','1'], ['0','2'], ['0','3'], ['0','4'], ['0','5'], ['0','6'],
        ['0','7'], ['0','8'], ['0','9'], ['1','0'], ['1','1'], ['1','2']] :=
      List.mem_of_elem_eq_true hm
    have hdash2 : ('-' : Char) ∉ [m1, m2] := by
      have hall : ∀ p ∈ [['0','1'], ['0','2'], ['0','3'], ['0','4'], ['0','5'], ['0','6'],
          ['0','7'], ['0','8'], ['0','9'], ['1','0'], ['1','1'], ['1','2']],
          ('-' : Char) ∉ p := by decide
      exact hall _ hm2
    unfold formatMonthHeader
    rw [heq,
      show ([a, b, c, d, '-', m1, m2] : List Char) = [a, b, c, d] ++ '-' :: [m1, m2] from rfl,
      splitChar_append_sep '-' _ _ hdash, splitChar_no_sep '-' _ hdash2]
    rfl
  · cases hk

/-- A rendered month header line is unchanged by trimming. -/
theorem monthLine_trim (k : String) (hk : monthKeyShaped k = true) :
    jsTrim ("### ".data ++ formatMonthHeader k) = "### ".data ++ formatMonthHeader k := by
  obtain ⟨a, b, c, d, m1, m2, heq, hd, hF⟩ := formatMonthHeader_eval k hk
  apply jsTrim_eq_self_of
  · rw [hF]
    intro hx
    rw [show "### ".data ++ (monthNameStr (digitsToNat [m1, m2]) ++ ' ' :: [a, b, c, d])
        = '#' :: ("## ".data ++ (monthNameStr (digitsToNat [m1, m2]) ++ ' ' :: [a, b, c, d]))
        from rfl] at hx
    exact List.cons_ne_nil _ _ hx
  · intro c0 hc0
    rw [hF] at hc0
    have : '#' = c0 := by
      rw [show "### ".data ++ (monthNameStr (digitsToNat [m1, m2]) ++ ' ' :: [a, b, c, d])
          = '#' :: ("## ".data ++ (monthNameStr (digitsToNat [m1, m2]) ++ ' ' :: [a, b, c, d]))
          from rfl] at hc0
      injection hc0 with h1
    subst this
    rfl
  · intro c0 hc0
    rw [hF, List.getLast?_append_of_ne_nil _ (by
        intro hx
        exact List.cons_ne_nil _ _ (List.append_eq_nil.mp hx).2),
      List.getLast?_append_of_ne_nil _ (List.cons_ne_nil _ _),
      show (' ' :: [a, b, c, d] : List Char).getLast? = some d from rfl] at hc0
    have : d = c0 := by injection hc0 with h1
    subst this
    exact ws_of_digit hd

/-- A month header line inside the completed section opens its
bucket. -/
theorem procLine_month (ids : Nat → String) (st : ParseSt) (k : String)
    (hk : monthKeyShaped k = true) (hcomp : st.inCompletedSection = true) :
    procLine ids st ("### ".data ++ formatMonthHeader k)
      = { st with
          currentMonth := some k,
          completedTasks := ensureBucket st.completedTasks k } := by
  obtain ⟨a, b, c, d, m1, m2, heq, hd, hF⟩ := formatMonthHeader_eval k hk
  have htake : List.take 4 (List.map asciiLower ("### ".data ++ formatMonthHeader k))
      = ['#', '#', '#', ' '] := by
    rw [hF]
    rfl
  have hpref : "###".data.isPrefixOf ("### ".data ++ formatMonthHeader k) = true := by
    rw [show "### ".data ++ formatMonthHeader k
        = "###".data ++ (' ' :: formatMonthHeader k) from rfl]
    exact isPrefixOf_append_self _ _
  simp only [procLine]
  rw [monthLine_trim k hk]
  rw [if_neg (by
    intro he
    have h2 := congrArg (List.take 4) he
    rw [htake] at h2
    exact absurd h2 (by decide))]
  rw [if_neg (by
    intro he
    have h2 := congrArg (List.take 4) he
    rw [htake] at h2
    exact absurd h2 (by decide))]
  rw [if_neg (by
    intro he
    have h2 := congrArg (List.take 4) he
    rw [htake] at h2
    exact absurd h2 (by decide))]
  rw [if_neg (by
    intro he
    have h2 := congrArg (List.take 4) he
    rw [htake] at h2
    exact absurd h2 (by decide))]
  rw [if_neg (by
    intro he
    have h2 := congrArg (List.take 4) he
    rw [htake] at h2
    exact absurd h2 (by decide))]
  rw [if_pos ⟨hcomp, hpref⟩]
  have hpm : parseMonthHeader ('#' :: '#' :: '#' :: ' ' :: formatMonthHeader k) = some k := by
    rw [show ('#' :: '#' :: '#' :: ' ' :: formatMonthHeader k)
        = "### ".data ++ formatMonthHeader k from rfl]
    exact parseMonthHeader_format k hk
  simp [hpm]

/-- A serialized habit line under the habits header appends the
decoded habit while the habit list is short. -/
theorem procLine_habit (ids : Nat → String) (st : ParseSt) (h : DailyHabit)
    (hok : habitOk h = true) (hhab : st.inHabitsSection = true)
    (hlen : st.habits.length < 3) :
    procLine ids st (serializeHabit h)
      = { st with
          habits := st.habits ++ [⟨ids st.nextId, h.title, h.completedToday⟩],
          nextId := st.nextId + 1 } := by
  obtain ⟨r, hr⟩ : ∃ r, serializeHabit h = '-' :: r := by
    have hh := serializeHabit_head h
    cases hs : serializeHabit h with
    | nil => rw [hs] at hh; cases hh
    | cons c cs =>
      rw [hs] at hh
      have hc : '-' = c := by injection hh with h1; exact h1.symm
      exact ⟨cs, by rw [← hc]⟩
  have hpre : "-".data.isPrefixOf (serializeHabit h) = true := by
    rw [hr]
    exact single_isPrefixOf '-' r
  have hpre3 : "###".data.isPrefixOf (serializeHabit h) = false := by
    apply isPrefixOf_false_of_head "###".data _ '#' rfl
    rw [serializeHabit_head h]
    intro hx
    injection hx with h1
    exact absurd h1 (by decide)
  simp only [procLine]
  rw [serializeHabit_trim h hok]
  rw [if_neg (by
    intro he
    have h2 := congrArg List.head? he
    rw [List.head?_map, serializeHabit_head] at h2
    simp [asciiLower] at h2)]
  rw [if_neg (by
    intro he
    have h2 := congrArg List.head? he
    rw [List.head?_map, serializeHabit_head] at h2
    simp [asciiLower] at h2)]
  rw [if_neg (by
    intro he
    have h2 := congrArg List.head? he
    rw [List.head?_map, serializeHabit_head] at h2
    simp [asciiLower] at h2)]
  rw [if_neg (by
    intro he
    have h2 := congrArg List.head? he
    rw [List.head?_map, serializeHabit_head] at h2
    simp [asciiLower] at h2)]
  rw [if_neg (by
    intro he
    have h2 := congrArg List.head? he
    rw [List.head?_map, serializeHabit_head] at h2
    simp [asciiLower] at h2)]
  rw [if_neg (by
    intro hx
    rw [hpre3] at hx
    exact absurd hx.2 (by decide))]
  rw [if_pos hpre, hhab]
  rw [if_pos rfl, if_pos hlen]
  simp [parseHabitLine_serialized (ids st.nextId) h hok]

/-- The task record the decoder rebuilds from an archived task
line. -/
def decodedArchTask (ident : String) (t : Task) : Task :=
  { id := ident, title := t.title, completed := true,
    completedAt := t.completedAt, sect := TaskSection.unscheduled,
    url := t.url, doDate := t.doDate, doTime := t.doTime, recurrence := t.recurrence }

/-- A serialized archived task line pushes the decoded task into the
current month bucket with its completed flag forced on. -/
theorem procLine_archtask (ids : Nat → String) (st : ParseSt) (t : Task) (k : String)
    (hok : taskOk t = true) (hcomp : st.inCompletedSection = true)
    (hhab : st.inHabitsSection = false) (hmon : st.currentMonth = some k) :
    procLine ids st (serializeTask t true)
      = { st with
          completedTasks := pushBucket st.completedTasks k (decodedArchTask (ids st.nextId) t),
          nextId := st.nextId + 1 } := by
  obtain ⟨r, hr⟩ : ∃ r, serializeTask t true = '-' :: r := by
    have hh := serializeTask_head t true
    cases hs : serializeTask t true with
    | nil => rw [hs] at hh; cases hh
    | cons c cs =>
      rw [hs] at hh
      have hc : '-' = c := by injection hh with h1; exact h1.symm
      exact ⟨cs, by rw [← hc]⟩
  have hpre : "-".data.isPrefixOf (serializeTask t true) = true := by
    rw [hr]
    exact single_isPrefixOf '-' r
  have hpre3 : "###".data.isPrefixOf (serializeTask t true) = false := by
    apply isPrefixOf_false_of_head "###".data _ '#' rfl
    rw [serializeTask_head t true]
    intro hx
    injection hx with h1
    exact absurd h1 (by decide)
  simp only [procLine]
  rw [serializeTask_trim t true hok]
  rw [if_neg (by
    intro he
    have h2 := congrArg List.head? he
    rw [List.head?_map, serializeTask_head] at h2
    simp [asciiLower] at h2)]
  rw [if_neg (by
    intro he
    have h2 := congrArg List.head? he
    rw [List.head?_map, serializeTask_head] at h2
    simp [asciiLower] at h2)]
  rw [if_neg (by
    intro he
    have h2 := congrArg List.head? he
    rw [List.head?_map, serializeTask_head] at h2
    simp [asciiLower] at h2)]
  rw [if_neg (by
    intro he
    have h2 := congrArg List.head? he
    rw [List.head?_map, serializeTask_head] at h2
    simp [asciiLower] at h2)]
  rw [if_neg (by
    intro he
    have h2 := congrArg List.head? he
    rw [List.head?_map, serializeTask_head] at h2
    simp [asciiLower] at h2)]
  rw [if_neg (by
    intro hx
    rw [hpre3] at hx
    exact absurd hx.2 (by decide))]
  rw [if_pos hpre, hhab, hcomp, hmon]
  rw [if_neg (by decide), if_pos rfl]
  simp [parseTaskLine_serialized (ids st.nextId) t TaskSection.unscheduled true hok,
    decodedArchTask]



/-- Writing back the list a section already holds changes nothing. -/
theorem set_get_self (t : SectionLists) (s : TaskSection) : t.set s (t.get s) = t := by
  cases s <;> rfl

/-- Peeling one element off a mapped enumeration. -/
theorem enum_cons_map {α β : Type} (f : Nat → α → β) (t : α) (ts : List α) :
    ((t :: ts).enum).map (fun p => f p.1 p.2)
      = f 0 t :: ts.enum.map (fun p => f (p.1 + 1) p.2) := by
  have h : ∀ (l : List α) (m : Nat), (l.enumFrom (m + 1)).map (fun p => f p.1 p.2)
      = (l.enumFrom m).map (fun p => f (p.1 + 1) p.2) := by
    intro l
    induction l with
    | nil => intro m; rfl
    | cons x xs ih =>
      intro m
      rw [List.enumFrom_cons, List.enumFrom_cons, List.map_cons, List.map_cons, ih (m + 1)]
  show ((0, t) :: ts.enumFrom 1).map (fun p => f p.1 p.2) = _
  rw [List.map_cons]
  exact congrArg _ (h ts 0)

/-- Unfolding one step of the active renumbering. -/
theorem renumActive_cons (ids : Nat → String) (n : Nat) (sect : TaskSection)
    (t : Task) (ts : List Task) :
    renumActive ids n sect (t :: ts)
      = decodedTask (ids n) sect false t :: renumActive ids (n + 1) sect ts := by
  unfold renumActive
  have h := enum_cons_map (fun k x =>
    ({ x with id := ids (n + k), sect := sect, completedAt := none } : Task)) t ts
  simp only [] at h
  rw [h]
  congr 1
  apply List.map_congr_left
  intro p hp
  have harith : n + (p.1 + 1) = n + 1 + p.1 := by omega
  rw [harith]

/-- The empty list renumbering. -/
theorem renumActive_nil (ids : Nat → String) (n : Nat) (sect : TaskSection) :
    renumActive ids n sect [] = [] := rfl

/-- Folding the serialized lines of an active task list appends the
renumbered tasks to the current section. -/
theorem fold_tasks (ids : Nat → String) (sect : TaskSection) :
    ∀ (ts : List Task) (st : ParseSt), ts.all taskOk = true →
      st.currentSection = some sect → st.inHabitsSection = false →
      st.inCompletedSection = false →
      (ts.map (serializeTask · false)).foldl (procLine ids) st
        = { st with
            tasks := st.tasks.set sect (st.tasks.get sect ++ renumActive ids st.nextId sect ts),
            nextId := st.nextId + ts.length } := by
  intro ts
  induction ts with
  | nil =>
    intro st hok hsec hhab hcomp
    rw [renumActive_nil, List.append_nil, set_get_self]
    rfl
  | cons t ts ih =>
    intro st hok hsec hhab hcomp
    rw [List.all_cons, Bool.and_eq_true] at hok
    rw [List.map_cons, List.foldl_cons, procLine_task ids st t sect hok.1 hsec hhab hcomp]
    rw [ih ({ st with
        tasks := st.tasks.set sect (st.tasks.get sect ++ [decodedTask (ids st.nextId) sect false t]),
        nextId := st.nextId + 1 }) hok.2 hsec hhab hcomp]
    rw [renumActive_cons]
    simp [set_get_same, set_set_same, List.append_assoc, Nat.add_assoc, Nat.add_comm,
      Nat.add_left_comm]


/-- The renumbered habit list of the decoder. -/
def renumHabits (ids : Nat → String) (n : Nat) (hs : List DailyHabit) : List DailyHabit :=
  hs.enum.map (fun p => ⟨ids (n + p.1), p.2.title, p.2.completedToday⟩)

/-- Unfolding one step of the habit renumbering. -/
theorem renumHabits_cons (ids : Nat → String) (n : Nat) (h : DailyHabit)
    (hs : List DailyHabit) :
    renumHabits ids n (h :: hs)
      = ⟨ids n, h.title, h.completedToday⟩ :: renumHabits ids (n + 1) hs := by
  unfold renumHabits
  have he := enum_cons_map (fun k (x : DailyHabit) =>
    (⟨ids (n + k), x.title, x.completedToday⟩ : DailyHabit)) h hs
  simp only [] at he
  rw [he]
  congr 1
  apply List.map_congr_left
  intro p hp
  have harith : n + (p.1 + 1) = n + 1 + p.1 := by omega
  rw [harith]

/-- Folding the serialized habit lines appends the renumbered habits
while the list stays within the three-habit cap. -/
theorem fold_habits (ids : Nat → String) :
    ∀ (hs : List DailyHabit) (st : ParseSt), hs.all habitOk = true →
      st.inHabitsSection = true →
      st.habits.length + hs.length ≤ 3 →
      (hs.map serializeHabit).foldl (procLine ids) st
        = { st with
            habits := st.habits ++ renumHabits ids st.nextId hs,
            nextId := st.nextId + hs.length } := by
  intro hs
  induction hs with
  | nil =>
    intro st hok hhab hlen
    show st = _
    simp [renumHabits]
  | cons h hs ih =>
    intro st hok hhab hlen
    rw [List.all_cons, Bool.and_eq_true] at hok
    have hlt : st.habits.length < 3 := by
      have h2 : st.habits.length + (hs.length + 1) ≤ 3 := by simpa using hlen
      omega
    rw [List.map_cons, List.foldl_cons, procLine_habit ids st h hok.1 hhab hlt]
    rw [ih ({ st with
        habits := st.habits ++ [⟨ids st.nextId, h.title, h.completedToday⟩],
        nextId := st.nextId + 1 }) hok.2 hhab (by
      have h2 : st.habits.length + (hs.length + 1) ≤ 3 := by simpa using hlen
      simp
      omega)]
    rw [renumHabits_cons]
    simp [List.append_assoc, Nat.add_assoc, Nat.add_comm, Nat.add_left_comm]

/-- Pushing a run of tasks into one bucket. -/
def pushAll (m : List (String × List Task)) (k : String) (xs : List Task) :
    List (String × List Task) :=
  m.map (fun p => if p.1 == k then (p.1, p.2 ++ xs) else p)

/-- Pushing nothing changes nothing. -/
theorem pushAll_nil (m : List (String × List Task)) (k : String) : pushAll m k [] = m := by
  unfold pushAll
  have h : ∀ p ∈ m, (if p.1 == k then (p.1, p.2 ++ ([] : List Task)) else p) = p := by
    intro p hp
    rw [List.append_nil]
    cases hb : p.1 == k <;> simp
  rw [List.map_congr_left h]
  simp

/-- One push folds into the run. -/
theorem pushAll_cons (m : List (String × List Task)) (k : String) (x : Task)
    (xs : List Task) : pushAll (pushBucket m k x) k xs = pushAll m k (x :: xs) := by
  unfold pushAll pushBucket
  rw [List.map_map]
  apply List.map_congr_left
  intro p hp
  cases hb : p.1 == k with
  | true => simp [Function.comp, hb]
  | false => simp [Function.comp, hb]

/-- A push run reaches no bucket with an absent key. -/
theorem pushAll_fresh (m : List (String × List Task)) (k : String) (xs : List Task)
    (h : ∀ p ∈ m, (p.1 == k) = false) : pushAll m k xs = m := by
  unfold pushAll
  have h2 : ∀ p ∈ m, (if p.1 == k then (p.1, p.2 ++ xs) else p) = p := by
    intro p hp
    rw [h p hp]
    simp
  rw [List.map_congr_left h2]
  simp

/-- A push run distributes over an append of bucket lists. -/
theorem pushAll_append (m1 m2 : List (String × List Task)) (k : String) (xs : List Task) :
    pushAll (m1 ++ m2) k xs = pushAll m1 k xs ++ pushAll m2 k xs := by
  unfold pushAll
  rw [List.map_append]

/-- A fresh key opens its bucket at the end of the archive. -/
theorem ensureBucket_fresh (m : List (String × List Task)) (k : String)
    (h : ∀ p ∈ m, (p.1 == k) = false) : ensureBucket m k = m ++ [(k, [])] := by
  unfold ensureBucket
  rw [if_neg]
  intro hx
  rw [Option.isSome_iff_exists] at hx
  obtain ⟨p, hp⟩ := hx
  have hmem := List.find?_some hp
  have hpm := List.mem_of_find?_eq_some hp
  rw [h p hpm] at hmem
  cases hmem

/-- Unfolding one step of the archived renumbering. -/
theorem renumArchived_cons (ids : Nat → String) (n : Nat) (t : Task) (ts : List Task) :
    renumArchived ids n (t :: ts)
      = decodedArchTask (ids n) t :: renumArchived ids (n + 1) ts := by
  unfold renumArchived
  have he := enum_cons_map (fun k (x : Task) =>
    ({ x with id := ids (n + k), sect := TaskSection.unscheduled, completed := true } : Task)) t ts
  simp only [] at he
  rw [he]
  congr 1
  apply List.map_congr_left
  intro p hp
  have harith : n + (p.1 + 1) = n + 1 + p.1 := by omega
  rw [harith]

/-- The empty archived renumbering. -/
theorem renumArchived_nil (ids : Nat → String) (n : Nat) : renumArchived ids n [] = [] := rfl

/-- Folding the serialized lines of one archive bucket pushes the
renumbered tasks into the current month bucket. -/
theorem fold_archtasks (ids : Nat → String) (k : String) :
    ∀ (ts : List Task) (st : ParseSt), ts.all taskOk = true →
      st.inCompletedSection = true → st.inHabitsSection = false →
      st.currentMonth = some k →
      (ts.map (serializeTask · true)).foldl (procLine ids) st
        = { st with
            completedTasks := pushAll st.completedTasks k (renumArchived ids st.nextId ts),
            nextId := st.nextId + ts.length } := by
  intro ts
  induction ts with
  | nil =>
    intro st hok hcomp hhab hmon
    rw [renumArchived_nil, pushAll_nil]
    rfl
  | cons t ts ih =>
    intro st hok hcomp hhab hmon
    rw [List.all_cons, Bool.and_eq_true] at hok
    rw [List.map_cons, List.foldl_cons, procLine_archtask ids st t k hok.1 hcomp hhab hmon]
    rw [ih ({ st with
        completedTasks := pushBucket st.completedTasks k (decodedArchTask (ids st.nextId) t),
        nextId := st.nextId + 1 }) hok.2 hcomp hhab hmon]
    rw [renumArchived_cons]
    simp only []
    rw [pushAll_cons]
    simp [Nat.add_assoc, Nat.add_comm, Nat.add_left_comm]

/-- The singleton push run fills a fresh bucket. -/
theorem pushAll_single (k : String) (xs : List Task) :
    pushAll [(k, [])] k xs = [(k, xs)] := by
  unfold pushAll
  simp

/-- Folding the archive blocks appends one renumbered bucket per
month key. -/
theorem fold_months (ids : Nat → String) (m0 : List (String × List Task)) :
    ∀ (keys : List String) (st : ParseSt),
      (∀ k ∈ keys, monthKeyShaped k = true ∧
        ∃ ts, bucketLookup m0 k = some ts ∧ ts ≠ [] ∧ ts.all taskOk = true) →
      keys.Nodup →
      (∀ k ∈ keys, ∀ p ∈ st.completedTasks, (p.1 == k) = false) →
      st.inCompletedSection = true → st.inHabitsSection = false →
      (((keys.map (monthBlock m0)).flatten).foldl (procLine ids) st).habits = st.habits
      ∧ (((keys.map (monthBlock m0)).flatten).foldl (procLine ids) st).tasks = st.tasks
      ∧ (((keys.map (monthBlock m0)).flatten).foldl (procLine ids) st).completedTasks
          = st.completedTasks ++ renumBuckets ids m0 st.nextId keys := by
  intro keys
  induction keys with
  | nil =>
    intro st hprops hnd hfresh hcomp hhab
    refine ⟨rfl, rfl, ?_⟩
    show st.completedTasks = st.completedTasks ++ renumBuckets ids m0 st.nextId []
    rw [show renumBuckets ids m0 st.nextId [] = [] from rfl, List.append_nil]
  | cons k ks ih =>
    intro st hprops hnd hfresh hcomp hhab
    obtain ⟨hk, ts, hbl, htne, htok⟩ := hprops k (by simp)
    have hprops2 : ∀ k2 ∈ ks, monthKeyShaped k2 = true ∧
        ∃ ts2, bucketLookup m0 k2 = some ts2 ∧ ts2 ≠ [] ∧ ts2.all taskOk = true :=
      fun k2 hk2 => hprops k2 (List.mem_cons_of_mem k hk2)
    have hknotin : k ∉ ks := (List.nodup_cons.mp hnd).1
    have hnd2 : ks.Nodup := (List.nodup_cons.mp hnd).2
    have hemp : ts.isEmpty = false := by
      cases ts with
      | nil => exact absurd rfl htne
      | cons x xs => rfl
    have hblock : monthBlock m0 k
        = ("### ".data ++ formatMonthHeader k)
          :: (ts.map (serializeTask · true) ++ [[]]) := by
      unfold monthBlock
      rw [hbl]
      show (if ts.isEmpty = true then []
          else ("### ".data ++ formatMonthHeader k)
            :: List.map (fun x => serializeTask x true) ts ++ [[]])
        = ("### ".data ++ formatMonthHeader k)
          :: (List.map (fun x => serializeTask x true) ts ++ [[]])
      rw [if_neg (by rw [hemp]; exact Bool.false_ne_true)]
      rfl
    rw [List.map_cons, show ((monthBlock m0 k :: ks.map (monthBlock m0)).flatten)
        = monthBlock m0 k ++ (ks.map (monthBlock m0)).flatten from rfl, hblock]
    rw [List.cons_append, List.foldl_cons,
      procLine_month ids st k hk hcomp]
    rw [List.append_assoc, List.foldl_append]
    rw [fold_archtasks ids k ts ({ st with
        currentMonth := some k,
        completedTasks := ensureBucket st.completedTasks k }) htok hcomp hhab rfl]
    have hfreshk : ∀ p ∈ st.completedTasks, (p.1 == k) = false :=
      fun p hp => hfresh k (by simp) p hp
    have hens : ensureBucket st.completedTasks k = st.completedTasks ++ [(k, [])] :=
      ensureBucket_fresh _ _ hfreshk
    have hpush : pushAll (ensureBucket st.completedTasks k) k
        (renumArchived ids st.nextId ts)
        = st.completedTasks ++ [(k, renumArchived ids st.nextId ts)] := by
      rw [hens, pushAll_append, pushAll_fresh _ _ _ hfreshk, pushAll_single]
    rw [show ([[]] : List (List Char)) ++ (List.map (monthBlock m0) ks).flatten
        = [] :: (List.map (monthBlock m0) ks).flatten from rfl,
      List.foldl_cons, procLine_blank]
    simp only []
    rw [hpush]
    obtain ⟨ihh, iht, ihc⟩ := ih ({ st with
        currentMonth := some k,
        completedTasks := st.completedTasks ++ [(k, renumArchived ids st.nextId ts)],
        nextId := st.nextId + ts.length }) hprops2 hnd2 (by
      intro k2 hk2 p hp
      simp only [] at hp
      rcases List.mem_append.mp hp with hp1 | hp2
      · exact hfresh k2 (List.mem_cons_of_mem k hk2) p hp1
      · have hpe : p = (k, renumArchived ids st.nextId ts) := by simpa using hp2
        subst hpe
        cases hb : ((k, renumArchived ids st.nextId ts).1 == k2) with
        | false => rfl
        | true =>
          have hke : k = k2 := eq_of_beq hb
          exact absurd (hke ▸ hk2) hknotin) hcomp hhab
    refine ⟨?_, ?_, ?_⟩
    · show (List.foldl (procLine ids) ({ st with
          currentMonth := some k,
          completedTasks := st.completedTasks ++ [(k, renumArchived ids st.nextId ts)],
          nextId := st.nextId + ts.length }) ((List.map (monthBlock m0) ks).flatten)).habits
        = st.habits
      exact ihh
    · show (List.foldl (procLine ids) ({ st with
          currentMonth := some k,
          completedTasks := st.completedTasks ++ [(k, renumArchived ids st.nextId ts)],
          nextId := st.nextId + ts.length }) ((List.map (monthBlock m0) ks).flatten)).tasks
        = st.tasks
      exact iht
    · show (List.foldl (procLine ids) ({ st with
          currentMonth := some k,
          completedTasks := st.completedTasks ++ [(k, renumArchived ids st.nextId ts)],
          nextId := st.nextId + ts.length }) ((List.map (monthBlock m0) ks).flatten)).completedTasks
        = st.completedTasks ++ renumBuckets ids m0 st.nextId (k :: ks)
      rw [ihc]
      rw [show renumBuckets ids m0 st.nextId (k :: ks)
          = (k, renumArchived ids st.nextId ((bucketLookup m0 k).getD []))
            :: renumBuckets ids m0 (st.nextId + ((bucketLookup m0 k).getD []).length) ks
          from rfl]
      rw [hbl]
      simp [List.append_assoc]



/-- Characters of a serialized task line are never line
terminators. -/
theorem serializeTask_no_nl (t : Task) (b : Bool) (hok : taskOk t = true) :
    ('\n' : Char) ∉ serializeTask t b := by
  simp only [taskOk, Bool.and_eq_true] at hok
  obtain ⟨⟨⟨⟨⟨hti, hurl⟩, hdd⟩, hdt⟩, hca⟩, hrec⟩ := hok
  have hbodydot : (t.title.data ++ annOf '📅' t.doDate ++ annOf '⏰' t.doTime
      ++ recAnnOf t.recurrence ++ annOf '✅' (if b then t.completedAt else none)
      ++ annOf '🔗' t.url).all isDotChar = true := by
    simp only [List.all_append, Bool.and_eq_true]
    refine ⟨⟨⟨⟨⟨?_, ?_⟩, ?_⟩, ?_⟩, ?_⟩, ?_⟩
    · exact List.all_eq_true.mpr (titleShaped_dot hti)
    · exact List.all_eq_true.mpr (all_dotChar_annOf '📅' (by decide)
        (fun v hv => dateShaped_dot (by rw [hv] at hdd; exact hdd)))
    · exact List.all_eq_true.mpr (all_dotChar_annOf '⏰' (by decide)
        (fun v hv => timeShaped_dot (by rw [hv] at hdt; exact hdt)))
    · exact List.all_eq_true.mpr all_dotChar_recAnnOf
    · exact List.all_eq_true.mpr (all_dotChar_annOf '✅' (by decide)
        (fun v hv => by
          cases b with
          | false => simp at hv
          | true =>
            rw [if_pos rfl] at hv
            rw [hv] at hca
            exact dateShaped_dot hca))
    · exact List.all_eq_true.mpr (all_dotChar_annOf '🔗' (by decide)
        (fun v hv => urlShaped_dot (by rw [hv] at hurl; exact hurl)))
  rw [serializeTask_form]
  apply not_mem_append2
  apply not_mem_append2
  · decide
  · cases t.completed <;> decide
  · intro hm
    rcases List.mem_cons.mp hm with he | hm2
    · exact absurd he (by decide)
    · exact no_nl_of_dot hbodydot hm2

/-- Characters of a serialized habit line are never line
terminators. -/
theorem serializeHabit_no_nl (h : DailyHabit) (hok : habitOk h = true) :
    ('\n' : Char) ∉ serializeHabit h := by
  unfold habitOk lineShaped at hok
  rw [Bool.and_eq_true] at hok
  unfold serializeHabit
  apply not_mem_append2
  apply not_mem_append2
  · decide
  · cases h.completedToday <;> decide
  · intro hm
    rcases List.mem_cons.mp hm with he | hm2
    · exact absurd he (by decide)
    · exact no_nl_of_dot hok.2 hm2

/-- Characters of a month header line are never line terminators. -/
theorem monthLine_no_nl (k : String) (hk : monthKeyShaped k = true) :
    ('\n' : Char) ∉ "### ".data ++ formatMonthHeader k := by
  obtain ⟨a, b, c, d, m1, m2, heq, hd, hF⟩ := formatMonthHeader_eval k hk
  have hdig : ∀ x ∈ ([a, b, c, d] : List Char), x.isDigit = true := by
    have hk2 := hk
    unfold monthKeyShaped at hk2
    rw [heq] at hk2
    simp only [Bool.and_eq_true] at hk2
    obtain ⟨⟨⟨⟨h1, h2⟩, h3⟩, h4⟩, hm⟩ := hk2
    intro x hx
    simp only [List.mem_cons, List.not_mem_nil, or_false] at hx
    rcases hx with rfl | rfl | rfl | rfl
    · exact h1
    · exact h2
    · exact h3
    · exact h4
  rw [hF]
  apply not_mem_append2
  · decide
  · apply not_mem_append2
    · unfold monthNameStr
      split <;> decide
    · intro hm
      rcases List.mem_cons.mp hm with he | hm2
      · exact absurd he (by decide)
      · have := hdig '\n' hm2
        exact absurd this (by decide)

/-- The boolean conjunction distributes over a list predicate. -/
theorem all_and_left {α : Type} {f g : α → Bool} {l : List α}
    (h : l.all (fun x => f x && g x) = true) : l.all f = true := by
  rw [List.all_eq_true] at h ⊢
  intro x hx
  have h2 := h x hx
  rw [Bool.and_eq_true] at h2
  exact h2.1

/-- The archive lookup of a present key returns the first entry with
that key. -/
theorem bucketLookup_mem (m : List (String × List Task)) (k : String)
    (h : k ∈ m.map Prod.fst) :
    ∃ ts, bucketLookup m k = some ts ∧ (k, ts) ∈ m := by
  unfold bucketLookup
  cases hf : m.find? (fun p => p.1 == k) with
  | none =>
    exfalso
    rw [List.mem_map] at h
    obtain ⟨p, hp, hpk⟩ := h
    have := List.find?_eq_none.mp hf p hp
    rw [hpk] at this
    exact this (beq_self_eq_true k)
  | some p =>
    have hpk := List.find?_some hf
    have hpm : p ∈ m := List.mem_of_find?_eq_some hf
    have hke : p.1 = k := eq_of_beq (by simpa using hpk)
    refine ⟨p.2, rfl, ?_⟩
    rw [← hke]
    exact hpm

/-- The serialized habit block. -/
def habitsBlock (hs : List DailyHabit) : List (List Char) :=
  if hs.isEmpty then [] else ("## Daily Habits".data :: hs.map serializeHabit) ++ [[]]

/-- The serialized section and archive lines after the habit block. -/
def sectionLines (m0 : List (String × List Task)) (imm wk un : List Task)
    (keys : List String) : List (List Char) :=
  "## Immediate".data :: imm.map (serializeTask · false) ++ [[]]
  ++ "## This week".data :: wk.map (serializeTask · false) ++ [[]]
  ++ "## Unscheduled".data :: un.map (serializeTask · false) ++ [[]]
  ++ (if keys.isEmpty then []
      else "## Completed".data :: [] :: (keys.map (monthBlock m0)).flatten)

/-- The encoder body is the habit block followed by the section
lines. -/
theorem bodyLines_eq (d : FocusData) :
    bodyLines d = habitsBlock d.habits
      ++ sectionLines d.completedTasks d.tasks.immediate d.tasks.thisWeek d.tasks.unscheduled
        ((stableSortBy strCmp (d.completedTasks.map (fun p => p.1))).reverse) := by
  unfold bodyLines habitsBlock sectionLines
  simp [List.append_assoc]

/-- Folding one blank line is the identity. -/
theorem fold_blank (ids : Nat → String) (st : ParseSt) :
    ([[]] : List (List Char)).foldl (procLine ids) st = st := by
  rw [show ([[]] : List (List Char)).foldl (procLine ids) st = procLine ids st [] from rfl,
    procLine_blank]

/-- Folding the section lines rebuilds the three renumbered section
lists and the renumbered archive. -/
theorem fold_rest (ids : Nat → String) (m0 : List (String × List Task))
    (imm wk un : List Task) (keys : List String) (hb : Bool) (habs : List DailyHabit) (n : Nat)
    (himm : imm.all taskOk = true) (hwk : wk.all taskOk = true) (hun : un.all taskOk = true)
    (hkprops : ∀ k ∈ keys, monthKeyShaped k = true ∧
      ∃ ts, bucketLookup m0 k = some ts ∧ ts ≠ [] ∧ ts.all taskOk = true)
    (hknd : keys.Nodup) :
    ((sectionLines m0 imm wk un keys).foldl (procLine ids)
        (⟨none, hb, false, none, habs, ⟨[], [], []⟩, [], n⟩ : ParseSt)).habits = habs
    ∧ ((sectionLines m0 imm wk un keys).foldl (procLine ids)
        (⟨none, hb, false, none, habs, ⟨[], [], []⟩, [], n⟩ : ParseSt)).tasks
      = ⟨renumActive ids n TaskSection.immediate imm,
         renumActive ids (n + imm.length) TaskSection.thisWeek wk,
         renumActive ids (n + imm.length + wk.length) TaskSection.unscheduled un⟩
    ∧ ((sectionLines m0 imm wk un keys).foldl (procLine ids)
        (⟨none, hb, false, none, habs, ⟨[], [], []⟩, [], n⟩ : ParseSt)).completedTasks
      = renumBuckets ids m0 (n + imm.length + wk.length + un.length) keys := by
  have h1 : ("## Immediate".data :: imm.map (serializeTask · false)).foldl (procLine ids)
      (⟨none, hb, false, none, habs, ⟨[], [], []⟩, [], n⟩ : ParseSt)
      = (⟨some TaskSection.immediate, false, false, none, habs,
          ⟨renumActive ids n TaskSection.immediate imm, [], []⟩, [],
          n + imm.length⟩ : ParseSt) := by
    rw [List.foldl_cons, procLine_immediate_header,
      fold_tasks ids TaskSection.immediate imm
        ({ (⟨none, hb, false, none, habs, ⟨[], [], []⟩, [], n⟩ : ParseSt) with
            currentSection := some TaskSection.immediate, inHabitsSection := false,
            inCompletedSection := false, currentMonth := none }) himm rfl rfl rfl]
    rfl
  have h2 : ("## This week".data :: wk.map (serializeTask · false)).foldl (procLine ids)
      (⟨some TaskSection.immediate, false, false, none, habs,
        ⟨renumActive ids n TaskSection.immediate imm, [], []⟩, [],
        n + imm.length⟩ : ParseSt)
      = (⟨some TaskSection.thisWeek, false, false, none, habs,
          ⟨renumActive ids n TaskSection.immediate imm,
           renumActive ids (n + imm.length) TaskSection.thisWeek wk, []⟩, [],
          n + imm.length + wk.length⟩ : ParseSt) := by
    rw [List.foldl_cons, procLine_thisWeek_header,
      fold_tasks ids TaskSection.thisWeek wk
        ({ (⟨some TaskSection.immediate, false, false, none, habs,
            ⟨renumActive ids n TaskSection.immediate imm, [], []⟩, [],
            n + imm.length⟩ : ParseSt) with
            currentSection := some TaskSection.thisWeek, inHabitsSection := false,
            inCompletedSection := false, currentMonth := none }) hwk rfl rfl rfl]
    rfl
  have h3 : ("## Unscheduled".data :: un.map (serializeTask · false)).foldl (procLine ids)
      (⟨some TaskSection.thisWeek, false, false, none, habs,
        ⟨renumActive ids n TaskSection.immediate imm,
         renumActive ids (n + imm.length) TaskSection.thisWeek wk, []⟩, [],
        n + imm.length + wk.length⟩ : ParseSt)
      = (⟨some TaskSection.unscheduled, false, false, none, habs,
          ⟨renumActive ids n TaskSection.immediate imm,
           renumActive ids (n + imm.length) TaskSection.thisWeek wk,
           renumActive ids (n + imm.length + wk.length) TaskSection.unscheduled un⟩, [],
          n + imm.length + wk.length + un.length⟩ : ParseSt) := by
    rw [List.foldl_cons, procLine_unscheduled_header,
      fold_tasks ids TaskSection.unscheduled un
        ({ (⟨some TaskSection.thisWeek, false, false, none, habs,
            ⟨renumActive ids n TaskSection.immediate imm,
             renumActive ids (n + imm.length) TaskSection.thisWeek wk, []⟩, [],
            n + imm.length + wk.length⟩ : ParseSt) with
            currentSection := some TaskSection.unscheduled, inHabitsSection := false,
            inCompletedSection := false, currentMonth := none }) hun rfl rfl rfl]
    rfl
  unfold sectionLines
  simp only [List.foldl_append]
  rw [h1]
  rw [fold_blank, fold_blank, fold_blank]
  rw [h2, h3]
  by_cases hke : keys.isEmpty = true
  · have hkeq : keys = [] := by
      cases keys with
      | nil => rfl
      | cons a as => simp at hke
    subst hkeq
    rw [if_pos (show ([] : List String).isEmpty = true from rfl)]
    exact ⟨rfl, rfl, rfl⟩
  · rw [if_neg hke]
    rw [List.foldl_cons, procLine_completed_header, List.foldl_cons, procLine_blank]
    obtain ⟨mh, mt, mc⟩ := fold_months ids m0 keys
      ({ (⟨some TaskSection.unscheduled, false, false, none, habs,
          ⟨renumActive ids n TaskSection.immediate imm,
           renumActive ids (n + imm.length) TaskSection.thisWeek wk,
           renumActive ids (n + imm.length + wk.length) TaskSection.unscheduled un⟩, [],
          n + imm.length + wk.length + un.length⟩ : ParseSt) with
          currentSection := none, inHabitsSection := false,
          inCompletedSection := true, currentMonth := none }) hkprops hknd
      (fun k hk p hp => absurd hp (List.not_mem_nil p)) rfl rfl
    exact ⟨mh.trans rfl, mt.trans rfl, mc.trans (by rw [List.nil_append])⟩

/-- No serialized body line holds a newline. -/
theorem bodyLines_no_nl (d : FocusData) (hwf : wellFormed d = true) :
    ∀ l ∈ bodyLines d, ('\n' : Char) ∉ l := by
  simp only [wellFormed, Bool.and_eq_true] at hwf
  obtain ⟨⟨⟨⟨⟨⟨⟨⟨⟨c1, c2⟩, c3⟩, c4⟩, c5⟩, c6⟩, c7⟩, c8⟩, c9⟩, c10⟩ := hwf
  intro l hl
  unfold bodyLines at hl
  simp only [List.mem_append] at hl
  rcases hl with ((((((hA | hB) | hC) | hD) | hE) | hF) | hG) | hH
  · by_cases hhe : d.habits.isEmpty = true
    · rw [if_pos hhe] at hA
      cases hA
    · rw [if_neg hhe] at hA
      rcases List.mem_append.mp hA with h1 | h1
      · rcases List.mem_cons.mp h1 with rfl | h2
        · decide
        · rw [List.mem_map] at h2
          obtain ⟨hh, hhm, rfl⟩ := h2
          exact serializeHabit_no_nl hh (List.all_eq_true.mp c4 hh hhm)
      · simp only [List.mem_singleton] at h1
        subst h1
        simp
  · rcases List.mem_cons.mp hB with rfl | h2
    · decide
    · rw [List.mem_map] at h2
      obtain ⟨t, htm, rfl⟩ := h2
      exact serializeTask_no_nl t false (List.all_eq_true.mp c6 t htm)
  · simp only [List.mem_singleton] at hC
    subst hC
    simp
  · rcases List.mem_cons.mp hD with rfl | h2
    · decide
    · rw [List.mem_map] at h2
      obtain ⟨t, htm, rfl⟩ := h2
      exact serializeTask_no_nl t false (List.all_eq_true.mp c7 t htm)
  · simp only [List.mem_singleton] at hE
    subst hE
    simp
  · rcases List.mem_cons.mp hF with rfl | h2
    · decide
    · rw [List.mem_map] at h2
      obtain ⟨t, htm, rfl⟩ := h2
      exact serializeTask_no_nl t false (List.all_eq_true.mp c8 t htm)
  · simp only [List.mem_singleton] at hG
    subst hG
    simp
  · by_cases hke : ((stableSortBy strCmp (d.completedTasks.map (fun p => p.1))).reverse).isEmpty
      = true
    · rw [if_pos hke] at hH
      cases hH
    · rw [if_neg hke] at hH
      rcases List.mem_cons.mp hH with rfl | h2
      · decide
      · rcases List.mem_cons.mp h2 with rfl | h3
        · simp
        · rw [List.mem_flatten] at h3
          obtain ⟨blk, hblk, hlb⟩ := h3
          rw [List.mem_map] at hblk
          obtain ⟨k, hkm, rfl⟩ := hblk
          have hkmem : k ∈ d.completedTasks.map Prod.fst := by
            have h4 := List.mem_reverse.mp hkm
            exact ((stableSortBy_perm strCmp _).mem_iff).mp h4
          obtain ⟨ts, hbl, hentry⟩ := bucketLookup_mem d.completedTasks k hkmem
          have hprops := List.all_eq_true.mp c9 (k, ts) hentry
          rw [Bool.and_eq_true, Bool.and_eq_true] at hprops
          unfold monthBlock at hlb
          rw [hbl] at hlb
          simp only [] at hlb
          by_cases hte : ts.isEmpty = true
          · rw [if_pos hte] at hlb
            cases hlb
          · rw [if_neg hte] at hlb
            rcases List.mem_append.mp hlb with h5 | h5
            · rcases List.mem_cons.mp h5 with rfl | h6
              · exact monthLine_no_nl k hprops.1.1
              · rw [List.mem_map] at h6
                obtain ⟨t, htm, rfl⟩ := h6
                have htok := List.all_eq_true.mp (all_and_left hprops.2) t htm
                exact serializeTask_no_nl t true htok
            · simp only [List.mem_singleton] at h5
              subst h5
              simp

/-- Folding the habit block loads the renumbered habits. -/
theorem fold_habitsBlock (ids : Nat → String) (hs : List DailyHabit) (n : Nat)
    (hok : hs.all habitOk = true) (hlen : hs.length ≤ 3) :
    ∃ hb : Bool, (habitsBlock hs).foldl (procLine ids)
        (⟨none, false, false, none, [], ⟨[], [], []⟩, [], n⟩ : ParseSt)
      = (⟨none, hb, false, none, renumHabits ids n hs, ⟨[], [], []⟩, [],
          n + hs.length⟩ : ParseSt) := by
  by_cases hhe : hs.isEmpty = true
  · refine ⟨false, ?_⟩
    have hnil : hs = [] := by
      cases hs with
      | nil => rfl
      | cons a as => cases hhe
    subst hnil
    unfold habitsBlock
    rw [if_pos (show (List.isEmpty ([] : List DailyHabit)) = true from rfl)]
    rfl
  · refine ⟨true, ?_⟩
    unfold habitsBlock
    rw [if_neg hhe]
    have hstep : ("## Daily Habits".data :: hs.map serializeHabit).foldl (procLine ids)
        (⟨none, false, false, none, [], ⟨[], [], []⟩, [], n⟩ : ParseSt)
        = (⟨none, true, false, none, renumHabits ids n hs, ⟨[], [], []⟩, [],
            n + hs.length⟩ : ParseSt) := by
      rw [List.foldl_cons, procLine_habits_header,
        fold_habits ids hs ({ (⟨none, false, false, none, [], ⟨[], [], []⟩, [],
            n⟩ : ParseSt) with
            currentSection := none, inHabitsSection := true,
            inCompletedSection := false, currentMonth := none }) hok rfl
          (by simpa using hlen)]
      rfl
    rw [List.foldl_append, hstep, fold_blank]

/-- Claim C1 (corrected): decoding an encoded well-formed document is
not the identity but the round-trip model: every id is regenerated in
document order, each active task is stamped with the section of the
list holding it and loses its completion date, archived tasks come
back completed in the unscheduled section, and the archive is
reordered most-recent-first.  All other fields survive exactly. -/
theorem C1_roundtrip_amended (ids : Nat → String) (today : String) (d : FocusData)
    (hwf : wellFormed d = true) :
    parseTaskFile ids today (serializeTaskFile d) = roundTripModel ids d := by
  have hwf2 := hwf
  simp only [wellFormed, Bool.and_eq_true] at hwf2
  obtain ⟨⟨⟨⟨⟨⟨⟨⟨⟨c1, c2⟩, c3⟩, c4⟩, c5⟩, c6⟩, c7⟩, c8⟩, c9⟩, c10⟩ := hwf2
  have hkprops : ∀ k ∈ (stableSortBy strCmp (d.completedTasks.map (fun p => p.1))).reverse,
      monthKeyShaped k = true ∧
      ∃ ts, bucketLookup d.completedTasks k = some ts ∧ ts ≠ [] ∧ ts.all taskOk = true := by
    intro k hkm
    have hkmem : k ∈ d.completedTasks.map Prod.fst :=
      ((stableSortBy_perm strCmp _).mem_iff).mp (List.mem_reverse.mp hkm)
    obtain ⟨ts, hbl, hentry⟩ := bucketLookup_mem d.completedTasks k hkmem
    have hprops := List.all_eq_true.mp c9 (k, ts) hentry
    rw [Bool.and_eq_true, Bool.and_eq_true] at hprops
    refine ⟨hprops.1.1, ts, hbl, ?_, all_and_left hprops.2⟩
    intro hte
    rw [hte] at hprops
    have h2 := hprops.1.2
    simp at h2
  have hknd : ((stableSortBy strCmp (d.completedTasks.map (fun p => p.1))).reverse).Nodup := by
    rw [List.nodup_reverse]
    exact ((stableSortBy_perm strCmp _).nodup_iff).mpr (of_decide_eq_true c10)
  unfold parseTaskFile serializeTaskFile parseTaskFileCh
  rw [show (String.mk (joinLines (serializeFileLines d))).data
      = joinLines (serializeFileLines d) from rfl]
  rw [parseFrontmatter_serialized ids today d c1 c2 c3]
  simp only []
  rw [show splitChar '\n' ('\n' :: '\n' :: joinLines (bodyLines d))
      = [] :: [] :: splitChar '\n' (joinLines (bodyLines d)) from rfl,
    splitChar_joinLines (bodyLines d) (bodyLines_ne_nil d) (bodyLines_no_nl d hwf)]
  rw [bodyLines_eq]
  rw [List.foldl_cons, procLine_blank, List.foldl_cons, procLine_blank, List.foldl_append]
  obtain ⟨hb, hhb⟩ := fold_habitsBlock ids d.habits d.goals.length c4 (of_decide_eq_true c5)
  rw [hhb]
  obtain ⟨rh, rt, rc⟩ := fold_rest ids d.completedTasks d.tasks.immediate d.tasks.thisWeek
    d.tasks.unscheduled ((stableSortBy strCmp (d.completedTasks.map (fun p => p.1))).reverse)
    hb (renumHabits ids d.goals.length d.habits) (d.goals.length + d.habits.length)
    c6 c7 c8 hkprops hknd
  rw [rh, rt, rc]
  unfold roundTripModel renumHabits
  rfl


/-- Id supply of the round-trip witness. -/
def w1Ids (n : Nat) : String := String.mk ('w' :: natDigits n)

/-- A well-formed document exercising every encoder feature: goals,
habits, annotated tasks in all three sections and two archive
months. -/
def w1Data : FocusData :=
  { weekOf := "2026-02-23",
    goals := [⟨"g1", "Ship the report"⟩, ⟨"g2", "Exercise twice"⟩],
    habits := [⟨"h1", "Stretch", true⟩, ⟨"h2", "Read", false⟩],
    habitResetDate := "2026-02-23",
    tasks := ⟨[⟨"a1", "Send invoice", false, none, TaskSection.immediate,
                some "https://pay.example.com/i9", some "2026-02-24", some "9:30", none⟩],
              [⟨"b1", "Water plants", false, none, TaskSection.thisWeek, none, none, none,
                some ⟨RecurrenceType.days, 3, none, none⟩⟩,
               ⟨"b2", "Team sync", true, none, TaskSection.thisWeek, none,
                some "2026-02-25", none, none⟩],
              [⟨"c1", "Clean garage", false, none, TaskSection.unscheduled, none, none,
                none, some ⟨RecurrenceType.months, 1, none, some 31⟩⟩]⟩,
    completedTasks :=
      [("2026-01", [⟨"d1", "File taxes", true, some "2026-01-20", TaskSection.immediate,
          none, none, none, none⟩]),
       ("2026-02", [⟨"e1", "Book flights", true, some "2026-02-02", TaskSection.thisWeek,
          some "http://fly.example.net/x", none, none, none⟩,
         ⟨"e2", "Renew passport", true, some "2026-02-10", TaskSection.unscheduled,
          none, none, none, some ⟨RecurrenceType.weeks, 2, some 4, none⟩⟩])] }

/-- Witness of the corrected round trip: the example document is
well-formed and its decode of its encode is exactly the renumbered
model. -/
theorem C1_roundtrip_amended_witness :
    wellFormed w1Data = true
    ∧ parseTaskFile w1Ids "2026-03-01" (serializeTaskFile w1Data)
        = roundTripModel w1Ids w1Data :=
  ⟨by decide, C1_roundtrip_amended w1Ids "2026-03-01" w1Data (by decide)⟩

end Focus
